import Mathlib

/-!
Demo request intake: rate limiter, duplicate detector, persistence, coordinator.

A shallow embedding of the demo-request helpers and handlers of `src/server.js`.
Module-level mutable state (`rateLimitStore`, `inMemoryDemoRequests`, the log
file) is passed explicitly; clock reads (`Date.now()`), generated identifiers and
the results of file-system calls are inputs of the function that performs them.
The built-ins whose result is the engine's (`JSON`, `Date`,
`String.prototype.toLowerCase`) are the fields of `Host`.
-/

namespace DemoIntake

/-! ## JavaScript values and string built-ins -/

/-- A value as it arrives in a JSON request body or is stored in a record.
Numbers are the integers (the numeric fields hold epoch milliseconds); an object
or array is carried as its JSON text and is always truthy. -/
inductive JsValue where
  | undefined
  | null
  | bool (b : Bool)
  | number (n : Int)
  | string (s : String)
  | object (json : String)
  deriving DecidableEq, Repr

/-- JavaScript truthiness (`!v` is its negation). -/
def JsValue.truthy : JsValue → Bool
  | .undefined => false
  | .null => false
  | .bool b => b
  | .number n => decide (n ≠ 0)
  | .string s => decide (s ≠ "")
  | .object _ => true

/-- The code points of ECMAScript's WhiteSpace and LineTerminator productions:
what `String.prototype.trim` strips and what `\s` matches. -/
def isJsWhiteSpace (c : Char) : Bool :=
  let n := c.toNat
  n == 0x09 || n == 0x0A || n == 0x0B || n == 0x0C || n == 0x0D || n == 0x20 ||
  n == 0xA0 || n == 0x1680 || (0x2000 ≤ n && n ≤ 0x200A) || n == 0x2028 ||
  n == 0x2029 || n == 0x202F || n == 0x205F || n == 0x3000 || n == 0xFEFF

/-- The method `String.prototype.trim`. -/
def jsTrim (s : String) : String :=
  ⟨((s.data.dropWhile isJsWhiteSpace).reverse.dropWhile isJsWhiteSpace).reverse⟩

/-- The persisted record (`requestData` of the POST handler, and what a line of
the log parses to). A missing or otherwise falsy `requestId` is the empty string. -/
structure DemoRequest where
  requestId : String
  email : String
  userType : String
  socialHandle : String
  socialPlatform : String
  source : JsValue
  timestamp : JsValue
  ipAddress : String
  createdAt : String
  deriving DecidableEq, Repr

/-- The built-ins of the JavaScript host the helpers call. `jsonParse line` is
`JSON.parse(line)` read as a record, `none` when it throws or yields `null` (the
source drops both); `dateGetTime s` is `new Date(s).getTime()`, `none` for `NaN`;
`toISOString t` is `new Date(t).toISOString()`; `toLowerCase s` is
`s.toLowerCase()`, the lowercasing of the Unicode tables the engine ships. -/
structure Host where
  jsonParse : String → Option DemoRequest
  jsonStringify : DemoRequest → String
  dateGetTime : String → Option Int
  toISOString : Int → String
  toLowerCase : String → String

/-- The method `String.prototype.toLowerCase`: a built-in of the host. -/
def jsToLowerCase (host : Host) (s : String) : String :=
  host.toLowerCase s

/-- What `toLowerCase` does to a string of ASCII characters: `A`–`Z` become
`a`–`z` and every other character stays. -/
def asciiToLowerCase (s : String) : String :=
  ⟨s.data.map Char.toLower⟩

/-- A fact of `String.prototype.toLowerCase` in every engine: on a string of
ASCII characters it lowercases `A`–`Z` and nothing else. -/
def LowerCaseOnAscii (host : Host) : Prop :=
  ∀ s : String, (∀ c ∈ s.data, c.toNat < 128) → host.toLowerCase s = asciiToLowerCase s

/-- A fact of `String.prototype.toLowerCase` in every engine: white space stays
where it is and nothing else becomes white space, so lowercasing commutes with
`trim`. -/
def LowerCaseCommutesWithTrim (host : Host) : Prop :=
  ∀ s : String, jsTrim (host.toLowerCase s) = host.toLowerCase (jsTrim s)

/-- A fact of `String.prototype.toLowerCase` in every engine: a lowercased
string is its own lowercasing. -/
def LowerCaseIdempotent (host : Host) : Prop :=
  ∀ s : String, host.toLowerCase (host.toLowerCase s) = host.toLowerCase s

/-- A fact of `String.prototype.toLowerCase` in every engine: lowercasing
neither adds nor removes an `@`, and yields no white space from a string without
white space. -/
def LowerCaseKeepsAtAndSpace (host : Host) : Prop :=
  ∀ s : String, (host.toLowerCase s).data.count '@' = s.data.count '@' ∧
    ((∀ c ∈ s.data, isJsWhiteSpace c = false) →
      ∀ c ∈ (host.toLowerCase s).data, isJsWhiteSpace c = false)

/-- `normalizeEmail`: `email ? email.toLowerCase().trim() : ''`. -/
def normalizeEmail (host : Host) (email : String) : String :=
  if email ≠ "" then jsTrim (jsToLowerCase host email) else ""

/-! ## Rate limiter -/

/-- One side of `rateLimitStore` (`ip` or `email`): an object whose own
properties map a key to `{ requests: [...] }`, in insertion order. Keys are the
client addresses and normalized emails the handler passes, none of which is a
property name inherited from `Object.prototype`. -/
abbrev WindowMap := List (String × List Int)

/-- The `requests` array stored under `key`, if the property exists. -/
def WindowMap.get? (m : WindowMap) (key : String) : Option (List Int) :=
  match m with
  | [] => none
  | (k, v) :: rest => if k = key then some v else WindowMap.get? rest key

/-- Assignment `m[key] = { requests }`: replaces in place, or adds a property. -/
def WindowMap.set (m : WindowMap) (key : String) (requests : List Int) : WindowMap :=
  match m with
  | [] => [(key, requests)]
  | (k, v) :: rest =>
    if k = key then (k, requests) :: rest else (k, v) :: WindowMap.set rest key requests

/-- The timestamp sequence of a window, an absent window counted as empty. -/
def WindowMap.window (m : WindowMap) (key : String) : List Int :=
  (m.get? key).getD []

/-- The module-level `rateLimitStore = { ip: {}, email: {} }`. -/
structure RateLimitStore where
  ip : WindowMap
  email : WindowMap
  deriving DecidableEq, Repr

/-- The initial store. -/
def RateLimitStore.empty : RateLimitStore := ⟨[], []⟩

/-- What `checkRateLimit` returns: `{ limited: true, type, limit, retryAfter }`
or `{ limited: false }`. -/
inductive RateLimitResult where
  | limited (type : String) (limit : String) (retryAfter : Nat)
  | notLimited
  deriving DecidableEq, Repr

def oneHour : Int := 60 * 60 * 1000
def oneDay : Int := 24 * 60 * 60 * 1000

/-- The statement `if (!rateLimitStore.ip[ip]) rateLimitStore.ip[ip] = { requests: [] }`. -/
def RateLimitStore.ensureIp (store : RateLimitStore) (ip : String) : RateLimitStore :=
  if (store.ip.get? ip).isNone then { store with ip := store.ip.set ip [] } else store

/-- The statement `if (!rateLimitStore.email[e]) rateLimitStore.email[e] = { requests: [] }`. -/
def RateLimitStore.ensureEmail (store : RateLimitStore) (e : String) : RateLimitStore :=
  if (store.email.get? e).isNone then { store with email := store.email.set e [] } else store

/-- The statement `rateLimitStore.ip[ip].requests.push(now)`. -/
def RateLimitStore.pushIp (store : RateLimitStore) (ip : String) (now : Int) : RateLimitStore :=
  { store with ip := store.ip.set ip (store.ip.window ip ++ [now]) }

/-- The statement `rateLimitStore.email[e].requests.push(now)`. -/
def RateLimitStore.pushEmail (store : RateLimitStore) (e : String) (now : Int) : RateLimitStore :=
  { store with email := store.email.set e (store.email.window e ++ [now]) }

/-- `checkRateLimit(ip, email)` with `now = Date.now()`; returns the result and
the store as the call leaves it. -/
def checkRateLimit (host : Host) (store : RateLimitStore) (ip email : String) (now : Int) :
    RateLimitResult × RateLimitStore :=
  let store1 := store.ensureIp ip
  let ipRequests := (store1.ip.window ip).filter (fun time => decide (now - time < oneDay))
  let ipRequestsLastHour := ipRequests.filter (fun time => decide (now - time < oneHour))
  if ipRequestsLastHour.length ≥ 10 then
    (.limited "ip" "hour" 3600, store1)
  else if ipRequests.length ≥ 50 then
    (.limited "ip" "day" 86400, store1)
  else
    let normalizedEmail := normalizeEmail host email
    let store2 := store1.ensureEmail normalizedEmail
    let emailRequests :=
      (store2.email.window normalizedEmail).filter (fun time => decide (now - time < oneDay))
    if emailRequests.length ≥ 3 then
      (.limited "email" "day" 86400, store2)
    else
      ((.notLimited : RateLimitResult), (store2.pushIp ip now).pushEmail normalizedEmail now)

/-- The policy in the words of the specification: the number of timestamps of a
window that are less than `span` milliseconds old at `now`. -/
def recentCount (w : List Int) (now span : Int) : Nat :=
  w.countP (fun t => decide (now - t < span))

/-- The policy in the words of the specification: three limits in fixed order,
first violation wins. -/
def rateLimitPolicy (ipWindow emailWindow : List Int) (now : Int) : RateLimitResult :=
  if 10 ≤ recentCount ipWindow now (60 * 60 * 1000) then .limited "ip" "hour" 3600
  else if 50 ≤ recentCount ipWindow now (24 * 60 * 60 * 1000) then .limited "ip" "day" 86400
  else if 3 ≤ recentCount emailWindow now (24 * 60 * 60 * 1000) then .limited "email" "day" 86400
  else .notLimited

/-- A sequence of `checkRateLimit` calls, each `(ip, email, now)`, threaded
through the store; returns the results in call order and the final store. -/
def runRateLimit (host : Host) (store : RateLimitStore) :
    List (String × String × Int) → List RateLimitResult × RateLimitStore
  | [] => ([], store)
  | (ip, email, now) :: rest =>
    let r := checkRateLimit host store ip email now
    let rs := runRateLimit host r.2 rest
    (r.1 :: rs.1, rs.2)

/-! ## The file system -/

/-- Error codes of a failed `fs` call. -/
inductive FsError where
  | ENOENT
  | EROFS
  | EPERM
  | other (code : String)
  deriving DecidableEq, Repr

/-- `fs.readFile(DEMO_REQUESTS_FILE, 'utf-8')` on a file holding `file` (`none`
when it does not exist); `fault` is an error the file system raises instead. -/
def fsReadFile (file : Option String) (fault : Option FsError) : Except FsError String :=
  match fault with
  | some e => .error e
  | none =>
    match file with
    | none => .error FsError.ENOENT
    | some content => .ok content

/-- `fs.appendFile(DEMO_REQUESTS_FILE, data, 'utf-8')`: fails with `fault`, or
appends (creating the file when it does not exist). Returns the file as left. -/
def fsAppendFile (file : Option String) (data : String) (fault : Option FsError) :
    Except FsError (Option String) :=
  match fault with
  | some e => .error e
  | none => .ok (some (file.getD "" ++ data))

/-- `fs.writeFile(DEMO_REQUESTS_FILE, data, 'utf-8')`: fails with `fault`, or
replaces the content. -/
def fsWriteFile (data : String) (fault : Option FsError) : Except FsError (Option String) :=
  match fault with
  | some e => .error e
  | none => .ok (some data)

/-- `s.split('\n')`. -/
def jsSplitLines (s : String) : List String :=
  (s.data.splitOn '\n').map String.mk

/-- `s.startsWith(p)`. -/
def jsStartsWith (s p : String) : Bool :=
  p.data.isPrefixOf s.data

/-- `s.endsWith(p)`. -/
def jsEndsWith (s p : String) : Bool :=
  p.data.isSuffixOf s.data

/-! ## Persistence layer -/

/-- The `Map` built by `readDemoRequests`, in insertion order. -/
abbrev RequestMap := List (String × DemoRequest)

/-- `map.set(key, value)`: replaces the value in place, or adds an entry. -/
def RequestMap.set (m : RequestMap) (key : String) (value : DemoRequest) : RequestMap :=
  match m with
  | [] => [(key, value)]
  | (k, v) :: rest =>
    if k = key then (k, value) :: rest else (k, v) :: RequestMap.set rest key value

/-- `map.get(key)`. -/
def RequestMap.get? (m : RequestMap) (key : String) : Option DemoRequest :=
  match m with
  | [] => none
  | (k, v) :: rest => if k = key then some v else RequestMap.get? rest key

/-- `Array.from(map.values())`. -/
def RequestMap.values (m : RequestMap) : List DemoRequest :=
  m.map Prod.snd

/-- The keys of the map, in insertion order. -/
def RequestMap.keys (m : RequestMap) : List String :=
  m.map Prod.fst

/-- The last record of a list that carries the identifier `id`. -/
def lastWithId (reqs : List DemoRequest) (id : String) : Option DemoRequest :=
  (reqs.filter (fun r => decide (r.requestId = id))).getLast?

/-- The loop `for (const req of reqs) { if (req.requestId) map.set(req.requestId, req) }`. -/
def RequestMap.addAll (m : RequestMap) (reqs : List DemoRequest) : RequestMap :=
  reqs.foldl (fun acc req => if req.requestId ≠ "" then acc.set req.requestId req else acc) m

/-- The filter `line => line.trim() && !line.startsWith('#')`. -/
def isRecordLine (line : String) : Bool :=
  decide (jsTrim line ≠ "") && !(jsStartsWith line "#")

/-- The `try` block of `readDemoRequests` once `readFile` has returned `content`. -/
def parseLog (host : Host) (content : String) : List DemoRequest :=
  let lines := (jsSplitLines content).filter isRecordLine
  (lines.map host.jsonParse).filterMap id

/-- The text whose lines are `ls`: the lines joined by `'\n'`. -/
def joinLines (ls : List String) : String :=
  ⟨['\n'].intercalate (ls.map String.data)⟩

/-- The record a line of the log contributes: its parse result when it is a
record line (not blank, not starting with `#`) that parses, and nothing otherwise. -/
def parsedRecord (host : Host) (line : String) : Option DemoRequest :=
  if isRecordLine line then host.jsonParse line else none

/-- `fileRequests` of `readDemoRequests`: the parsed log, or `[]` when reading
failed (both `catch` branches only log). -/
def fileRequests (host : Host) (readResult : Except FsError String) : List DemoRequest :=
  match readResult with
  | .ok content => parseLog host content
  | .error _ => []

/-- `readDemoRequests()` given the result of its `readFile` call and the
in-process array. -/
def readDemoRequests (host : Host) (readResult : Except FsError String)
    (inMemoryDemoRequests : List DemoRequest) : List DemoRequest :=
  let allRequestsMap : RequestMap := RequestMap.addAll [] (fileRequests host readResult)
  let allRequestsMap := allRequestsMap.addAll inMemoryDemoRequests
  allRequestsMap.values

/-- The header `writeDemoRequest` writes when it creates the file. -/
def logHeader : String :=
  "# Demo Requests Storage\n# Format: One JSON object per line\n# Each line contains: requestId, email, userType, socialHandle, socialPlatform, source, timestamp, ipAddress, createdAt\n\n"

/-- The in-process array and the log file. -/
structure Persistence where
  inMemoryDemoRequests : List DemoRequest
  file : Option String
  deriving DecidableEq, Repr

/-- `writeDemoRequest(data)`: `appendFault` and `writeFault` are the errors the
file system raises for `appendFile` and for the fallback `writeFile`. -/
def writeDemoRequest (host : Host) (p : Persistence) (appendFault writeFault : Option FsError)
    (data : DemoRequest) : Persistence :=
  -- inMemoryDemoRequests.push(data)
  let p1 : Persistence := { p with inMemoryDemoRequests := p.inMemoryDemoRequests ++ [data] }
  let line := host.jsonStringify data ++ "\n"
  match fsAppendFile p1.file line appendFault with
  | .ok file => { p1 with file := file }
  | .error FsError.ENOENT =>
    match fsWriteFile (logHeader ++ line) writeFault with
    | .ok file => { p1 with file := file }
    | .error _ => p1
  | .error _ => p1

/-! ## Duplicate detector -/

def thirtyDays : Int := 30 * 24 * 60 * 60 * 1000

/-- `checkDuplicate(email)` with `now = Date.now()`, given the result of the
`readFile` call made by `readDemoRequests`. `createdAt > thirtyDaysAgo` is false
when `createdAt` is `NaN`. -/
def checkDuplicate (host : Host) (readResult : Except FsError String)
    (inMemoryDemoRequests : List DemoRequest) (email : String) (now : Int) :
    Option DemoRequest :=
  let requests := readDemoRequests host readResult inMemoryDemoRequests
  let normalizedEmail := normalizeEmail host email
  let thirtyDaysAgo := now - thirtyDays
  requests.find? (fun req =>
    if normalizeEmail host req.email ≠ normalizedEmail then false
    else
      match host.dateGetTime req.createdAt with
      | none => false
      | some createdAt => decide (createdAt > thirtyDaysAgo))

/-- The duplicate condition in the words of the specification: the record's
normalized email equals the normalized query email and its `createdAt` parses to
a time later than `now` minus 30 days. -/
def IsRecentMatch (host : Host) (email : String) (now : Int) (r : DemoRequest) : Prop :=
  normalizeEmail host r.email = normalizeEmail host email ∧
    ∃ t, host.dateGetTime r.createdAt = some t ∧ now - 2592000000 < t

/-! ## Validation and normalization -/

/-- `s.length`: the number of UTF-16 code units. -/
def jsLength (s : String) : Nat :=
  (s.data.map (fun c => if c.toNat < 0x10000 then 1 else 2)).sum

/-- `/^[^\s@]+@[^\s@]+\.[^\s@]+$/.test(s)`: a non-empty local part without
whitespace or `@`, one `@`, and a domain without whitespace or `@` that has a
`.` with at least one character on each side. -/
def emailRegexTest (s : String) : Bool :=
  let localPart := s.data.takeWhile (fun c => c != '@')
  match s.data.dropWhile (fun c => c != '@') with
  | [] => false
  | _ :: domain =>
    !localPart.isEmpty && localPart.all (fun c => !isJsWhiteSpace c) &&
    domain.all (fun c => !isJsWhiteSpace c && c != '@') &&
    ((domain.drop 1).dropLast).contains '.'

/-- `validateEmail(email)`. -/
def validateEmail (email : JsValue) : Bool :=
  match email with
  | .string s =>
    if s = "" then false
    else if !emailRegexTest s then false
    else if jsLength s > 255 then false
    else true
  | _ => false

/-- `stripAtSymbol(handle)`: `handle.replace(/^@+/, '').trim()`, and `''` for a
falsy or non-string handle. -/
def stripAtSymbol (handle : JsValue) : String :=
  match handle with
  | .string s => if s = "" then "" else jsTrim ⟨s.data.dropWhile (fun c => c == '@')⟩
  | _ => ""

/-- A character of the class `[a-zA-Z0-9_-]`. -/
def isHandleChar (c : Char) : Bool :=
  ('a' ≤ c && c ≤ 'z') || ('A' ≤ c && c ≤ 'Z') || ('0' ≤ c && c ≤ '9') || c == '_' || c == '-'

/-- `/^[a-zA-Z0-9_-]+$/.test(s)`. -/
def handleRegexTest (s : String) : Bool :=
  !s.data.isEmpty && s.data.all isHandleChar

/-- `validateSocialHandle(handle)`. -/
def validateSocialHandle (handle : JsValue) : Bool :=
  match handle with
  | .string s =>
    if s = "" then false
    else
      let cleaned := stripAtSymbol handle
      if jsLength cleaned < 3 || jsLength cleaned > 50 then false
      else if !handleRegexTest cleaned then false
      else if jsStartsWith cleaned "-" || jsStartsWith cleaned "_" ||
          jsEndsWith cleaned "-" || jsEndsWith cleaned "_" then false
      else true
  | _ => false

/-- `normalizeUserType(type)`. -/
def normalizeUserType (host : Host) (type : JsValue) : String :=
  match type with
  | .string s =>
    if s = "" then ""
    else
      let normalized := jsTrim (jsToLowerCase host s)
      if normalized = "creator" || normalized = "project_owner" then normalized else ""
  | _ => ""

/-- `normalizePlatform(platform)`. -/
def normalizePlatform (host : Host) (platform : JsValue) : String :=
  match platform with
  | .string s =>
    if s = "" then ""
    else
      let normalized := jsTrim (jsToLowerCase host s)
      if normalized = "telegram" || normalized = "x" then normalized else ""
  | _ => ""

/-- `generateRequestId()`, with `uuid` the value `uuidv4()` returns: `'req_'`
followed by the first 12 code units of the UUID with every hyphen removed. -/
def generateRequestId (uuid : String) : String :=
  "req_" ++ ⟨(uuid.data.filter (fun c => c != '-')).take 12⟩

/-! ## Request coordinator -/

/-- The fields the POST handler destructures from `req.body`. -/
structure DemoRequestBody where
  email : JsValue
  userType : JsValue
  socialHandle : JsValue
  socialPlatform : JsValue
  source : JsValue
  timestamp : JsValue
  deriving DecidableEq, Repr

/-- An entry of `validationErrors`. -/
structure FieldError where
  field : String
  message : String
  deriving DecidableEq, Repr

/-- The validation block of the POST handler: the array `validationErrors` as it
stands when the handler tests `validationErrors.length > 0`. -/
def validateBody (host : Host) (body : DemoRequestBody) : List FieldError :=
  let validationErrors : List FieldError := []
  let validationErrors :=
    if !body.email.truthy then
      validationErrors ++ [⟨"email", "Email is required"⟩]
    else if !validateEmail body.email then
      validationErrors ++ [⟨"email", "Invalid email format"⟩]
    else validationErrors
  let validationErrors :=
    if !body.userType.truthy then
      validationErrors ++ [⟨"userType", "User type is required"⟩]
    else if normalizeUserType host body.userType = "" then
      validationErrors ++
        [⟨"userType", "User type must be either \"creator\" or \"project_owner\""⟩]
    else validationErrors
  let validationErrors :=
    if !body.socialHandle.truthy then
      validationErrors ++ [⟨"socialHandle", "Social handle is required"⟩]
    else if !validateSocialHandle body.socialHandle then
      validationErrors ++ [⟨"socialHandle",
        "Social handle must be 3-50 characters, alphanumeric with underscores and hyphens"⟩]
    else validationErrors
  let validationErrors :=
    if !body.socialPlatform.truthy then
      validationErrors ++ [⟨"socialPlatform", "Social platform is required"⟩]
    else if normalizePlatform host body.socialPlatform = "" then
      validationErrors ++
        [⟨"socialPlatform", "Social platform must be either \"telegram\" or \"x\""⟩]
    else validationErrors
  let validationErrors :=
    match body.source with
    | .string src =>
      if src ≠ "" && decide (jsLength src > 100) then
        validationErrors ++ [⟨"source", "Source must be maximum 100 characters"⟩]
      else validationErrors
    | _ => validationErrors
  validationErrors

/-- The string held by a value (`''` for anything else); the handler normalizes
`email` only after validation has established that it is a string. -/
def JsValue.asString : JsValue → String
  | .string s => s
  | _ => ""

/-- The module-level state the demo-request handlers share. -/
structure ServerState where
  rateLimitStore : RateLimitStore
  persistence : Persistence
  deriving DecidableEq, Repr

/-- One POST: the body, the client address, and what the environment answers
during the call: the clock at each read, the UUID, and file-system faults. -/
structure PostRequest where
  body : DemoRequestBody
  clientIp : String
  rateLimitNow : Int
  duplicateNow : Int
  createdNow : Int
  timestampNow : Int
  uuid : String
  readFault : Option FsError
  appendFault : Option FsError
  writeFault : Option FsError
  deriving DecidableEq, Repr

/-- The response of a demo-request handler: status code and the fields of
`data` or of `error.details` (the envelope's own `timestamp` is left out). -/
inductive Response where
  | created (requestId email userType status createdAt : String)
  | validationError (details : List FieldError)
  | rateLimitExceeded (retryAfter : Nat)
  | duplicateRequest (existingRequestId submittedAt : String)
  | invalidParameters
  | listed (requesters : List DemoRequest)
      (currentPage pageSize : Int) (totalElements totalPages : Nat)
  | internalError
  deriving DecidableEq, Repr

/-- The HTTP status of a response. -/
def Response.status : Response → Nat
  | .created .. => 201
  | .validationError _ => 400
  | .rateLimitExceeded _ => 429
  | .duplicateRequest .. => 409
  | .invalidParameters => 400
  | .listed .. => 200
  | .internalError => 500

/-- The `error.code` of a response, `""` for a success. -/
def Response.code : Response → String
  | .created .. => ""
  | .validationError _ => "VALIDATION_ERROR"
  | .rateLimitExceeded _ => "RATE_LIMIT_EXCEEDED"
  | .duplicateRequest .. => "DUPLICATE_REQUEST"
  | .invalidParameters => "INVALID_PARAMETERS"
  | .listed .. => ""
  | .internalError => "INTERNAL_ERROR"

/-- The stages of the POST handler, in the order of its source text. -/
inductive Stage where
  | validating
  | rateChecking
  | duplicateChecking
  | persisting
  deriving DecidableEq, Repr

/-- What one POST produces: the response, the state it leaves, and the stages
the handler ran (validation block, `checkRateLimit`, `checkDuplicate`,
`writeDemoRequest`), in order. -/
structure PostResult where
  response : Response
  state : ServerState
  stages : List Stage
  deriving DecidableEq, Repr

/-- The record the POST handler builds (`requestData`). -/
def buildRequestData (host : Host) (req : PostRequest) : DemoRequest :=
  { requestId := generateRequestId req.uuid
    email := normalizeEmail host req.body.email.asString
    userType := normalizeUserType host req.body.userType
    socialHandle := stripAtSymbol req.body.socialHandle
    socialPlatform := normalizePlatform host req.body.socialPlatform
    source := if req.body.source.truthy then req.body.source else JsValue.null
    timestamp :=
      if req.body.timestamp.truthy then req.body.timestamp else JsValue.number req.timestampNow
    ipAddress := req.clientIp
    createdAt := host.toISOString req.createdNow }

/-- The handler `app.post('/api/v1/demo-requests', ...)`. -/
def postDemoRequest (host : Host) (st : ServerState) (req : PostRequest) : PostResult :=
  let validationErrors := validateBody host req.body
  if validationErrors.length > 0 then
    ⟨.validationError validationErrors, st, [.validating]⟩
  else
    let normalizedEmail := normalizeEmail host req.body.email.asString
    let normalizedUserType := normalizeUserType host req.body.userType
    let rateLimitCheck := checkRateLimit host st.rateLimitStore req.clientIp normalizedEmail
      req.rateLimitNow
    let st1 : ServerState := { st with rateLimitStore := rateLimitCheck.2 }
    match rateLimitCheck.1 with
    | .limited _ _ retryAfter =>
      ⟨.rateLimitExceeded retryAfter, st1, [.validating, .rateChecking]⟩
    | .notLimited =>
      let duplicate := checkDuplicate host (fsReadFile st1.persistence.file req.readFault)
        st1.persistence.inMemoryDemoRequests normalizedEmail req.duplicateNow
      match duplicate with
      | some dup =>
        ⟨.duplicateRequest dup.requestId dup.createdAt, st1,
          [.validating, .rateChecking, .duplicateChecking]⟩
      | none =>
        let requestData := buildRequestData host req
        let st2 : ServerState :=
          { st1 with
            persistence :=
              writeDemoRequest host st1.persistence req.appendFault req.writeFault requestData }
        ⟨.created requestData.requestId normalizedEmail normalizedUserType "pending"
            requestData.createdAt, st2,
          [.validating, .rateChecking, .duplicateChecking, .persisting]⟩

/-- The comparator of the list handler, `dateB - dateA`, where a `NaN` result
counts as `0` (as `Array.prototype.sort` takes it). -/
def compareCreatedAt (host : Host) (a b : DemoRequest) : Int :=
  match host.dateGetTime a.createdAt, host.dateGetTime b.createdAt with
  | some dateA, some dateB => dateB - dateA
  | _, _ => 0

/-- `allRequests.sort(comparator)`: the stable sort by the comparator. Where every
`createdAt` parses this is the order ECMAScript prescribes; where one does not,
the comparator is inconsistent and ECMAScript leaves the order to the engine. -/
def sortNewestFirst (host : Host) (requests : List DemoRequest) : List DemoRequest :=
  requests.insertionSort (fun a b => compareCreatedAt host a b ≤ 0)

/-- The handler `app.get('/api/v1/demo-requests', ...)`; `pageParsed` and
`sizeParsed` are `parseInt(req.query.page)` and `parseInt(req.query.size)`,
`none` for `NaN`. -/
def getDemoRequests (host : Host) (st : ServerState) (pageParsed sizeParsed : Option Int)
    (readFault : Option FsError) : Response :=
  -- parseInt(...) || 0 and parseInt(...) || 20
  let page : Int := match pageParsed with
    | some n => if n ≠ 0 then n else 0
    | none => 0
  let size : Int := match sizeParsed with
    | some n => if n ≠ 0 then n else 20
    | none => 20
  if page < 0 || size < 1 || size > 100 then
    .invalidParameters
  else
    let allRequests := readDemoRequests host (fsReadFile st.persistence.file readFault)
      st.persistence.inMemoryDemoRequests
    let allRequests := sortNewestFirst host allRequests
    let totalElements := allRequests.length
    let totalPages := (totalElements + size.toNat - 1) / size.toNat
    let startIndex := page * size
    let paginatedRequests := (allRequests.drop startIndex.toNat).take size.toNat
    .listed paginatedRequests page size totalElements totalPages

/-! ## A host for evaluating examples

Dates in the format `toISOString` writes, and JSON restricted to flat objects
whose values are strings, integers, booleans or `null`, written without
insignificant whitespace. -/

/-- Decimal digits of `n`, left-padded with zeros to `width`. -/
def padDigits (width n : Nat) : List Char :=
  let ds := (Nat.toDigits 10 n)
  List.replicate (width - ds.length) '0' ++ ds

/-- Year, month and day of the day numbered `days` from 1970-01-01
(proleptic Gregorian calendar). -/
def civilFromDays (days : Int) : Int × Int × Int :=
  let z := days + 719468
  let era := z / 146097
  let doe := z - era * 146097
  let yoe := (doe - doe / 1460 + doe / 36524 - doe / 146096) / 365
  let doy := doe - (365 * yoe + yoe / 4 - yoe / 100)
  let mp := (5 * doy + 2) / 153
  let d := doy - (153 * mp + 2) / 5 + 1
  let m := if mp < 10 then mp + 3 else mp - 9
  let y := yoe + era * 400 + (if m ≤ 2 then 1 else 0)
  (y, m, d)

/-- The day number from 1970-01-01 of a calendar date. -/
def daysFromCivil (y m d : Int) : Int :=
  let y1 := if m ≤ 2 then y - 1 else y
  let era := y1 / 400
  let yoe := y1 - era * 400
  let mp := if m > 2 then m - 3 else m + 9
  let doy := (153 * mp + 2) / 5 + d - 1
  let doe := yoe * 365 + yoe / 4 - yoe / 100 + doy
  era * 146097 + doe - 719468

/-- The text `YYYY-MM-DDTHH:mm:ss.sssZ` of an epoch-millisecond time whose year
lies in 0..9999. -/
def isoOfMillis (t : Int) : String :=
  let days := t / 86400000
  let ms := (t % 86400000).toNat
  let (y, m, d) := civilFromDays days
  ⟨padDigits 4 y.toNat ++ ['-'] ++ padDigits 2 m.toNat ++ ['-'] ++ padDigits 2 d.toNat ++ ['T'] ++
    padDigits 2 (ms / 3600000) ++ [':'] ++ padDigits 2 (ms / 60000 % 60) ++ [':'] ++
    padDigits 2 (ms / 1000 % 60) ++ ['.'] ++ padDigits 3 (ms % 1000) ++ ['Z']⟩

/-- The number written by a list of decimal digits, `none` if one is not a digit. -/
def digitsValue (cs : List Char) : Option Nat :=
  cs.foldl (fun acc c =>
    match acc with
    | none => none
    | some n => if c.isDigit then some (n * 10 + (c.toNat - '0'.toNat)) else none) (some 0)

/-- Epoch milliseconds of a text of the form `YYYY-MM-DDTHH:mm:ss.sssZ` naming a
valid date and time, `none` for any other text. -/
def millisOfIso (s : String) : Option Int :=
  match s.data with
  | [y1, y2, y3, y4, '-', m1, m2, '-', d1, d2, 'T', h1, h2, ':', n1, n2, ':', s1, s2, '.',
      f1, f2, f3, 'Z'] =>
    match digitsValue [y1, y2, y3, y4], digitsValue [m1, m2], digitsValue [d1, d2],
      digitsValue [h1, h2], digitsValue [n1, n2], digitsValue [s1, s2],
      digitsValue [f1, f2, f3] with
    | some y, some m, some d, some h, some n, some sec, some f =>
      let days := daysFromCivil y m d
      if 1 ≤ m ∧ m ≤ 12 ∧ 1 ≤ d ∧ civilFromDays days = ((y : Int), (m : Int), (d : Int)) ∧
          h < 24 ∧ n < 60 ∧ sec < 60 then
        some (days * 86400000 + ((h * 3600000 + n * 60000 + sec * 1000 + f : Nat) : Int))
      else none
    | _, _, _, _, _, _, _ => none
  | _ => none

/-- A JSON string literal for `s`: quotes and backslashes escaped, control
characters written in their short or `\u00XX` form. -/
def jsonQuote (s : String) : List Char :=
  let hex (n : Nat) : Char := if n < 10 then Char.ofNat (48 + n) else Char.ofNat (87 + n)
  ['"'] ++ (s.data.map (fun c =>
    if c = '"' then ['\\', '"']
    else if c = '\\' then ['\\', '\\']
    else if c = '\n' then ['\\', 'n']
    else if c = '\r' then ['\\', 'r']
    else if c = '\t' then ['\\', 't']
    else if c.toNat = 8 then ['\\', 'b']
    else if c.toNat = 12 then ['\\', 'f']
    else if c.toNat < 32 then ['\\', 'u', '0', '0', hex (c.toNat / 16), hex (c.toNat % 16)]
    else [c])).flatten ++ ['"']

/-- JSON text of a stored value. -/
def jsonOfValue : JsValue → List Char
  | .undefined => "null".data
  | .null => "null".data
  | .bool b => if b then "true".data else "false".data
  | .number n => (toString n).data
  | .string s => jsonQuote s
  | .object json => json.data

/-- `JSON.stringify(data)` for a record: its nine properties in creation order. -/
def stringifyRecord (r : DemoRequest) : String :=
  ⟨"\x7b\"requestId\":".data ++ jsonQuote r.requestId ++
    ",\"email\":".data ++ jsonQuote r.email ++
    ",\"userType\":".data ++ jsonQuote r.userType ++
    ",\"socialHandle\":".data ++ jsonQuote r.socialHandle ++
    ",\"socialPlatform\":".data ++ jsonQuote r.socialPlatform ++
    ",\"source\":".data ++ jsonOfValue r.source ++
    ",\"timestamp\":".data ++ jsonOfValue r.timestamp ++
    ",\"ipAddress\":".data ++ jsonQuote r.ipAddress ++
    ",\"createdAt\":".data ++ jsonQuote r.createdAt ++ "\x7d".data⟩

/-- Reads a string literal after its opening quote: the string and the rest of
the input. Escapes `\uXXXX` are not read. -/
def readStringBody : List Char → List Char → Option (String × List Char)
  | _, [] => none
  | acc, c :: rest =>
    if c = '"' then some (⟨acc.reverse⟩, rest)
    else if c = '\\' then
      match rest with
      | e :: rest2 =>
        if e = '"' ∨ e = '\\' ∨ e = '/' then readStringBody (e :: acc) rest2
        else if e = 'n' then readStringBody ('\n' :: acc) rest2
        else if e = 'r' then readStringBody ('\r' :: acc) rest2
        else if e = 't' then readStringBody ('\t' :: acc) rest2
        else none
      | [] => none
    else if c.toNat < 32 then none
    else readStringBody (c :: acc) rest

/-- Reads a value: a string, an integer, `true`, `false` or `null`. -/
def readValue (cs : List Char) : Option (JsValue × List Char) :=
  match cs with
  | '"' :: rest => (readStringBody [] rest).map (fun r => (JsValue.string r.1, r.2))
  | 'n' :: 'u' :: 'l' :: 'l' :: rest => some (JsValue.null, rest)
  | 't' :: 'r' :: 'u' :: 'e' :: rest => some (JsValue.bool true, rest)
  | 'f' :: 'a' :: 'l' :: 's' :: 'e' :: rest => some (JsValue.bool false, rest)
  | '-' :: rest =>
    let ds := rest.takeWhile Char.isDigit
    if ds = [] ∨ (ds.head? = some '0' ∧ ds.length > 1) then none
    else (digitsValue ds).map (fun n => (JsValue.number (-(n : Int)), rest.dropWhile Char.isDigit))
  | _ =>
    let ds := cs.takeWhile Char.isDigit
    if ds = [] ∨ (ds.head? = some '0' ∧ ds.length > 1) then none
    else (digitsValue ds).map (fun n => (JsValue.number (n : Int), cs.dropWhile Char.isDigit))

/-- Reads `"key":value` members separated by commas up to the closing brace,
which must end the input; `fuel` bounds the number of members. -/
def readMembers : Nat → List Char → List (String × JsValue) → Option (List (String × JsValue))
  | 0, _, _ => none
  | fuel + 1, cs, acc =>
    match cs with
    | '"' :: rest =>
      match readStringBody [] rest with
      | some (key, ':' :: rest2) =>
        match readValue rest2 with
        | some (v, ',' :: rest3) => readMembers fuel rest3 (acc ++ [(key, v)])
        | some (v, ['}']) => some (acc ++ [(key, v)])
        | _ => none
      | _ => none
    | _ => none

/-- The last value written for `key` among the members (a later duplicate key
overrides an earlier one), `undefined` when there is none. -/
def memberValue (members : List (String × JsValue)) (key : String) : JsValue :=
  match members.reverse.find? (fun kv => kv.1 = key) with
  | some kv => kv.2
  | none => JsValue.undefined

/-- `JSON.parse(line)` for a flat object, read as a record: a text property that
is not a truthy string reads as `""`. -/
def parseRecord (line : String) : Option DemoRequest :=
  let members : Option (List (String × JsValue)) :=
    match line.data with
    | ['{', '}'] => some []
    | '{' :: rest => readMembers rest.length rest []
    | _ => none
  members.map (fun ms =>
    { requestId := (memberValue ms "requestId").asString
      email := (memberValue ms "email").asString
      userType := (memberValue ms "userType").asString
      socialHandle := (memberValue ms "socialHandle").asString
      socialPlatform := (memberValue ms "socialPlatform").asString
      source := memberValue ms "source"
      timestamp := memberValue ms "timestamp"
      ipAddress := (memberValue ms "ipAddress").asString
      createdAt := (memberValue ms "createdAt").asString })

/-- The host used to evaluate examples; its `toLowerCase` is the lowercasing of
ASCII, and the examples evaluated with it hold no cased letter outside ASCII. -/
def sampleHost : Host :=
  { jsonParse := parseRecord
    jsonStringify := stringifyRecord
    dateGetTime := millisOfIso
    toISOString := isoOfMillis
    toLowerCase := asciiToLowerCase }

/-- A record as the POST handler builds it. -/
def sampleRecordA : DemoRequest :=
  { requestId := "req_5f2b8c1d9e07"
    email := "demo@x.io"
    userType := "creator"
    socialHandle := "demo_x"
    socialPlatform := "telegram"
    source := JsValue.null
    timestamp := JsValue.number 1700000000000
    ipAddress := "203.0.113.7"
    createdAt := "2023-11-14T22:13:20.000Z" }

/-- A second record, created one minute later. -/
def sampleRecordB : DemoRequest :=
  { requestId := "req_0a1b2c3d4e5f"
    email := "owner@y.org"
    userType := "project_owner"
    socialHandle := "owner-y"
    socialPlatform := "x"
    source := JsValue.string "landing"
    timestamp := JsValue.number 1700000060000
    ipAddress := "198.51.100.4"
    createdAt := "2023-11-14T22:14:20.000Z" }

/-- The state of a fresh process with no log file. -/
def emptyState : ServerState :=
  ⟨RateLimitStore.empty, ⟨[], none⟩⟩

/-- A valid submission received on a read-only file system. -/
def samplePost : PostRequest :=
  { body :=
      { email := JsValue.string "demo@x.io"
        userType := JsValue.string "creator"
        socialHandle := JsValue.string "@demo_x"
        socialPlatform := JsValue.string "Telegram"
        source := JsValue.undefined
        timestamp := JsValue.undefined }
    clientIp := "203.0.113.7"
    rateLimitNow := 1700000000000
    duplicateNow := 1700000000001
    createdNow := 1700000000002
    timestampNow := 1700000000002
    uuid := "5f2b8c1d-9e07-4a3b-8c2d-1e0f9a8b7c6d"
    readFault := none
    appendFault := some FsError.EROFS
    writeFault := none }

/-- A valid submission with another email one minute later, for which `uuidv4`
returns a UUID with the same first twelve hexadecimal digits. -/
def collidingPost : PostRequest :=
  { samplePost with
    body := { samplePost.body with email := JsValue.string "other@y.org" }
    clientIp := "198.51.100.4"
    rateLimitNow := 1700000060000
    duplicateNow := 1700000060001
    createdNow := 1700000060002
    timestampNow := 1700000060002
    uuid := "5f2b8c1d-9e07-4fff-9abc-0123456789ab" }

/-- The first email again, in another letter case, one day after `samplePost`. -/
def repeatPost : PostRequest :=
  { samplePost with
    body := { samplePost.body with email := JsValue.string "Demo@X.io" }
    rateLimitNow := 1700086400000
    duplicateNow := 1700086400001
    createdNow := 1700086400002
    timestampNow := 1700086400002
    uuid := "0a1b2c3d-4e5f-4a6b-8c7d-9e8f7a6b5c4d" }

/-- The state reached from `emptyState` by `samplePost` and then `collidingPost`. -/
def collidedState : ServerState :=
  (postDemoRequest sampleHost (postDemoRequest sampleHost emptyState samplePost).state
    collidingPost).state

/-- A store in which one address already has ten timestamps. -/
def busyStore : RateLimitStore :=
  ⟨[("203.0.113.7", [0, 1, 2, 3, 4, 5, 6, 7, 8, 9])], []⟩

/-- Eleven calls with distinct emails, one second apart. -/
def elevenCalls : List (String × Int) :=
  [("u0@x.io", 0), ("u1@x.io", 1000), ("u2@x.io", 2000), ("u3@x.io", 3000),
   ("u4@x.io", 4000), ("u5@x.io", 5000), ("u6@x.io", 6000), ("u7@x.io", 7000),
   ("u8@x.io", 8000), ("u9@x.io", 9000), ("u10@x.io", 10000)]

/-! ## Validation in the words of the specification -/

/-- The errors a required field contributes: its `required` error when the value
is absent (falsy), its format error when the value is present but invalid, and
none otherwise. -/
def requiredFieldErrors (field requiredMessage formatMessage : String)
    (present valid : Bool) : List FieldError :=
  if !present then [⟨field, requiredMessage⟩]
  else if !valid then [⟨field, formatMessage⟩]
  else []

/-- The errors the optional `source` contributes: one when it is a non-empty
string of more than 100 code units. -/
def sourceErrors (source : JsValue) : List FieldError :=
  match source with
  | .string src =>
    if src ≠ "" ∧ jsLength src > 100 then [⟨"source", "Source must be maximum 100 characters"⟩]
    else []
  | _ => []

/-- A body in which no field is given. -/
def emptyBody : DemoRequestBody :=
  ⟨.undefined, .undefined, .undefined, .undefined, .undefined, .undefined⟩

/-- The handle obtained by stripping leading `@` characters and then surrounding
whitespace, as a list of characters. -/
def cleanedHandle (h : String) : List Char :=
  (jsTrim ⟨h.data.dropWhile (fun c => c == '@')⟩).data

/-- The conditions on a cleaned handle in the words of the specification: 3 to
50 characters, all in `[A-Za-z0-9_-]`, neither starting nor ending with `-` or
`_`. -/
def IsValidCleanedHandle (c : List Char) : Prop :=
  3 ≤ c.length ∧ c.length ≤ 50 ∧ (∀ x ∈ c, isHandleChar x = true) ∧
    c.head? ≠ some '-' ∧ c.head? ≠ some '_' ∧ c.getLast? ≠ some '-' ∧ c.getLast? ≠ some '_'

/-- `samplePost` with whitespace around the email. -/
def paddedEmailPost : PostRequest :=
  { samplePost with body := { samplePost.body with email := JsValue.string " demo@x.io " } }

/-- `samplePost` with a number as `source`. -/
def numericSourcePost : PostRequest :=
  { samplePost with body := { samplePost.body with source := JsValue.number 7 } }

/-- A log file that is missing, empty, or ends in a newline. -/
def LogEndsCleanly (file : Option String) : Prop :=
  file = none ∨ file = some "" ∨ ∃ c0, file = some (c0 ++ "\n")

/-- A sequence of POSTs, each handled on the state the previous one left. -/
def runPosts (host : Host) (st : ServerState) : List PostRequest → ServerState
  | [] => st
  | req :: rest => runPosts host (postDemoRequest host st req).state rest

/-- The records of the union of the durable log (as parsed from the file alone)
and the in-process array. -/
def storedRecords (host : Host) (st : ServerState) : List DemoRequest :=
  fileRequests host (fsReadFile st.persistence.file none) ++ st.persistence.inMemoryDemoRequests

/-- No two different records of the list carry the same requestId. -/
def UniqueRequestIds (records : List DemoRequest) : Prop :=
  ∀ a ∈ records, ∀ b ∈ records, a.requestId = b.requestId → a = b

/-- `samplePost` on a writable file system. -/
def durablePost : PostRequest :=
  { samplePost with appendFault := none }

/-- A valid submission with another email and a fresh UUID, one minute after
`durablePost`, on a writable file system. -/
def secondDurablePost : PostRequest :=
  { collidingPost with uuid := "0a1b2c3d-4e5f-4a6b-8c7d-9e8f7a6b5c4d", appendFault := none }

/-! ## The hourly sweep, query parameters and runs of requests -/

/-- One loop of the sweep over one side of `rateLimitStore`: every window keeps
the timestamps with `now - time < oneDay`, and a window left empty is deleted. -/
def WindowMap.sweep (m : WindowMap) (now : Int) : WindowMap :=
  match m with
  | [] => []
  | (k, v) :: rest =>
    let requests := v.filter (fun time => decide (now - time < oneDay))
    if requests.length = 0 then WindowMap.sweep rest now
    else (k, requests) :: WindowMap.sweep rest now

/-- The callback of `setInterval(..., 60 * 60 * 1000)` with `now = Date.now()`:
the IP windows are cleaned, then the email windows. -/
def sweep (store : RateLimitStore) (now : Int) : RateLimitStore :=
  { ip := store.ip.sweep now, email := store.email.sweep now }

/-- What happens to the rate-limit store: a `checkRateLimit` call or a run of
the sweep, each with the time its `Date.now()` returns. -/
inductive LimiterEvent where
  | check (ip email : String) (now : Int)
  | sweep (now : Int)
  deriving DecidableEq, Repr

/-- The time of an event. -/
def LimiterEvent.time : LimiterEvent → Int
  | .check _ _ now => now
  | .sweep now => now

/-- The store after a sequence of events. -/
def runEvents (host : Host) (store : RateLimitStore) : List LimiterEvent → RateLimitStore
  | [] => store
  | .check ip email now :: rest => runEvents host (checkRateLimit host store ip email now).2 rest
  | .sweep now :: rest => runEvents host (sweep store now) rest

/-- The number of timestamps of a window in the interval `(lo, hi]`. -/
def countWithin (w : List Int) (lo hi : Int) : Nat :=
  w.countP (fun ts => decide (lo < ts ∧ ts ≤ hi))

/-- The value of a digit in the given radix, `none` for any other character. -/
def digitOfRadix (radix : Nat) (c : Char) : Option Nat :=
  let v : Option Nat :=
    if '0' ≤ c ∧ c ≤ '9' then some (c.toNat - '0'.toNat)
    else if 'a' ≤ c ∧ c ≤ 'z' then some (c.toNat - 'a'.toNat + 10)
    else if 'A' ≤ c ∧ c ≤ 'Z' then some (c.toNat - 'A'.toNat + 10)
    else none
  match v with
  | some d => if d < radix then some d else none
  | none => none

/-- `parseInt(param)` for a query parameter that is absent or a string: leading
whitespace is skipped, a sign and a `0x` prefix are read, then the longest run
of digits; `none` is `NaN`. Values are exact integers (no rounding to a double). -/
def jsParseInt (param : Option String) : Option Int :=
  match param with
  | none => none
  | some s =>
    let cs := s.data.dropWhile isJsWhiteSpace
    let signed : Bool × List Char :=
      match cs with
      | '-' :: r => (true, r)
      | '+' :: r => (false, r)
      | _ => (false, cs)
    let prefixed : Nat × List Char :=
      match signed.2 with
      | '0' :: 'x' :: r => (16, r)
      | '0' :: 'X' :: r => (16, r)
      | _ => (10, signed.2)
    let digits := (prefixed.2.map (digitOfRadix prefixed.1)).takeWhile Option.isSome
    if digits.length = 0 then none
    else
      let value : Nat := digits.foldl (fun acc d => acc * prefixed.1 + d.getD 0) 0
      some (if signed.1 then -(value : Int) else (value : Int))

/-- The GET handler on the query strings `req.query.page` and `req.query.size`
(`none` when the parameter is not supplied). -/
def getDemoRequestsQuery (host : Host) (st : ServerState) (page size : Option String)
    (readFault : Option FsError) : Response :=
  getDemoRequests host st (jsParseInt page) (jsParseInt size) readFault

/-- The `success` member of the response envelope. -/
def Response.success : Response → Bool
  | .created .. => true
  | .listed .. => true
  | _ => false

/-- The responses of a sequence of POSTs, each handled on the state the previous
one left. -/
def runPostsResponses (host : Host) (st : ServerState) : List PostRequest → List Response
  | [] => []
  | req :: rest =>
    (postDemoRequest host st req).response ::
      runPostsResponses host (postDemoRequest host st req).state rest

/-- A store with one stale IP window, one mixed IP window and one mixed email
window, at the sweep time `200000000`. -/
def staleStore : RateLimitStore :=
  { ip := [("203.0.113.7", [1000, 2000]), ("198.51.100.4", [5000, 150000000, 190000000])],
    email := [("demo@x.io", [1000, 199999999])] }

/-- The sliding-window bound in the words of the specification: at every instant
`t` each IP window holds at most 10 timestamps in `(t - 1 hour, t]` and at most
50 in `(t - 24 hours, t]`, and each email window at most 3 in `(t - 24 hours, t]`. -/
def WithinLimits (store : RateLimitStore) : Prop :=
  ∀ (t : Int) (k : String),
    countWithin (store.ip.window k) (t - oneHour) t ≤ 10 ∧
    countWithin (store.ip.window k) (t - oneDay) t ≤ 50 ∧
    countWithin (store.email.window k) (t - oneDay) t ≤ 3

/-- The submission `samplePost` sent again `k` hours later from another address,
with the email in capitals. -/
def retryPost (k : Int) (ip uuid : String) : PostRequest :=
  { samplePost with
    body := { samplePost.body with email := JsValue.string "DEMO@X.IO" }
    clientIp := ip
    rateLimitNow := samplePost.rateLimitNow + k * 3600000
    duplicateNow := samplePost.duplicateNow + k * 3600000
    createdNow := samplePost.createdNow + k * 3600000
    timestampNow := samplePost.timestampNow + k * 3600000
    uuid := uuid }

/-- A fresh process whose in-process array holds `sampleRecordA` and the newer
`sampleRecordB`. -/
def listedState : ServerState :=
  ⟨RateLimitStore.empty, ⟨[sampleRecordA, sampleRecordB], none⟩⟩

/-- The `requesters` of the list endpoint's answer for a page, empty when the
answer is an error. -/
def listedPage (host : Host) (st : ServerState) (size : Int) (readFault : Option FsError)
    (page : Nat) : List DemoRequest :=
  match getDemoRequests host st (some (page : Int)) (some size) readFault with
  | .listed requesters _ _ _ _ => requesters
  | _ => []

/-- The `totalPages` of the list endpoint's answer for page 0, `0` when the
answer is an error. -/
def listedTotalPages (host : Host) (st : ServerState) (size : Int)
    (readFault : Option FsError) : Nat :=
  match getDemoRequests host st (some 0) (some size) readFault with
  | .listed _ _ _ _ totalPages => totalPages
  | _ => 0

/-- Lowercasing of ASCII and of the capital letters of Latin-1 (`À`–`Þ` without
`×`), which is what `toLowerCase` does to strings of these characters. -/
def latinToLowerCase (s : String) : String :=
  ⟨s.data.map (fun c =>
    if 0xC0 ≤ c.toNat ∧ c.toNat ≤ 0xDE ∧ c.toNat ≠ 0xD7 then Char.ofNat (c.toNat + 32)
    else c.toLower)⟩

/-- The host of the examples with accented letters. -/
def latinHost : Host :=
  { sampleHost with toLowerCase := latinToLowerCase }

/-- Four calls with emails that differ in the case of `É`, from three
addresses, one hour apart. -/
def accentedCalls : List (String × String × Int) :=
  [("10.0.0.1", "ÉÉ@x.io", 0), ("10.0.0.2", "Éé@x.io", 3600000),
   ("10.0.0.1", "éÉ@x.io", 7200000), ("10.0.0.3", "éé@x.io", 10800000)]

/-- The submission `samplePost` with the email `école@x.io`. -/
def accentedPost : PostRequest :=
  { samplePost with body := { samplePost.body with email := JsValue.string "école@x.io" } }

/-- The submission `retryPost` with the email `École@x.io`. -/
def accentedRetry (k : Int) (ip uuid : String) : PostRequest :=
  { retryPost k ip uuid with
    body := { samplePost.body with email := JsValue.string "École@x.io" } }

/-! ## Window map lemmas -/

theorem WindowMap.get?_set_same (m : WindowMap) (key : String) (v : List Int) :
    (m.set key v).get? key = some v := by
  induction m with
  | nil => simp [WindowMap.set, WindowMap.get?]
  | cons hd tl ih =>
    obtain ⟨k, w⟩ := hd
    by_cases h : k = key
    · simp [WindowMap.set, WindowMap.get?, h]
    · simp [WindowMap.set, WindowMap.get?, h, ih]

theorem WindowMap.get?_set_other (m : WindowMap) (key key2 : String) (v : List Int)
    (h : key2 ≠ key) : (m.set key v).get? key2 = m.get? key2 := by
  induction m with
  | nil =>
    have h2 : ¬ key = key2 := fun e => h e.symm
    simp [WindowMap.set, WindowMap.get?, h2]
  | cons hd tl ih =>
    obtain ⟨k, w⟩ := hd
    by_cases hk : k = key
    · subst hk
      have h2 : ¬ k = key2 := fun e => h e.symm
      simp [WindowMap.set, WindowMap.get?, h2]
    · by_cases hk2 : k = key2
      · subst hk2
        simp [WindowMap.set, WindowMap.get?, hk]
      · simp [WindowMap.set, WindowMap.get?, hk, hk2, ih]

theorem WindowMap.window_set_same (m : WindowMap) (key : String) (v : List Int) :
    (m.set key v).window key = v := by
  simp [WindowMap.window, WindowMap.get?_set_same]

theorem WindowMap.window_set_other (m : WindowMap) (key key2 : String) (v : List Int)
    (h : key2 ≠ key) : (m.set key v).window key2 = m.window key2 := by
  simp [WindowMap.window, WindowMap.get?_set_other m key key2 v h]

/-- Creating an absent window as empty changes no window's timestamp sequence. -/
theorem WindowMap.window_init (m : WindowMap) (key key2 : String) :
    ((if (m.get? key).isNone then m.set key [] else m).window key2) = m.window key2 := by
  by_cases hn : (m.get? key).isNone
  · simp only [hn, if_true]
    by_cases hk : key2 = key
    · subst hk
      rw [WindowMap.window_set_same]
      simp only [Option.isNone_iff_eq_none] at hn
      simp [WindowMap.window, hn]
    · exact WindowMap.window_set_other m key key2 [] hk
  · simp [hn]

/-! ## Rate limiter lemmas -/

theorem length_filter_day_hour (w : List Int) (now : Int) :
    ((w.filter (fun time => decide (now - time < oneDay))).filter
      (fun time => decide (now - time < oneHour))).length
      = recentCount w now (60 * 60 * 1000) := by
  rw [List.filter_filter, recentCount, List.countP_eq_length_filter]
  congr 1
  apply List.filter_congr
  intro t _
  simp only [oneDay, oneHour]
  by_cases h : now - t < 60 * 60 * 1000
  · have h2 : now - t < 24 * 60 * 60 * 1000 := by omega
    rw [decide_eq_true h, decide_eq_true h2]
    rfl
  · rw [decide_eq_false h, Bool.false_and]

theorem length_filter_day (w : List Int) (now : Int) :
    (w.filter (fun time => decide (now - time < oneDay))).length
      = recentCount w now (24 * 60 * 60 * 1000) := by
  rw [recentCount, List.countP_eq_length_filter]
  rfl

theorem ensureIp_ip_window (store : RateLimitStore) (ip k : String) :
    (store.ensureIp ip).ip.window k = store.ip.window k := by
  have h := WindowMap.window_init store.ip ip k
  unfold RateLimitStore.ensureIp
  by_cases hn : (store.ip.get? ip).isNone
  · simp only [hn, if_true] at h ⊢
    exact h
  · simp [hn]

theorem ensureIp_email (store : RateLimitStore) (ip : String) :
    (store.ensureIp ip).email = store.email := by
  unfold RateLimitStore.ensureIp
  by_cases hn : (store.ip.get? ip).isNone <;> simp [hn]

theorem ensureEmail_email_window (store : RateLimitStore) (e k : String) :
    (store.ensureEmail e).email.window k = store.email.window k := by
  have h := WindowMap.window_init store.email e k
  unfold RateLimitStore.ensureEmail
  by_cases hn : (store.email.get? e).isNone
  · simp only [hn, if_true] at h ⊢
    exact h
  · simp [hn]

theorem ensureEmail_ip (store : RateLimitStore) (e : String) :
    (store.ensureEmail e).ip = store.ip := by
  unfold RateLimitStore.ensureEmail
  by_cases hn : (store.email.get? e).isNone <;> simp [hn]

theorem pushIp_email (store : RateLimitStore) (ip : String) (now : Int) :
    (store.pushIp ip now).email = store.email := rfl

theorem pushEmail_ip (store : RateLimitStore) (e : String) (now : Int) :
    (store.pushEmail e now).ip = store.ip := rfl

theorem pushIp_window_same (store : RateLimitStore) (ip : String) (now : Int) :
    (store.pushIp ip now).ip.window ip = store.ip.window ip ++ [now] :=
  WindowMap.window_set_same _ _ _

theorem pushIp_window_other (store : RateLimitStore) (ip k : String) (now : Int) (h : k ≠ ip) :
    (store.pushIp ip now).ip.window k = store.ip.window k :=
  WindowMap.window_set_other _ _ _ _ h

theorem pushEmail_window_same (store : RateLimitStore) (e : String) (now : Int) :
    (store.pushEmail e now).email.window e = store.email.window e ++ [now] :=
  WindowMap.window_set_same _ _ _

theorem pushEmail_window_other (store : RateLimitStore) (e k : String) (now : Int) (h : k ≠ e) :
    (store.pushEmail e now).email.window k = store.email.window k :=
  WindowMap.window_set_other _ _ _ _ h

/-- The result of `checkRateLimit` is the policy applied to the two windows. -/
theorem checkRateLimit_fst {host : Host} (store : RateLimitStore) (ip email : String) (now : Int) :
    (checkRateLimit host store ip email now).1
      = rateLimitPolicy (store.ip.window ip) (store.email.window (normalizeEmail host email)) now := by
  unfold checkRateLimit rateLimitPolicy
  simp only [ensureIp_ip_window, ensureIp_email, ensureEmail_email_window, ensureEmail_ip,
    length_filter_day_hour, length_filter_day, ge_iff_le]
  split
  · rfl
  · split
    · rfl
    · split <;> rfl

/-- The store after `checkRateLimit`: both pushes when the policy admits, and
otherwise at most windows created empty. -/
theorem checkRateLimit_snd_window {host : Host} (store : RateLimitStore) (ip email : String) (now : Int) :
    (∀ k, (checkRateLimit host store ip email now).2.ip.window k
        = if (checkRateLimit host store ip email now).1 = .notLimited ∧ k = ip
            then store.ip.window k ++ [now] else store.ip.window k) ∧
    (∀ k, (checkRateLimit host store ip email now).2.email.window k
        = if (checkRateLimit host store ip email now).1 = .notLimited ∧ k = normalizeEmail host email
            then store.email.window k ++ [now] else store.email.window k) := by
  unfold checkRateLimit
  simp only [ge_iff_le]
  split
  · simp [ensureIp_ip_window, ensureIp_email]
  · split
    · simp [ensureIp_ip_window, ensureIp_email]
    · split
      · simp [ensureIp_ip_window, ensureIp_email, ensureEmail_email_window, ensureEmail_ip]
      · constructor
        · intro k
          by_cases hk : k = ip
          · subst hk
            simp [pushEmail_ip, pushIp_window_same, ensureEmail_ip, ensureIp_ip_window]
          · simp [pushEmail_ip, pushIp_window_other _ _ _ _ hk, ensureEmail_ip,
              ensureIp_ip_window, hk]
        · intro k
          by_cases hk : k = normalizeEmail host email
          · subst hk
            simp [pushEmail_window_same, pushIp_email, ensureEmail_email_window, ensureIp_email]
          · simp [pushEmail_window_other _ _ _ _ hk, pushIp_email, ensureEmail_email_window,
              ensureIp_email, hk]

/-! ## Rate limiter: policy order and commit discipline -/

/-- C2: for every store, IP, email and time, `checkRateLimit` returns the first
violated limit in the fixed order IP-per-hour (10 or more timestamps less than one
hour old), IP-per-day (50 or more less than 24 hours old), email-per-day (3 or
more of the normalized email less than 24 hours old), and `{limited:false}` when
none is violated. -/
theorem checkRateLimit_first_violation_wins (host : Host) (store : RateLimitStore) (ip email : String)
    (now : Int) :
    (checkRateLimit host store ip email now).1 =
      if 10 ≤ recentCount (store.ip.window ip) now 3600000 then
        RateLimitResult.limited "ip" "hour" 3600
      else if 50 ≤ recentCount (store.ip.window ip) now 86400000 then
        RateLimitResult.limited "ip" "day" 86400
      else if 3 ≤ recentCount (store.email.window (normalizeEmail host email)) now 86400000 then
        RateLimitResult.limited "email" "day" 86400
      else RateLimitResult.notLimited := by
  rw [checkRateLimit_fst]
  rfl

/-- C3: `checkRateLimit` commits a timestamp exactly when it admits. When it
returns `{limited:false}` the time is appended once to the window of the IP and
once to the window of the normalized email and every other window keeps its
timestamps; when it returns limited every window (absent counted as empty) has
the same timestamp sequence as before. -/
theorem checkRateLimit_commits_iff_admits (host : Host) (store : RateLimitStore) (ip email : String)
    (now : Int) :
    ((checkRateLimit host store ip email now).1 = RateLimitResult.notLimited →
      (checkRateLimit host store ip email now).2.ip.window ip = store.ip.window ip ++ [now] ∧
      (checkRateLimit host store ip email now).2.email.window (normalizeEmail host email)
        = store.email.window (normalizeEmail host email) ++ [now] ∧
      (∀ k, k ≠ ip → (checkRateLimit host store ip email now).2.ip.window k = store.ip.window k) ∧
      (∀ k, k ≠ normalizeEmail host email →
        (checkRateLimit host store ip email now).2.email.window k = store.email.window k)) ∧
    ((checkRateLimit host store ip email now).1 ≠ RateLimitResult.notLimited →
      ∀ k, (checkRateLimit host store ip email now).2.ip.window k = store.ip.window k ∧
        (checkRateLimit host store ip email now).2.email.window k = store.email.window k) := by
  obtain ⟨hip, hem⟩ := checkRateLimit_snd_window store ip email now
  refine ⟨fun hpass => ⟨?_, ?_, ?_, ?_⟩, fun hlim k => ⟨?_, ?_⟩⟩
  · rw [hip ip]; simp [hpass]
  · rw [hem (normalizeEmail host email)]; simp [hpass]
  · intro k hk; rw [hip k]; simp [hk]
  · intro k hk; rw [hem k]; simp [hk]
  · rw [hip k]; simp [hlim]
  · rw [hem k]; simp [hlim]

/-- C3, at a call that the hourly IP limit rejects: no window changes. -/
theorem checkRateLimit_commits_iff_admits_witness :
    (checkRateLimit sampleHost busyStore "203.0.113.7" "demo@x.io" 1000).1
      = RateLimitResult.limited "ip" "hour" 3600 ∧
    (checkRateLimit sampleHost busyStore "203.0.113.7" "demo@x.io" 1000).2.ip.window "203.0.113.7"
      = [0, 1, 2, 3, 4, 5, 6, 7, 8, 9] ∧
    (checkRateLimit sampleHost busyStore "203.0.113.7" "demo@x.io" 1000).2.email.window "demo@x.io" = [] :=
  ⟨by decide,
    (((checkRateLimit_commits_iff_admits sampleHost busyStore "203.0.113.7" "demo@x.io" 1000).2
      (by decide)) "203.0.113.7").1.trans (by decide),
    (((checkRateLimit_commits_iff_admits sampleHost busyStore "203.0.113.7" "demo@x.io" 1000).2
      (by decide)) "demo@x.io").2.trans (by decide)⟩

/-! ## Rate limiter: sequences of calls -/

theorem runRateLimit_append {host : Host} (s : RateLimitStore) (xs ys : List (String × String × Int)) :
    runRateLimit host s (xs ++ ys)
      = ((runRateLimit host s xs).1 ++ (runRateLimit host (runRateLimit host s xs).2 ys).1,
          (runRateLimit host (runRateLimit host s xs).2 ys).2) := by
  induction xs generalizing s with
  | nil => simp [runRateLimit]
  | cons x xs ih =>
    obtain ⟨ip, email, now⟩ := x
    simp [runRateLimit, ih]

theorem recentCount_le_length (w : List Int) (now span : Int) :
    recentCount w now span ≤ w.length :=
  List.countP_le_length _

theorem recentCount_eq_length (w : List Int) (now span : Int)
    (h : ∀ t ∈ w, now - t < span) : recentCount w now span = w.length := by
  unfold recentCount
  rw [List.countP_eq_length]
  intro t ht
  exact decide_eq_true (h t ht)

theorem rateLimitPolicy_admits (wi we : List Int) (now : Int)
    (hi : wi.length < 10) (he : we.length < 3) :
    rateLimitPolicy wi we now = RateLimitResult.notLimited := by
  have h1 := recentCount_le_length wi now (60 * 60 * 1000)
  have h2 := recentCount_le_length wi now (24 * 60 * 60 * 1000)
  have h3 := recentCount_le_length we now (24 * 60 * 60 * 1000)
  unfold rateLimitPolicy
  rw [if_neg (by omega), if_neg (by omega), if_neg (by omega)]

/-- Calls from one IP with pairwise distinct normalized emails are all admitted
while the IP window stays below ten entries. -/
theorem run_one_ip_admitted {host : Host} (ip : String) :
    ∀ (cs : List (String × Int)) (s : RateLimitStore),
      (s.ip.window ip).length + cs.length ≤ 10 →
      (cs.map (fun c => normalizeEmail host c.1)).Nodup →
      (∀ c ∈ cs, s.email.window (normalizeEmail host c.1) = []) →
      (runRateLimit host s (cs.map (fun c => (ip, c.1, c.2)))).1
          = List.replicate cs.length RateLimitResult.notLimited ∧
        (runRateLimit host s (cs.map (fun c => (ip, c.1, c.2)))).2.ip.window ip
          = s.ip.window ip ++ cs.map Prod.snd := by
  intro cs
  induction cs with
  | nil => intro s _ _ _; simp [runRateLimit]
  | cons c rest ih =>
    intro s hlen hnd hemp
    obtain ⟨e, t⟩ := c
    simp only [List.map_cons, List.nodup_cons, List.length_cons] at hnd hlen
    have hfst : (checkRateLimit host s ip e t).1 = RateLimitResult.notLimited := by
      rw [checkRateLimit_fst]
      apply rateLimitPolicy_admits
      · omega
      · rw [hemp (e, t) (List.mem_cons_self _ _)]; simp
    obtain ⟨hip, hem⟩ := checkRateLimit_snd_window s ip e t
    have hw : (checkRateLimit host s ip e t).2.ip.window ip = s.ip.window ip ++ [t] := by
      rw [hip ip]; simp [hfst]
    have hrest : ∀ c ∈ rest,
        (checkRateLimit host s ip e t).2.email.window (normalizeEmail host c.1) = [] := by
      intro c hc
      have hne : normalizeEmail host c.1 ≠ normalizeEmail host e := by
        intro heq
        apply hnd.1
        rw [← heq]
        exact List.mem_map.mpr ⟨c, hc, rfl⟩
      rw [hem (normalizeEmail host c.1)]
      simp only [hne, and_false, if_false]
      exact hemp c (List.mem_cons_of_mem _ hc)
    have hlen2 : ((checkRateLimit host s ip e t).2.ip.window ip).length + rest.length ≤ 10 := by
      rw [hw, List.length_append, List.length_singleton]; omega
    obtain ⟨ih1, ih2⟩ := ih (checkRateLimit host s ip e t).2 hlen2 hnd.2 hrest
    constructor
    · simp only [List.map_cons, runRateLimit, List.length_cons, List.replicate_succ]
      rw [hfst, ih1]
    · simp only [List.map_cons, runRateLimit]
      rw [ih2, hw]
      simp

/-- Calls with one normalized email, from any IPs, are all admitted while the
email window stays below three entries and every IP window below ten. -/
theorem run_one_email_admitted {host : Host} (e : String) :
    ∀ (cs : List (String × String × Int)) (s : RateLimitStore) (n : Nat),
      (∀ c ∈ cs, normalizeEmail host c.2.1 = e) →
      (∀ k, (s.ip.window k).length ≤ n) → n + cs.length ≤ 10 →
      (s.email.window e).length + cs.length ≤ 3 →
      (runRateLimit host s cs).1 = List.replicate cs.length RateLimitResult.notLimited ∧
        (runRateLimit host s cs).2.email.window e = s.email.window e ++ cs.map (fun c => c.2.2) ∧
        (∀ k, ((runRateLimit host s cs).2.ip.window k).length ≤ n + cs.length) := by
  intro cs
  induction cs with
  | nil => intro s n _ hk _ _; simpa [runRateLimit] using hk
  | cons c rest ih =>
    intro s n hsame hk hn he
    obtain ⟨ip, em, t⟩ := c
    simp only [List.length_cons] at hn he
    have hem_eq : normalizeEmail host em = e := hsame (ip, em, t) (List.mem_cons_self _ _)
    have hfst : (checkRateLimit host s ip em t).1 = RateLimitResult.notLimited := by
      rw [checkRateLimit_fst]
      apply rateLimitPolicy_admits
      · have := hk ip; omega
      · rw [hem_eq]; omega
    obtain ⟨hip, hem⟩ := checkRateLimit_snd_window s ip em t
    have hw : (checkRateLimit host s ip em t).2.email.window e = s.email.window e ++ [t] := by
      rw [hem e]; simp [hfst, hem_eq]
    have hk2 : ∀ k, ((checkRateLimit host s ip em t).2.ip.window k).length ≤ n + 1 := by
      intro k
      rw [hip k]
      have := hk k
      split
      · rw [List.length_append, List.length_singleton]; omega
      · omega
    have he2 : ((checkRateLimit host s ip em t).2.email.window e).length + rest.length ≤ 3 := by
      rw [hw, List.length_append, List.length_singleton]; omega
    obtain ⟨ih1, ih2, ih3⟩ := ih (checkRateLimit host s ip em t).2 (n + 1)
      (fun c hc => hsame c (List.mem_cons_of_mem _ hc)) hk2 (by omega) he2
    refine ⟨?_, ?_, ?_⟩
    · simp only [runRateLimit, List.length_cons, List.replicate_succ]
      rw [hfst, ih1]
    · simp only [runRateLimit, List.map_cons]
      rw [ih2, hw]
      simp
    · intro k
      simp only [runRateLimit, List.length_cons]
      have := ih3 k
      omega

/-- C4: from the empty store, eleven calls from one IP with pairwise distinct
normalized emails, at non-decreasing times all within less than one hour: the
first ten return `{limited:false}` and the eleventh is limited with type ip,
limit hour, retryAfter 3600. -/
theorem eleventh_call_from_one_ip_is_limited (host : Host) (ip : String) (calls : List (String × Int))
    (hlen : calls.length = 11)
    (hdistinct : (calls.map (fun c => normalizeEmail host c.1)).Nodup)
    (_hmono : (calls.map Prod.snd).Pairwise (fun a b => a ≤ b))
    (hspan : ∀ a ∈ calls, ∀ b ∈ calls, b.2 - a.2 < 3600000) :
    (runRateLimit host RateLimitStore.empty (calls.map (fun c => (ip, c.1, c.2)))).1
      = List.replicate 10 RateLimitResult.notLimited
          ++ [RateLimitResult.limited "ip" "hour" 3600] := by
  rcases List.eq_nil_or_concat calls with hnil | ⟨init, last, hcalls⟩
  · rw [hnil] at hlen; simp at hlen
  rw [List.concat_eq_append] at hcalls
  subst hcalls
  obtain ⟨e, t⟩ := last
  have hinit : init.length = 10 := by
    rw [List.length_append, List.length_singleton] at hlen; omega
  rw [List.map_append] at hdistinct
  have hnd : (init.map (fun c => normalizeEmail host c.1)).Nodup := (List.nodup_append.mp hdistinct).1
  obtain ⟨h1, h2⟩ := run_one_ip_admitted ip init RateLimitStore.empty
    (by simp [RateLimitStore.empty, WindowMap.window, WindowMap.get?, hinit]) hnd
    (by intro c _; simp [RateLimitStore.empty, WindowMap.window, WindowMap.get?])
  rw [List.map_append, runRateLimit_append, h1, hinit]
  simp only [List.map_cons, List.map_nil, runRateLimit]
  rw [checkRateLimit_fst, h2]
  have hw : WindowMap.window RateLimitStore.empty.ip ip = [] := by
    simp [RateLimitStore.empty, WindowMap.window, WindowMap.get?]
  rw [hw, List.nil_append]
  have hcount : recentCount (init.map Prod.snd) t (60 * 60 * 1000) = 10 := by
    rw [recentCount_eq_length, List.length_map, hinit]
    intro x hx
    obtain ⟨c, hc, rfl⟩ := List.mem_map.mp hx
    have := hspan c (List.mem_append_left _ hc) (e, t) (List.mem_append_right _ (by simp))
    simpa using this
  unfold rateLimitPolicy
  rw [hcount]
  rfl

/-- C4, at eleven concrete calls one second apart. -/
theorem eleventh_call_from_one_ip_is_limited_witness :
    (runRateLimit sampleHost RateLimitStore.empty (elevenCalls.map (fun c => ("203.0.113.7", c.1, c.2)))).1
      = List.replicate 10 RateLimitResult.notLimited
          ++ [RateLimitResult.limited "ip" "hour" 3600] :=
  eleventh_call_from_one_ip_is_limited sampleHost "203.0.113.7" elevenCalls (by decide) (by decide)
    (by decide) (by decide)

/-- C5: from the empty store, four calls with the same normalized email at
non-decreasing times within one 24-hour window, whatever IP each comes from: the
first three return `{limited:false}` and the fourth is limited with type email,
limit day, retryAfter 86400. -/
theorem fourth_call_for_one_email_is_limited (host : Host) (calls : List (String × String × Int))
    (hlen : calls.length = 4)
    (hsame : ∀ a ∈ calls, ∀ b ∈ calls, normalizeEmail host a.2.1 = normalizeEmail host b.2.1)
    (_hmono : (calls.map (fun c => c.2.2)).Pairwise (fun a b => a ≤ b))
    (hspan : ∀ a ∈ calls, ∀ b ∈ calls, b.2.2 - a.2.2 < 86400000) :
    (runRateLimit host RateLimitStore.empty calls).1
      = List.replicate 3 RateLimitResult.notLimited
          ++ [RateLimitResult.limited "email" "day" 86400] := by
  rcases List.eq_nil_or_concat calls with hnil | ⟨init, last, hcalls⟩
  · rw [hnil] at hlen; simp at hlen
  rw [List.concat_eq_append] at hcalls
  subst hcalls
  obtain ⟨ip, em, t⟩ := last
  have hinit : init.length = 3 := by
    rw [List.length_append, List.length_singleton] at hlen; omega
  have hlast : (ip, em, t) ∈ init ++ [(ip, em, t)] := List.mem_append_right _ (by simp)
  obtain ⟨h1, h2, h3⟩ := run_one_email_admitted (normalizeEmail host em) init RateLimitStore.empty 0
    (fun c hc => hsame c (List.mem_append_left _ hc) (ip, em, t) hlast)
    (by intro k; simp [RateLimitStore.empty, WindowMap.window, WindowMap.get?])
    (by omega)
    (by simp [RateLimitStore.empty, WindowMap.window, WindowMap.get?, hinit])
  rw [runRateLimit_append, h1, hinit]
  simp only [runRateLimit]
  rw [checkRateLimit_fst, h2]
  have hw : WindowMap.window RateLimitStore.empty.email (normalizeEmail host em) = [] := by
    simp [RateLimitStore.empty, WindowMap.window, WindowMap.get?]
  rw [hw, List.nil_append]
  have hcount : recentCount (init.map (fun c => c.2.2)) t (24 * 60 * 60 * 1000) = 3 := by
    rw [recentCount_eq_length, List.length_map, hinit]
    intro x hx
    obtain ⟨c, hc, rfl⟩ := List.mem_map.mp hx
    have := hspan c (List.mem_append_left _ hc) (ip, em, t) hlast
    simpa using this
  have hipw := h3 ip
  have c1 := recentCount_le_length ((runRateLimit host RateLimitStore.empty init).2.ip.window ip) t
    (60 * 60 * 1000)
  have c2 := recentCount_le_length ((runRateLimit host RateLimitStore.empty init).2.ip.window ip) t
    (24 * 60 * 60 * 1000)
  unfold rateLimitPolicy
  rw [hcount, if_neg (by omega), if_neg (by omega)]
  rfl

set_option maxRecDepth 1000000 in
/-- C5, at four calls one hour apart from three addresses whose emails differ in
the case of `É`. -/
theorem fourth_call_for_one_email_is_limited_witness :
    (runRateLimit latinHost RateLimitStore.empty accentedCalls).1
      = List.replicate 3 RateLimitResult.notLimited
          ++ [RateLimitResult.limited "email" "day" 86400] :=
  fourth_call_for_one_email_is_limited latinHost accentedCalls (by decide) (by decide)
    (by decide) (by decide)

/-! ## Persistence layer: the merged view -/

theorem RequestMap.get?_after_set (m : RequestMap) (key : String) (v : DemoRequest) :
    (m.set key v).get? key = some v := by
  induction m with
  | nil => simp [RequestMap.set, RequestMap.get?]
  | cons hd tl ih =>
    obtain ⟨k, w⟩ := hd
    by_cases h : k = key
    · simp [RequestMap.set, RequestMap.get?, h]
    · simp [RequestMap.set, RequestMap.get?, h, ih]

theorem RequestMap.get?_after_set_other (m : RequestMap) (key key2 : String) (v : DemoRequest)
    (h : key2 ≠ key) : (m.set key v).get? key2 = m.get? key2 := by
  induction m with
  | nil =>
    have h2 : ¬ key = key2 := fun e => h e.symm
    simp [RequestMap.set, RequestMap.get?, h2]
  | cons hd tl ih =>
    obtain ⟨k, w⟩ := hd
    by_cases hk : k = key
    · subst hk
      have h2 : ¬ k = key2 := fun e => h e.symm
      simp [RequestMap.set, RequestMap.get?, h2]
    · by_cases hk2 : k = key2
      · subst hk2
        simp [RequestMap.set, RequestMap.get?, hk]
      · simp [RequestMap.set, RequestMap.get?, hk, hk2, ih]

theorem RequestMap.keys_set (m : RequestMap) (key : String) (v : DemoRequest) :
    (m.set key v).keys = if key ∈ m.keys then m.keys else m.keys ++ [key] := by
  induction m with
  | nil => simp [RequestMap.set, RequestMap.keys]
  | cons hd tl ih =>
    obtain ⟨k, w⟩ := hd
    simp only [RequestMap.keys] at ih ⊢
    by_cases hk : k = key
    · simp [RequestMap.set, hk]
    · have hk2 : ¬ key = k := fun e => hk e.symm
      simp only [RequestMap.set, hk, if_false, List.map_cons, ih, List.mem_cons, hk2, false_or]
      split <;> simp

theorem RequestMap.keys_set_nodup (m : RequestMap) (key : String) (v : DemoRequest)
    (h : m.keys.Nodup) : (m.set key v).keys.Nodup := by
  rw [RequestMap.keys_set]
  split
  · exact h
  · rename_i hmem
    rw [List.nodup_append]
    refine ⟨h, List.nodup_singleton _, ?_⟩
    intro a ha hb
    simp only [List.mem_singleton] at hb
    subst hb
    exact hmem ha

theorem RequestMap.mem_iff_get? (m : RequestMap) (h : m.keys.Nodup) (k : String)
    (v : DemoRequest) : (k, v) ∈ m ↔ m.get? k = some v := by
  induction m with
  | nil => simp [RequestMap.get?]
  | cons hd tl ih =>
    obtain ⟨k0, w⟩ := hd
    simp only [RequestMap.keys, List.map_cons, List.nodup_cons] at h
    have ih2 := ih h.2
    by_cases hk : k0 = k
    · subst hk
      simp only [RequestMap.get?, if_true, List.mem_cons, Prod.mk.injEq, true_and,
        Option.some.injEq]
      constructor
      · rintro (heq | hmem)
        · exact heq.symm
        · exact absurd (List.mem_map.mpr ⟨(k0, v), hmem, rfl⟩) h.1
      · intro heq
        exact Or.inl heq.symm
    · have hk2 : ¬ k = k0 := fun e => hk e.symm
      simp [RequestMap.get?, hk, hk2, ih2]

theorem lastWithId_cons (r : DemoRequest) (rs : List DemoRequest) (id : String) :
    lastWithId (r :: rs) id
      = (lastWithId rs id).or (if r.requestId = id then some r else none) := by
  unfold lastWithId
  by_cases h : r.requestId = id
  · simp only [h, decide_True, List.filter_cons_of_pos, if_true]
    rw [List.getLast?_cons]
    cases (List.filter (fun r => decide (r.requestId = id)) rs).getLast? <;> rfl
  · simp only [h, decide_False, if_false]
    rw [List.filter_cons_of_neg (by simpa using h)]
    cases (List.filter (fun r => decide (r.requestId = id)) rs).getLast? <;> rfl

/-- After the insertion loop, a truthy identifier maps to the last inserted record
carrying it, or to what the map held before when there is none. -/
theorem RequestMap.addAll_get? (reqs : List DemoRequest) :
    ∀ (m : RequestMap) (id : String), id ≠ "" →
      (m.addAll reqs).get? id = (lastWithId reqs id).or (m.get? id) := by
  induction reqs with
  | nil => intro m id _; simp [RequestMap.addAll, lastWithId]
  | cons r rs ih =>
    intro m id hid
    have hstep : RequestMap.addAll m (r :: rs)
        = RequestMap.addAll (if r.requestId ≠ "" then m.set r.requestId r else m) rs := by
      simp [RequestMap.addAll]
    rw [hstep, ih _ id hid, lastWithId_cons]
    by_cases h : r.requestId = id
    · subst h
      simp only [hid, ne_eq, not_false_eq_true, if_true, RequestMap.get?_after_set]
      cases lastWithId rs r.requestId <;> rfl
    · have h2 : id ≠ r.requestId := fun e => h e.symm
      have hget : (if r.requestId ≠ "" then m.set r.requestId r else m).get? id = m.get? id := by
        split
        · exact RequestMap.get?_after_set_other m _ _ r h2
        · rfl
      rw [hget]
      simp only [h, if_false]
      cases lastWithId rs id <;> rfl

theorem RequestMap.addAll_keys_nodup (reqs : List DemoRequest) :
    ∀ (m : RequestMap), m.keys.Nodup → (m.addAll reqs).keys.Nodup := by
  induction reqs with
  | nil => intro m h; simpa [RequestMap.addAll] using h
  | cons r rs ih =>
    intro m h
    have hstep : RequestMap.addAll m (r :: rs)
        = RequestMap.addAll (if r.requestId ≠ "" then m.set r.requestId r else m) rs := by
      simp [RequestMap.addAll]
    rw [hstep]
    apply ih
    split
    · exact RequestMap.keys_set_nodup m _ r h
    · exact h

theorem RequestMap.mem_set (m : RequestMap) (key : String) (v : DemoRequest)
    (kv : String × DemoRequest) (h : kv ∈ m.set key v) : kv = (key, v) ∨ kv ∈ m := by
  induction m with
  | nil => simpa [RequestMap.set] using h
  | cons hd tl ih =>
    obtain ⟨k, w⟩ := hd
    by_cases hk : k = key
    · subst hk
      simp only [RequestMap.set, if_true, List.mem_cons] at h
      rcases h with h | h
      · exact Or.inl h
      · exact Or.inr (List.mem_cons_of_mem _ h)
    · simp only [RequestMap.set, hk, if_false, List.mem_cons] at h
      rcases h with h | h
      · exact Or.inr (by rw [h]; exact List.mem_cons_self _ _)
      · rcases ih h with h2 | h2
        · exact Or.inl h2
        · exact Or.inr (List.mem_cons_of_mem _ h2)

/-- Every entry of the map after the insertion loop was there before or is an
inserted record under its own truthy identifier. -/
theorem RequestMap.addAll_mem (reqs : List DemoRequest) :
    ∀ (m : RequestMap) (kv : String × DemoRequest), kv ∈ m.addAll reqs →
      kv ∈ m ∨ (kv.2 ∈ reqs ∧ kv.2.requestId = kv.1 ∧ kv.1 ≠ "") := by
  induction reqs with
  | nil => intro m kv h; exact Or.inl (by simpa [RequestMap.addAll] using h)
  | cons r rs ih =>
    intro m kv h
    have hstep : RequestMap.addAll m (r :: rs)
        = RequestMap.addAll (if r.requestId ≠ "" then m.set r.requestId r else m) rs := by
      simp [RequestMap.addAll]
    rw [hstep] at h
    rcases ih _ kv h with h1 | ⟨h1, h2, h3⟩
    · by_cases hid : r.requestId ≠ ""
      · rw [if_pos hid] at h1
        rcases RequestMap.mem_set m _ r kv h1 with h4 | h4
        · refine Or.inr ⟨?_, ?_, ?_⟩
          · rw [h4]; exact List.mem_cons_self _ _
          · rw [h4]
          · rw [h4]; exact hid
        · exact Or.inl h4
      · rw [if_neg hid] at h1
        exact Or.inl h1
    · exact Or.inr ⟨List.mem_cons_of_mem _ h1, h2, h3⟩

theorem lastWithId_append (a b : List DemoRequest) (id : String) :
    lastWithId (a ++ b) id = (lastWithId b id).or (lastWithId a id) := by
  unfold lastWithId
  rw [List.filter_append, List.getLast?_append]

theorem lastWithId_some (reqs : List DemoRequest) (id : String) (r : DemoRequest)
    (h : lastWithId reqs id = some r) : r ∈ reqs ∧ r.requestId = id := by
  unfold lastWithId at h
  have hm := List.mem_of_getLast?_eq_some h
  rw [List.mem_filter] at hm
  exact ⟨hm.1, by simpa using hm.2⟩

theorem lastWithId_isSome (reqs : List DemoRequest) (id : String)
    (h : id ∈ reqs.map (fun r => r.requestId)) : ∃ r, lastWithId reqs id = some r := by
  obtain ⟨x, hx, hxid⟩ := List.mem_map.mp h
  unfold lastWithId
  have hne : reqs.filter (fun r => decide (r.requestId = id)) ≠ [] := by
    intro hnil
    have : x ∈ reqs.filter (fun r => decide (r.requestId = id)) :=
      List.mem_filter.mpr ⟨hx, by simpa using hxid⟩
    rw [hnil] at this
    exact absurd this (List.not_mem_nil _)
  cases hl : (reqs.filter (fun r => decide (r.requestId = id))).getLast? with
  | none => exact absurd (List.getLast?_eq_none_iff.mp hl) hne
  | some r => exact ⟨r, rfl⟩

theorem readDemoRequests_eq (host : Host) (readResult : Except FsError String)
    (mem : List DemoRequest) :
    readDemoRequests host readResult mem
      = (RequestMap.addAll [] (fileRequests host readResult ++ mem)).values := by
  simp [readDemoRequests, RequestMap.addAll, List.foldl_append]

/-- A record is in the merged view exactly when its identifier is truthy and it
is the last record carrying that identifier in the log followed by the cache. -/
theorem mem_readDemoRequests_iff (host : Host) (readResult : Except FsError String)
    (mem : List DemoRequest) (r : DemoRequest) :
    r ∈ readDemoRequests host readResult mem ↔
      r.requestId ≠ "" ∧ lastWithId (fileRequests host readResult ++ mem) r.requestId = some r := by
  rw [readDemoRequests_eq]
  have hnd : (RequestMap.addAll [] (fileRequests host readResult ++ mem)).keys.Nodup :=
    RequestMap.addAll_keys_nodup _ [] (by simp [RequestMap.keys])
  constructor
  · intro h
    obtain ⟨kv, hkv, hr⟩ := List.mem_map.mp h
    obtain ⟨k, v⟩ := kv
    simp only at hr
    subst hr
    rcases RequestMap.addAll_mem _ [] (k, v) hkv with h1 | ⟨_, h2, h3⟩
    · exact absurd h1 (List.not_mem_nil _)
    · simp only at h2 h3
      subst h2
      refine ⟨h3, ?_⟩
      have hg := (RequestMap.mem_iff_get? _ hnd v.requestId v).mp hkv
      rw [RequestMap.addAll_get? _ [] _ h3] at hg
      simpa [RequestMap.get?] using hg
  · rintro ⟨hid, hlast⟩
    have hg : (RequestMap.addAll [] (fileRequests host readResult ++ mem)).get? r.requestId
        = some r := by
      rw [RequestMap.addAll_get? _ [] _ hid, hlast]; rfl
    have hm := (RequestMap.mem_iff_get? _ hnd r.requestId r).mpr hg
    exact List.mem_map.mpr ⟨(r.requestId, r), hm, rfl⟩

theorem readDemoRequests_ids_nodup (host : Host) (readResult : Except FsError String)
    (mem : List DemoRequest) :
    ((readDemoRequests host readResult mem).map (fun r => r.requestId)).Nodup := by
  rw [readDemoRequests_eq]
  have hnd : (RequestMap.addAll [] (fileRequests host readResult ++ mem)).keys.Nodup :=
    RequestMap.addAll_keys_nodup _ [] (by simp [RequestMap.keys])
  have hkeys : (RequestMap.addAll [] (fileRequests host readResult ++ mem)).values.map
      (fun r => r.requestId)
      = (RequestMap.addAll [] (fileRequests host readResult ++ mem)).keys := by
    unfold RequestMap.values RequestMap.keys
    rw [List.map_map]
    apply List.map_congr_left
    intro kv hkv
    rcases RequestMap.addAll_mem _ [] kv hkv with h1 | ⟨_, h2, _⟩
    · exact absurd h1 (List.not_mem_nil _)
    · exact h2
  rw [hkeys]
  exact hnd

/-- C9: for every log content (or failed read) and every in-process array, the
list `readDemoRequests` returns has no two records with the same requestId, has a
record for every (truthy) requestId present in the parsed log or in the array,
takes every record from one of the two sources, and for a requestId that occurs
in the array returns the array's record (its latest one) and not the log's. -/
theorem readDemoRequests_merges_by_requestId (host : Host)
    (readResult : Except FsError String) (mem : List DemoRequest) :
    ((readDemoRequests host readResult mem).map (fun r => r.requestId)).Nodup ∧
    (∀ id, id ≠ "" →
      (id ∈ (fileRequests host readResult).map (fun r => r.requestId) ∨
        id ∈ mem.map (fun r => r.requestId)) →
      ∃ r ∈ readDemoRequests host readResult mem, r.requestId = id) ∧
    (∀ r ∈ readDemoRequests host readResult mem, r ∈ fileRequests host readResult ∨ r ∈ mem) ∧
    (∀ r ∈ readDemoRequests host readResult mem,
      r.requestId ∈ mem.map (fun m => m.requestId) →
        r ∈ mem ∧ lastWithId mem r.requestId = some r) := by
  refine ⟨readDemoRequests_ids_nodup host readResult mem, ?_, ?_, ?_⟩
  · intro id hid hpresent
    have hin : id ∈ (fileRequests host readResult ++ mem).map (fun r => r.requestId) := by
      rw [List.map_append, List.mem_append]; exact hpresent
    obtain ⟨r, hr⟩ := lastWithId_isSome _ id hin
    have hrid := (lastWithId_some _ id r hr).2
    refine ⟨r, ?_, hrid⟩
    rw [mem_readDemoRequests_iff, hrid]
    exact ⟨hid, hr⟩
  · intro r hr
    rw [mem_readDemoRequests_iff] at hr
    have := (lastWithId_some _ _ r hr.2).1
    exact List.mem_append.mp this
  · intro r hr hmem
    rw [mem_readDemoRequests_iff, lastWithId_append] at hr
    obtain ⟨x, hx⟩ := lastWithId_isSome mem r.requestId hmem
    have hlast := hr.2
    rw [hx] at hlast
    have hxr : x = r := by simpa using hlast
    subst hxr
    exact ⟨(lastWithId_some _ _ x hx).1, hx⟩

set_option maxRecDepth 1000000 in
/-- C9, at a log with two records and an in-process array holding a newer value
for the first requestId: the in-process value is returned in the log record's
place. -/
theorem readDemoRequests_merges_by_requestId_witness :
    ((readDemoRequests sampleHost
        (.ok (joinLines [stringifyRecord sampleRecordA, stringifyRecord sampleRecordB]))
        [{ sampleRecordA with source := JsValue.string "cache" }]).map
          (fun r => r.requestId)).Nodup ∧
    readDemoRequests sampleHost
        (.ok (joinLines [stringifyRecord sampleRecordA, stringifyRecord sampleRecordB]))
        [{ sampleRecordA with source := JsValue.string "cache" }]
      = [{ sampleRecordA with source := JsValue.string "cache" }, sampleRecordB] :=
  ⟨(readDemoRequests_merges_by_requestId sampleHost
      (.ok (joinLines [stringifyRecord sampleRecordA, stringifyRecord sampleRecordB]))
      [{ sampleRecordA with source := JsValue.string "cache" }]).1, by decide⟩

/-! ## Duplicate detector -/

/-- The predicate `checkDuplicate` passes to `find` holds exactly for recent matches. -/
theorem duplicate_predicate_iff (host : Host) (email : String) (now : Int) (r : DemoRequest) :
    (if normalizeEmail host r.email ≠ normalizeEmail host email then false
      else
        match host.dateGetTime r.createdAt with
        | none => false
        | some createdAt => decide (createdAt > now - thirtyDays)) = true
      ↔ IsRecentMatch host email now r := by
  unfold IsRecentMatch thirtyDays
  by_cases he : normalizeEmail host r.email = normalizeEmail host email
  · cases ht : host.dateGetTime r.createdAt with
    | none => simp [he]
    | some t => simp [he]
  · simp [he]

theorem checkDuplicate_eq_some_iff (host : Host) (readResult : Except FsError String)
    (mem : List DemoRequest) (email : String) (now : Int) (r : DemoRequest) :
    checkDuplicate host readResult mem email now = some r ↔
      IsRecentMatch host email now r ∧
        ∃ pre post, readDemoRequests host readResult mem = pre ++ r :: post ∧
          ∀ x ∈ pre, ¬ IsRecentMatch host email now x := by
  unfold checkDuplicate
  simp only [List.find?_eq_some, duplicate_predicate_iff]
  constructor
  · rintro ⟨h1, pre, post, h2, h3⟩
    refine ⟨h1, pre, post, h2, ?_⟩
    intro x hx hm
    have := h3 x hx
    rw [(duplicate_predicate_iff host email now x).mpr hm] at this
    simp at this
  · rintro ⟨h1, pre, post, h2, h3⟩
    refine ⟨h1, pre, post, h2, ?_⟩
    intro x hx
    have hn := h3 x hx
    rw [← duplicate_predicate_iff] at hn
    rw [Bool.not_eq_true']
    exact Bool.eq_false_iff.mpr hn

theorem checkDuplicate_eq_none_iff (host : Host) (readResult : Except FsError String)
    (mem : List DemoRequest) (email : String) (now : Int) :
    checkDuplicate host readResult mem email now = none ↔
      ∀ x ∈ readDemoRequests host readResult mem, ¬ IsRecentMatch host email now x := by
  unfold checkDuplicate
  simp only [List.find?_eq_none, duplicate_predicate_iff]

/-- C6: for every log, in-process array, email and time, `checkDuplicate` returns
the first record of `readDemoRequests`' result whose normalized email equals the
normalized query email and whose `createdAt` is later than now minus 30 days, and
returns nothing exactly when no record of the result is such a match; a returned
record is never one created 30 days ago or earlier or with an unparseable
`createdAt`. -/
theorem checkDuplicate_first_recent_match (host : Host) (readResult : Except FsError String)
    (mem : List DemoRequest) (email : String) (now : Int) :
    (∀ r, checkDuplicate host readResult mem email now = some r ↔
      IsRecentMatch host email now r ∧
        ∃ pre post, readDemoRequests host readResult mem = pre ++ r :: post ∧
          ∀ x ∈ pre, ¬ IsRecentMatch host email now x) ∧
    (checkDuplicate host readResult mem email now = none ↔
      ∀ x ∈ readDemoRequests host readResult mem, ¬ IsRecentMatch host email now x) ∧
    (∀ r, checkDuplicate host readResult mem email now = some r →
      host.dateGetTime r.createdAt ≠ none ∧
        ∀ t, host.dateGetTime r.createdAt = some t → ¬ t ≤ now - 30 * 24 * 60 * 60 * 1000) := by
  refine ⟨fun r => checkDuplicate_eq_some_iff host readResult mem email now r,
    checkDuplicate_eq_none_iff host readResult mem email now, ?_⟩
  intro r hr
  obtain ⟨⟨_, t, ht, hlt⟩, _⟩ := (checkDuplicate_eq_some_iff host readResult mem email now r).mp hr
  refine ⟨by rw [ht]; simp, ?_⟩
  intro t2 ht2
  rw [ht] at ht2
  have : t = t2 := by simpa using ht2
  subst this
  omega

/-! ## Persistence layer: reading the log -/

theorem jsSplitLines_joinLines (ls : List String) (hls : ls ≠ [])
    (hnl : ∀ x ∈ ls, '\n' ∉ x.data) : jsSplitLines (joinLines ls) = ls := by
  unfold jsSplitLines joinLines
  simp only
  rw [List.splitOn_intercalate]
  · rw [List.map_map]
    have : (String.mk ∘ String.data) = id := by funext x; rfl
    rw [this, List.map_id]
  · intro l hl
    obtain ⟨x, hx, rfl⟩ := List.mem_map.mp hl
    exact hnl x hx
  · simpa using hls

theorem parseLog_eq_filterMap (host : Host) (content : String) :
    parseLog host content = (jsSplitLines content).filterMap (parsedRecord host) := by
  unfold parseLog
  simp only [List.filterMap_map, List.filterMap_filter]
  apply List.filterMap_congr
  intro x _
  unfold parsedRecord
  by_cases h : isRecordLine x <;> simp [h, Option.guard]

theorem isRecordLine_empty : isRecordLine "" = false := by decide

/-- The records parsed from a text given by its lines. -/
theorem parseLog_joinLines (host : Host) (ls : List String) (hnl : ∀ x ∈ ls, '\n' ∉ x.data) :
    parseLog host (joinLines ls) = ls.filterMap (parsedRecord host) := by
  rw [parseLog_eq_filterMap]
  by_cases hls : ls = []
  · subst hls
    have : jsSplitLines (joinLines []) = [""] := by decide
    rw [this]
    simp [parsedRecord, isRecordLine_empty]
  · rw [jsSplitLines_joinLines ls hls hnl]

/-- C10: the records `readDemoRequests` takes from the log are the parse results
of its record lines that parse, in file order; a line that is blank, begins with
`#` or fails to parse (a partial trailing line included) contributes nothing, so
inserting or removing such a line anywhere changes neither the records taken from
the log nor the merged result, and the read yields a list for every content. -/
theorem log_read_skips_junk_lines (host : Host) (pre post : List String) (l : String)
    (hnl : ∀ x ∈ pre ++ l :: post, '\n' ∉ x.data)
    (hjunk : isRecordLine l = false ∨ host.jsonParse l = none) :
    (∀ content, fileRequests host (.ok content)
      = (jsSplitLines content).filterMap (parsedRecord host)) ∧
    fileRequests host (.ok (joinLines (pre ++ l :: post)))
      = (pre ++ post).filterMap (parsedRecord host) ∧
    fileRequests host (.ok (joinLines (pre ++ post)))
      = (pre ++ post).filterMap (parsedRecord host) ∧
    ∀ mem, readDemoRequests host (.ok (joinLines (pre ++ l :: post))) mem
      = readDemoRequests host (.ok (joinLines (pre ++ post))) mem := by
  have hl : parsedRecord host l = none := by
    unfold parsedRecord
    rcases hjunk with h | h
    · simp [h]
    · simp [h]
  have hnl2 : ∀ x ∈ pre ++ post, '\n' ∉ x.data := by
    intro x hx
    apply hnl x
    rcases List.mem_append.mp hx with h | h
    · exact List.mem_append_left _ h
    · exact List.mem_append_right _ (List.mem_cons_of_mem _ h)
  have h1 : fileRequests host (.ok (joinLines (pre ++ l :: post)))
      = (pre ++ post).filterMap (parsedRecord host) := by
    simp only [fileRequests]
    rw [parseLog_joinLines host _ hnl]
    simp [List.filterMap_append, List.filterMap_cons, hl]
  have h2 : fileRequests host (.ok (joinLines (pre ++ post)))
      = (pre ++ post).filterMap (parsedRecord host) := by
    simp only [fileRequests]
    rw [parseLog_joinLines host _ hnl2]
  refine ⟨fun content => parseLog_eq_filterMap host content, h1, h2, ?_⟩
  intro mem
  rw [readDemoRequests_eq, readDemoRequests_eq, h1, h2]

set_option maxRecDepth 100000 in
/-- C10, at a log with a header line, a blank line, two records and a partial
line between them. -/
theorem log_read_skips_junk_lines_witness :
    fileRequests sampleHost (.ok (joinLines
        (["# Demo Requests Storage", "", stringifyRecord sampleRecordA]
          ++ "\x7b\"requestId\":\"req_77" :: [stringifyRecord sampleRecordB, ""])))
      = [sampleRecordA, sampleRecordB] :=
  (log_read_skips_junk_lines sampleHost
    ["# Demo Requests Storage", "", stringifyRecord sampleRecordA]
    [stringifyRecord sampleRecordB, ""] "\x7b\"requestId\":\"req_77"
    (by decide) (by decide)).2.1.trans (by decide)

/-! ## Persistence layer: writing -/

theorem writeDemoRequest_inMemory (host : Host) (p : Persistence)
    (appendFault writeFault : Option FsError) (data : DemoRequest) :
    (writeDemoRequest host p appendFault writeFault data).inMemoryDemoRequests
      = p.inMemoryDemoRequests ++ [data] := by
  unfold writeDemoRequest fsAppendFile fsWriteFile
  cases appendFault with
  | none => rfl
  | some e =>
    cases e with
    | ENOENT => cases writeFault <;> rfl
    | EROFS => rfl
    | EPERM => rfl
    | other code => rfl

theorem generateRequestId_ne_empty (uuid : String) : generateRequestId uuid ≠ "" := by
  unfold generateRequestId
  intro h
  have hd := congrArg String.data h
  rw [String.data_append] at hd
  simp at hd

theorem lastWithId_singleton (data : DemoRequest) :
    lastWithId [data] data.requestId = some data := by
  simp [lastWithId]

/-- The record pushed last onto the in-process array is in the merged view. -/
theorem mem_readDemoRequests_of_pushed (host : Host) (readResult : Except FsError String)
    (mem : List DemoRequest) (data : DemoRequest) (hid : data.requestId ≠ "") :
    data ∈ readDemoRequests host readResult (mem ++ [data]) := by
  rw [mem_readDemoRequests_iff]
  refine ⟨hid, ?_⟩
  rw [lastWithId_append, lastWithId_append, lastWithId_singleton]
  rfl

/-- Every element of a list lies on one of its pages. -/
theorem mem_some_page {α : Type} (l : List α) (x : α) (hx : x ∈ l) (size : Nat)
    (hs : 0 < size) : ∃ page : Nat, x ∈ (l.drop (page * size)).take size := by
  obtain ⟨n, hn, hxn⟩ := List.mem_iff_getElem.mp hx
  refine ⟨n / size, ?_⟩
  rw [List.mem_take_iff_getElem]
  have hdiv : n / size * size + n % size = n := by
    rw [Nat.mul_comm]; exact Nat.div_add_mod n size
  have hmod : n % size < size := Nat.mod_lt n hs
  refine ⟨n % size, ?_, ?_⟩
  · rw [List.length_drop]
    omega
  · rw [List.getElem_drop]
    simp only [hdiv]
    exact hxn

theorem mem_sortNewestFirst (host : Host) (l : List DemoRequest) (x : DemoRequest) :
    x ∈ sortNewestFirst host l ↔ x ∈ l := by
  unfold sortNewestFirst
  exact List.mem_insertionSort _

/-- The list handler with a non-negative page and a size in 1..100. -/
theorem getDemoRequests_valid (host : Host) (st : ServerState) (page size : Int)
    (readFault : Option FsError) (hp : 0 ≤ page) (h1 : 1 ≤ size) (h2 : size ≤ 100) :
    getDemoRequests host st (some page) (some size) readFault
      = Response.listed
          (((sortNewestFirst host (readDemoRequests host
              (fsReadFile st.persistence.file readFault)
              st.persistence.inMemoryDemoRequests)).drop (page * size).toNat).take size.toNat)
          page size
          (sortNewestFirst host (readDemoRequests host
              (fsReadFile st.persistence.file readFault)
              st.persistence.inMemoryDemoRequests)).length
          (((sortNewestFirst host (readDemoRequests host
              (fsReadFile st.persistence.file readFault)
              st.persistence.inMemoryDemoRequests)).length + size.toNat - 1) / size.toNat) := by
  unfold getDemoRequests
  have hs : size ≠ 0 := by omega
  by_cases hp0 : page = 0
  · subst hp0
    simp [hs, h1, h2]
  · simp [hs, hp0, hp, h1, h2]

/-! ## Request coordinator -/

theorem postDemoRequest_invalid (host : Host) (st : ServerState) (req : PostRequest)
    (h : validateBody host req.body ≠ []) :
    postDemoRequest host st req
      = ⟨Response.validationError (validateBody host req.body), st, [Stage.validating]⟩ := by
  unfold postDemoRequest
  have hlen : (validateBody host req.body).length > 0 := List.length_pos.mpr h
  simp only [hlen, if_true]

theorem postDemoRequest_limited (host : Host) (st : ServerState) (req : PostRequest)
    (h : validateBody host req.body = []) (ty lim : String) (retryAfter : Nat)
    (hl : (checkRateLimit host st.rateLimitStore req.clientIp
      (normalizeEmail host req.body.email.asString) req.rateLimitNow).1
        = RateLimitResult.limited ty lim retryAfter) :
    postDemoRequest host st req
      = ⟨Response.rateLimitExceeded retryAfter,
          { st with rateLimitStore := (checkRateLimit host st.rateLimitStore req.clientIp
              (normalizeEmail host req.body.email.asString) req.rateLimitNow).2 },
          [Stage.validating, Stage.rateChecking]⟩ := by
  unfold postDemoRequest
  simp only [h, List.length_nil, gt_iff_lt, lt_self_iff_false, if_false, hl]

theorem postDemoRequest_duplicate (host : Host) (st : ServerState) (req : PostRequest)
    (h : validateBody host req.body = [])
    (hl : (checkRateLimit host st.rateLimitStore req.clientIp
      (normalizeEmail host req.body.email.asString) req.rateLimitNow).1 = RateLimitResult.notLimited)
    (dup : DemoRequest)
    (hd : checkDuplicate host (fsReadFile st.persistence.file req.readFault)
      st.persistence.inMemoryDemoRequests (normalizeEmail host req.body.email.asString)
      req.duplicateNow = some dup) :
    postDemoRequest host st req
      = ⟨Response.duplicateRequest dup.requestId dup.createdAt,
          { st with rateLimitStore := (checkRateLimit host st.rateLimitStore req.clientIp
              (normalizeEmail host req.body.email.asString) req.rateLimitNow).2 },
          [Stage.validating, Stage.rateChecking, Stage.duplicateChecking]⟩ := by
  unfold postDemoRequest
  simp only [h, List.length_nil, gt_iff_lt, lt_self_iff_false, if_false, hl, hd]

theorem postDemoRequest_created (host : Host) (st : ServerState) (req : PostRequest)
    (h : validateBody host req.body = [])
    (hl : (checkRateLimit host st.rateLimitStore req.clientIp
      (normalizeEmail host req.body.email.asString) req.rateLimitNow).1 = RateLimitResult.notLimited)
    (hd : checkDuplicate host (fsReadFile st.persistence.file req.readFault)
      st.persistence.inMemoryDemoRequests (normalizeEmail host req.body.email.asString)
      req.duplicateNow = none) :
    postDemoRequest host st req
      = ⟨Response.created (generateRequestId req.uuid)
            (normalizeEmail host req.body.email.asString) (normalizeUserType host req.body.userType)
            "pending" (host.toISOString req.createdNow),
          { rateLimitStore := (checkRateLimit host st.rateLimitStore req.clientIp
              (normalizeEmail host req.body.email.asString) req.rateLimitNow).2
            persistence := writeDemoRequest host st.persistence req.appendFault req.writeFault
              (buildRequestData host req) },
          [Stage.validating, Stage.rateChecking, Stage.duplicateChecking, Stage.persisting]⟩ := by
  unfold postDemoRequest
  simp only [h, List.length_nil, gt_iff_lt, lt_self_iff_false, if_false, hl, hd]
  rfl

/-- C1: every POST produces one outcome, decided in fixed order. A validation
error gives 400 `VALIDATION_ERROR` and only the validation stage runs; otherwise a
limited `checkRateLimit` gives 429 `RATE_LIMIT_EXCEEDED` and `checkDuplicate` is
not run; otherwise a record found by `checkDuplicate` gives 409
`DUPLICATE_REQUEST` and nothing is written; otherwise the answer is 201 and the
record is persisted. The status is always one of these four. -/
theorem post_outcome_decided_in_order (host : Host) (st : ServerState) (req : PostRequest) :
    (validateBody host req.body ≠ [] →
      (postDemoRequest host st req).response = Response.validationError (validateBody host req.body) ∧
      (postDemoRequest host st req).response.status = 400 ∧
      (postDemoRequest host st req).response.code = "VALIDATION_ERROR" ∧
      (postDemoRequest host st req).stages = [Stage.validating] ∧
      (postDemoRequest host st req).state = st) ∧
    (validateBody host req.body = [] →
      ∀ ty lim retryAfter,
        (checkRateLimit host st.rateLimitStore req.clientIp
          (normalizeEmail host req.body.email.asString) req.rateLimitNow).1
            = RateLimitResult.limited ty lim retryAfter →
        (postDemoRequest host st req).response = Response.rateLimitExceeded retryAfter ∧
        (postDemoRequest host st req).response.status = 429 ∧
        (postDemoRequest host st req).response.code = "RATE_LIMIT_EXCEEDED" ∧
        (postDemoRequest host st req).stages = [Stage.validating, Stage.rateChecking] ∧
        (postDemoRequest host st req).state.persistence = st.persistence) ∧
    (validateBody host req.body = [] →
      (checkRateLimit host st.rateLimitStore req.clientIp
        (normalizeEmail host req.body.email.asString) req.rateLimitNow).1
          = RateLimitResult.notLimited →
      ∀ dup,
        checkDuplicate host (fsReadFile st.persistence.file req.readFault)
          st.persistence.inMemoryDemoRequests (normalizeEmail host req.body.email.asString)
          req.duplicateNow = some dup →
        (postDemoRequest host st req).response
          = Response.duplicateRequest dup.requestId dup.createdAt ∧
        (postDemoRequest host st req).response.status = 409 ∧
        (postDemoRequest host st req).response.code = "DUPLICATE_REQUEST" ∧
        (postDemoRequest host st req).stages
          = [Stage.validating, Stage.rateChecking, Stage.duplicateChecking] ∧
        (postDemoRequest host st req).state.persistence = st.persistence) ∧
    (validateBody host req.body = [] →
      (checkRateLimit host st.rateLimitStore req.clientIp
        (normalizeEmail host req.body.email.asString) req.rateLimitNow).1
          = RateLimitResult.notLimited →
      checkDuplicate host (fsReadFile st.persistence.file req.readFault)
        st.persistence.inMemoryDemoRequests (normalizeEmail host req.body.email.asString)
        req.duplicateNow = none →
      (postDemoRequest host st req).response.status = 201 ∧
      (postDemoRequest host st req).stages
        = [Stage.validating, Stage.rateChecking, Stage.duplicateChecking, Stage.persisting] ∧
      (postDemoRequest host st req).state.persistence.inMemoryDemoRequests
        = st.persistence.inMemoryDemoRequests ++ [buildRequestData host req]) ∧
    ((postDemoRequest host st req).response.status = 400 ∨
      (postDemoRequest host st req).response.status = 429 ∨
      (postDemoRequest host st req).response.status = 409 ∨
      (postDemoRequest host st req).response.status = 201) := by
  refine ⟨?_, ?_, ?_, ?_, ?_⟩
  · intro h
    rw [postDemoRequest_invalid host st req h]
    exact ⟨rfl, rfl, rfl, rfl, rfl⟩
  · intro h ty lim retryAfter hl
    rw [postDemoRequest_limited host st req h ty lim retryAfter hl]
    exact ⟨rfl, rfl, rfl, rfl, rfl⟩
  · intro h hl dup hd
    rw [postDemoRequest_duplicate host st req h hl dup hd]
    exact ⟨rfl, rfl, rfl, rfl, rfl⟩
  · intro h hl hd
    rw [postDemoRequest_created host st req h hl hd]
    refine ⟨rfl, rfl, ?_⟩
    exact writeDemoRequest_inMemory host st.persistence req.appendFault req.writeFault _
  · by_cases h : validateBody host req.body = []
    · cases hl : (checkRateLimit host st.rateLimitStore req.clientIp
          (normalizeEmail host req.body.email.asString) req.rateLimitNow).1 with
      | limited ty lim retryAfter =>
        rw [postDemoRequest_limited host st req h ty lim retryAfter hl]
        exact Or.inr (Or.inl rfl)
      | notLimited =>
        cases hd : checkDuplicate host (fsReadFile st.persistence.file req.readFault)
            st.persistence.inMemoryDemoRequests (normalizeEmail host req.body.email.asString)
            req.duplicateNow with
        | none =>
          rw [postDemoRequest_created host st req h hl hd]
          exact Or.inr (Or.inr (Or.inr rfl))
        | some dup =>
          rw [postDemoRequest_duplicate host st req h hl dup hd]
          exact Or.inr (Or.inr (Or.inl rfl))
    · rw [postDemoRequest_invalid host st req h]
      exact Or.inl rfl

set_option maxRecDepth 1000000 in
/-- C1, at a body with no fields: the answer is 400 with the four `required`
errors, only the validation stage runs and the state is untouched. -/
theorem post_outcome_decided_in_order_witness :
    (postDemoRequest sampleHost emptyState
        { samplePost with body := ⟨.undefined, .undefined, .undefined, .undefined, .undefined,
            .undefined⟩ }).response
      = Response.validationError
          [⟨"email", "Email is required"⟩, ⟨"userType", "User type is required"⟩,
            ⟨"socialHandle", "Social handle is required"⟩,
            ⟨"socialPlatform", "Social platform is required"⟩] ∧
    (postDemoRequest sampleHost emptyState
        { samplePost with body := ⟨.undefined, .undefined, .undefined, .undefined, .undefined,
            .undefined⟩ }).stages = [Stage.validating] :=
  ⟨((post_outcome_decided_in_order sampleHost emptyState
      { samplePost with body := ⟨.undefined, .undefined, .undefined, .undefined, .undefined,
          .undefined⟩ }).1 (by decide)).1.trans (by decide),
    ((post_outcome_decided_in_order sampleHost emptyState
      { samplePost with body := ⟨.undefined, .undefined, .undefined, .undefined, .undefined,
          .undefined⟩ }).1 (by decide)).2.2.2.1⟩

/-- C8: for every record carrying a generated identifier and every outcome of
the file-system calls, `writeDemoRequest` appends the record to the in-process
array, leaving the earlier entries as they were, and a following
`readDemoRequests`, whether or not its own read of the log fails, returns a list
containing the record; so the next GET lists it on one of its pages, and the
POST's response does not depend on whether the durable write fails. -/
theorem writeDemoRequest_survives_storage_failure (host : Host) (p : Persistence)
    (appendFault writeFault : Option FsError) (data : DemoRequest) (uuid : String)
    (hid : data.requestId = generateRequestId uuid) :
    (writeDemoRequest host p appendFault writeFault data).inMemoryDemoRequests
      = p.inMemoryDemoRequests ++ [data] ∧
    (∀ readFault,
      data ∈ readDemoRequests host
        (fsReadFile (writeDemoRequest host p appendFault writeFault data).file readFault)
        (writeDemoRequest host p appendFault writeFault data).inMemoryDemoRequests) ∧
    (∀ (rl : RateLimitStore) (readFault : Option FsError) (size : Int), 1 ≤ size → size ≤ 100 →
      ∃ page : Int, 0 ≤ page ∧ ∃ requesters totalElements totalPages,
        getDemoRequests host ⟨rl, writeDemoRequest host p appendFault writeFault data⟩
          (some page) (some size) readFault
          = Response.listed requesters page size totalElements totalPages ∧
        data ∈ requesters) ∧
    (∀ (st : ServerState) (req : PostRequest),
      (postDemoRequest host st req).response.status = 201 →
        (postDemoRequest host st req).state.persistence
          = writeDemoRequest host st.persistence req.appendFault req.writeFault
              (buildRequestData host req) ∧
        (buildRequestData host req).requestId = generateRequestId req.uuid ∧
        ∀ af wf,
          (postDemoRequest host st { req with appendFault := af, writeFault := wf }).response
            = (postDemoRequest host st req).response) := by
  have hne : data.requestId ≠ "" := by rw [hid]; exact generateRequestId_ne_empty uuid
  have hmem := writeDemoRequest_inMemory host p appendFault writeFault data
  have hread : ∀ readFault,
      data ∈ readDemoRequests host
        (fsReadFile (writeDemoRequest host p appendFault writeFault data).file readFault)
        (writeDemoRequest host p appendFault writeFault data).inMemoryDemoRequests := by
    intro readFault
    rw [hmem]
    exact mem_readDemoRequests_of_pushed host _ _ data hne
  refine ⟨hmem, hread, ?_, ?_⟩
  · intro rl readFault size h1 h2
    have hin := (mem_sortNewestFirst host _ data).mpr (hread readFault)
    obtain ⟨page, hpage⟩ := mem_some_page _ data hin size.toNat (by omega)
    refine ⟨(page : Int), by omega, _, _, _,
      getDemoRequests_valid host _ (page : Int) size readFault (by omega) h1 h2, ?_⟩
    have htn : ((page : Int) * size).toNat = page * size.toNat := by
      obtain ⟨n, hn⟩ := Int.eq_ofNat_of_zero_le (show 0 ≤ size by omega)
      subst hn
      have hc : ((page : Int) * (n : Int)) = ((page * n : Nat) : Int) := by push_cast; rfl
      rw [hc, Int.toNat_ofNat, Int.toNat_ofNat]
    rw [htn]
    exact hpage
  · intro st req h201
    by_cases h : validateBody host req.body = []
    · cases hl : (checkRateLimit host st.rateLimitStore req.clientIp
          (normalizeEmail host req.body.email.asString) req.rateLimitNow).1 with
      | limited ty lim retryAfter =>
        rw [postDemoRequest_limited host st req h ty lim retryAfter hl] at h201
        simp [Response.status] at h201
      | notLimited =>
        cases hd : checkDuplicate host (fsReadFile st.persistence.file req.readFault)
            st.persistence.inMemoryDemoRequests (normalizeEmail host req.body.email.asString)
            req.duplicateNow with
        | none =>
          refine ⟨?_, rfl, ?_⟩
          · rw [postDemoRequest_created host st req h hl hd]
          · intro af wf
            rw [postDemoRequest_created host st req h hl hd,
              postDemoRequest_created host st { req with appendFault := af, writeFault := wf }
                h hl hd]
        | some dup =>
          rw [postDemoRequest_duplicate host st req h hl dup hd] at h201
          simp [Response.status] at h201
    · rw [postDemoRequest_invalid host st req h] at h201
      simp [Response.status] at h201

set_option maxRecDepth 1000000 in
/-- C8, at a record written while `appendFile` fails with `EPERM`, read back
while `readFile` fails too. -/
theorem writeDemoRequest_survives_storage_failure_witness :
    (writeDemoRequest sampleHost ⟨[sampleRecordB], some "# Demo Requests Storage\n"⟩
        (some FsError.EPERM) none sampleRecordA).inMemoryDemoRequests
      = [sampleRecordB, sampleRecordA] ∧
    sampleRecordA ∈ readDemoRequests sampleHost
      (fsReadFile (writeDemoRequest sampleHost ⟨[sampleRecordB], some "# Demo Requests Storage\n"⟩
        (some FsError.EPERM) none sampleRecordA).file (some FsError.EPERM))
      (writeDemoRequest sampleHost ⟨[sampleRecordB], some "# Demo Requests Storage\n"⟩
        (some FsError.EPERM) none sampleRecordA).inMemoryDemoRequests :=
  ⟨(writeDemoRequest_survives_storage_failure sampleHost
      ⟨[sampleRecordB], some "# Demo Requests Storage\n"⟩ (some FsError.EPERM) none sampleRecordA
      "5f2b8c1d-9e07-4a3b-8c2d-1e0f9a8b7c6d" (by decide)).1,
    (writeDemoRequest_survives_storage_failure sampleHost
      ⟨[sampleRecordB], some "# Demo Requests Storage\n"⟩ (some FsError.EPERM) none sampleRecordA
      "5f2b8c1d-9e07-4a3b-8c2d-1e0f9a8b7c6d" (by decide)).2.1 (some FsError.EPERM)⟩

/-! ## Duplicate suppression across two submissions -/

/-- C7, amended: let `first` be a record accepted in this process with a
generated requestId `R` and `createdAt` the ISO text of `T`, still the latest
in-process record carrying `R`, and let no other stored record have its
(normalized) email. A valid second submission whose email normalizes to the same
and which the rate limiter admits is answered 409 `DUPLICATE_REQUEST` with
`existingRequestId = R` and `submittedAt` the text of `T` when `checkDuplicate`
runs less than 30 days after `T`, and 201 when it runs 30 days or more after.
The host's `Date` is assumed to parse the text it wrote for `T` back to `T`. -/
theorem second_submission_duplicate_or_accepted (host : Host) (st : ServerState)
    (req : PostRequest) (first : DemoRequest) (uuid : String) (T : Int)
    (hR : first.requestId = generateRequestId uuid)
    (hT : first.createdAt = host.toISOString T)
    (hparse : host.dateGetTime (host.toISOString T) = some T)
    (hlast : lastWithId st.persistence.inMemoryDemoRequests first.requestId = some first)
    (hsole : ∀ r ∈ fileRequests host (fsReadFile st.persistence.file req.readFault)
        ++ st.persistence.inMemoryDemoRequests,
      r ≠ first → normalizeEmail host r.email ≠ normalizeEmail host first.email)
    (hvalid : validateBody host req.body = [])
    (hemail : normalizeEmail host req.body.email.asString = first.email)
    (hpass : (checkRateLimit host st.rateLimitStore req.clientIp
      (normalizeEmail host req.body.email.asString) req.rateLimitNow).1
        = RateLimitResult.notLimited) :
    (req.duplicateNow - T < 2592000000 →
      (postDemoRequest host st req).response
        = Response.duplicateRequest first.requestId (host.toISOString T) ∧
      (postDemoRequest host st req).response.status = 409) ∧
    (2592000000 ≤ req.duplicateNow - T →
      (postDemoRequest host st req).response.status = 201) := by
  have hne : first.requestId ≠ "" := by rw [hR]; exact generateRequestId_ne_empty uuid
  have hin : first ∈ readDemoRequests host (fsReadFile st.persistence.file req.readFault)
      st.persistence.inMemoryDemoRequests := by
    rw [mem_readDemoRequests_iff, lastWithId_append, hlast]
    exact ⟨hne, rfl⟩
  have hothers : ∀ x ∈ readDemoRequests host (fsReadFile st.persistence.file req.readFault)
      st.persistence.inMemoryDemoRequests, x ≠ first →
      ¬ IsRecentMatch host (normalizeEmail host req.body.email.asString) req.duplicateNow x := by
    intro x hx hxne hm
    rw [mem_readDemoRequests_iff] at hx
    have hxin := (lastWithId_some _ _ x hx.2).1
    apply hsole x hxin hxne
    rw [hm.1, hemail]
  have hfirst : IsRecentMatch host (normalizeEmail host req.body.email.asString) req.duplicateNow first
      ↔ req.duplicateNow - 2592000000 < T := by
    unfold IsRecentMatch
    rw [hemail, hT, hparse]
    simp
  constructor
  · intro hrecent
    have hd : checkDuplicate host (fsReadFile st.persistence.file req.readFault)
        st.persistence.inMemoryDemoRequests (normalizeEmail host req.body.email.asString)
        req.duplicateNow = some first := by
      cases hc : checkDuplicate host (fsReadFile st.persistence.file req.readFault)
          st.persistence.inMemoryDemoRequests (normalizeEmail host req.body.email.asString)
          req.duplicateNow with
      | none =>
        rw [checkDuplicate_eq_none_iff] at hc
        exact absurd (hfirst.mpr (by omega)) (hc first hin)
      | some y =>
        obtain ⟨hm, pre, post, hsplit, _⟩ := (checkDuplicate_eq_some_iff _ _ _ _ _ y).mp hc
        have hy : y ∈ readDemoRequests host (fsReadFile st.persistence.file req.readFault)
            st.persistence.inMemoryDemoRequests := by
          rw [hsplit]; exact List.mem_append_right _ (List.mem_cons_self _ _)
        by_cases hyf : y = first
        · rw [hyf]
        · exact absurd hm (hothers y hy hyf)
    rw [postDemoRequest_duplicate host st req hvalid hpass first hd, hT]
    exact ⟨rfl, rfl⟩
  · intro hold
    have hd : checkDuplicate host (fsReadFile st.persistence.file req.readFault)
        st.persistence.inMemoryDemoRequests (normalizeEmail host req.body.email.asString)
        req.duplicateNow = none := by
      rw [checkDuplicate_eq_none_iff]
      intro x hx
      by_cases hxf : x = first
      · rw [hxf, hfirst]; omega
      · exact hothers x hx hxf
    rw [postDemoRequest_created host st req hvalid hpass hd]
    rfl

set_option maxRecDepth 1000000 in
/-- C7 amended, at `école@x.io` followed one hour later by `École@x.io`. -/
theorem second_submission_duplicate_or_accepted_witness :
    (postDemoRequest latinHost (postDemoRequest latinHost emptyState accentedPost).state
        (accentedRetry 1 "198.51.100.4" "0a0a0a0a-1111-4222-8333-444444444444")).response
      = Response.duplicateRequest "req_5f2b8c1d9e07" "2023-11-14T22:13:20.002Z" :=
  ((second_submission_duplicate_or_accepted latinHost
    (postDemoRequest latinHost emptyState accentedPost).state
    (accentedRetry 1 "198.51.100.4" "0a0a0a0a-1111-4222-8333-444444444444")
    (buildRequestData latinHost accentedPost) accentedPost.uuid 1700000000002
    (by decide) (by decide) (by decide) (by decide) (by decide) (by decide) (by decide)
    (by decide)).1 (by decide)).1

set_option maxRecDepth 1000000 in
/-- C7 as stated fails when a later accepted submission with another email gets
the same requestId: `samplePost` is accepted with requestId `req_5f2b8c1d9e07`,
its record is stored and is the only stored record with email `demo@x.io`, and
`repeatPost`, valid, admitted by the rate limiter and arriving one day later, is
answered 201 and not 409. -/
theorem duplicate_missed_after_requestId_collision :
    (postDemoRequest sampleHost emptyState samplePost).response
      = Response.created "req_5f2b8c1d9e07" "demo@x.io" "creator" "pending"
          "2023-11-14T22:13:20.002Z" ∧
    sampleHost.dateGetTime "2023-11-14T22:13:20.002Z" = some 1700000000002 ∧
    buildRequestData sampleHost samplePost ∈ collidedState.persistence.inMemoryDemoRequests ∧
    (∀ r ∈ fileRequests sampleHost
          (fsReadFile collidedState.persistence.file repeatPost.readFault)
        ++ collidedState.persistence.inMemoryDemoRequests,
      r ≠ buildRequestData sampleHost samplePost →
        normalizeEmail sampleHost r.email ≠ normalizeEmail sampleHost "demo@x.io") ∧
    validateBody sampleHost repeatPost.body = [] ∧
    normalizeEmail sampleHost repeatPost.body.email.asString = "demo@x.io" ∧
    (checkRateLimit sampleHost collidedState.rateLimitStore repeatPost.clientIp
      (normalizeEmail sampleHost repeatPost.body.email.asString) repeatPost.rateLimitNow).1
        = RateLimitResult.notLimited ∧
    repeatPost.duplicateNow - 1700000000002 < 2592000000 ∧
    (postDemoRequest sampleHost collidedState repeatPost).response.status = 201 := by
  decide

/-! ## Request coordinator: outcomes, frame and validation -/

/-- The four ways a POST ends, each with the result the handler returns. -/
theorem postDemoRequest_cases (host : Host) (st : ServerState) (req : PostRequest) :
    (validateBody host req.body ≠ [] ∧
      postDemoRequest host st req
        = ⟨Response.validationError (validateBody host req.body), st, [Stage.validating]⟩) ∨
    (validateBody host req.body = [] ∧ ∃ ty lim retryAfter,
      (checkRateLimit host st.rateLimitStore req.clientIp
        (normalizeEmail host req.body.email.asString) req.rateLimitNow).1
          = RateLimitResult.limited ty lim retryAfter ∧
      postDemoRequest host st req
        = ⟨Response.rateLimitExceeded retryAfter,
            { st with rateLimitStore := (checkRateLimit host st.rateLimitStore req.clientIp
                (normalizeEmail host req.body.email.asString) req.rateLimitNow).2 },
            [Stage.validating, Stage.rateChecking]⟩) ∨
    (validateBody host req.body = [] ∧ ∃ dup,
      checkDuplicate host (fsReadFile st.persistence.file req.readFault)
        st.persistence.inMemoryDemoRequests (normalizeEmail host req.body.email.asString)
        req.duplicateNow = some dup ∧
      postDemoRequest host st req
        = ⟨Response.duplicateRequest dup.requestId dup.createdAt,
            { st with rateLimitStore := (checkRateLimit host st.rateLimitStore req.clientIp
                (normalizeEmail host req.body.email.asString) req.rateLimitNow).2 },
            [Stage.validating, Stage.rateChecking, Stage.duplicateChecking]⟩) ∨
    (validateBody host req.body = [] ∧
      postDemoRequest host st req
        = ⟨Response.created (generateRequestId req.uuid)
              (normalizeEmail host req.body.email.asString) (normalizeUserType host req.body.userType)
              "pending" (host.toISOString req.createdNow),
            { rateLimitStore := (checkRateLimit host st.rateLimitStore req.clientIp
                (normalizeEmail host req.body.email.asString) req.rateLimitNow).2
              persistence := writeDemoRequest host st.persistence req.appendFault req.writeFault
                (buildRequestData host req) },
            [Stage.validating, Stage.rateChecking, Stage.duplicateChecking,
              Stage.persisting]⟩) := by
  by_cases h : validateBody host req.body = []
  · cases hl : (checkRateLimit host st.rateLimitStore req.clientIp
        (normalizeEmail host req.body.email.asString) req.rateLimitNow).1 with
    | limited ty lim retryAfter =>
      exact Or.inr (Or.inl ⟨h, ty, lim, retryAfter, rfl,
        postDemoRequest_limited host st req h ty lim retryAfter hl⟩)
    | notLimited =>
      cases hd : checkDuplicate host (fsReadFile st.persistence.file req.readFault)
          st.persistence.inMemoryDemoRequests (normalizeEmail host req.body.email.asString)
          req.duplicateNow with
      | none => exact Or.inr (Or.inr (Or.inr ⟨h, postDemoRequest_created host st req h hl hd⟩))
      | some dup =>
        exact Or.inr (Or.inr (Or.inl ⟨h, dup, rfl,
          postDemoRequest_duplicate host st req h hl dup hd⟩))
  · exact Or.inl ⟨h, postDemoRequest_invalid host st req h⟩

/-- C13: a submission rejected by validation (400) leaves the whole state, the
rate-limit store and the persistence state alike, as it was; a submission
rejected by the rate limiter (429) or as a duplicate (409) leaves the in-process
array and the log file as they were. -/
theorem rejected_submission_leaves_state (host : Host) (st : ServerState)
    (req : PostRequest) :
    ((postDemoRequest host st req).response.status = 400 →
      (postDemoRequest host st req).state.rateLimitStore = st.rateLimitStore ∧
      (postDemoRequest host st req).state.persistence = st.persistence) ∧
    ((postDemoRequest host st req).response.status = 429 →
      (postDemoRequest host st req).state.persistence.inMemoryDemoRequests
        = st.persistence.inMemoryDemoRequests ∧
      (postDemoRequest host st req).state.persistence.file = st.persistence.file) ∧
    ((postDemoRequest host st req).response.status = 409 →
      (postDemoRequest host st req).state.persistence.inMemoryDemoRequests
        = st.persistence.inMemoryDemoRequests ∧
      (postDemoRequest host st req).state.persistence.file = st.persistence.file) := by
  rcases postDemoRequest_cases host st req with ⟨_, h⟩ | ⟨_, _, _, _, _, h⟩ | ⟨_, _, _, h⟩ | ⟨_, h⟩
  · rw [h]
    exact ⟨fun _ => ⟨rfl, rfl⟩, fun h2 => by simp [Response.status] at h2,
      fun h2 => by simp [Response.status] at h2⟩
  · rw [h]
    exact ⟨fun h2 => by simp [Response.status] at h2, fun _ => ⟨rfl, rfl⟩,
      fun h2 => by simp [Response.status] at h2⟩
  · rw [h]
    exact ⟨fun h2 => by simp [Response.status] at h2,
      fun h2 => by simp [Response.status] at h2, fun _ => ⟨rfl, rfl⟩⟩
  · rw [h]
    exact ⟨fun h2 => by simp [Response.status] at h2,
      fun h2 => by simp [Response.status] at h2,
      fun h2 => by simp [Response.status] at h2⟩

theorem requiredStep_bool (acc : List FieldError) (field rm fm : String) (p v : Bool) :
    (if (!p) = true then acc ++ [(⟨field, rm⟩ : FieldError)]
      else if (!v) = true then acc ++ [⟨field, fm⟩] else acc)
      = acc ++ requiredFieldErrors field rm fm p v := by
  cases p <;> cases v <;> simp [requiredFieldErrors]

theorem requiredStep_prop (acc : List FieldError) (field rm fm : String) (p : Bool)
    (q : Prop) [Decidable q] :
    (if (!p) = true then acc ++ [(⟨field, rm⟩ : FieldError)]
      else if q then acc ++ [⟨field, fm⟩] else acc)
      = acc ++ requiredFieldErrors field rm fm p (decide (¬ q)) := by
  cases p <;> by_cases hq : q <;> simp [requiredFieldErrors, hq]

theorem sourceStep (acc : List FieldError) (source : JsValue) :
    (match source with
      | .string src =>
        if (decide (src ≠ "") && decide (jsLength src > 100)) = true then
          acc ++ [(⟨"source", "Source must be maximum 100 characters"⟩ : FieldError)]
        else acc
      | _ => acc) = acc ++ sourceErrors source := by
  cases source <;> simp [sourceErrors]
  rename_i s
  by_cases h1 : s = "" <;> by_cases h2 : 100 < jsLength s <;> simp [h1, h2]

theorem validateBody_eq {host : Host} (body : DemoRequestBody) :
    validateBody host body
      = requiredFieldErrors "email" "Email is required" "Invalid email format"
          body.email.truthy (validateEmail body.email) ++
        requiredFieldErrors "userType" "User type is required"
          "User type must be either \"creator\" or \"project_owner\""
          body.userType.truthy (decide (¬ normalizeUserType host body.userType = "")) ++
        requiredFieldErrors "socialHandle" "Social handle is required"
          "Social handle must be 3-50 characters, alphanumeric with underscores and hyphens"
          body.socialHandle.truthy (validateSocialHandle body.socialHandle) ++
        requiredFieldErrors "socialPlatform" "Social platform is required"
          "Social platform must be either \"telegram\" or \"x\""
          body.socialPlatform.truthy (decide (¬ normalizePlatform host body.socialPlatform = "")) ++
        sourceErrors body.source := by
  unfold validateBody
  dsimp only
  rw [sourceStep, requiredStep_prop, requiredStep_bool, requiredStep_prop, requiredStep_bool]
  simp only [List.nil_append, List.append_assoc]

theorem requiredFieldErrors_length (field rm fm : String) (p v : Bool) :
    (requiredFieldErrors field rm fm p v).length ≤ 1 := by
  cases p <;> cases v <;> simp [requiredFieldErrors]

theorem requiredFieldErrors_absent (field rm fm : String) (v : Bool) :
    requiredFieldErrors field rm fm false v = [⟨field, rm⟩] := by
  simp [requiredFieldErrors]

theorem post_status_400_iff (host : Host) (st : ServerState) (req : PostRequest) :
    (postDemoRequest host st req).response.status = 400 ↔ validateBody host req.body ≠ [] := by
  rcases postDemoRequest_cases host st req with
    ⟨h0, h⟩ | ⟨h0, _, _, _, _, h⟩ | ⟨h0, _, _, h⟩ | ⟨h0, h⟩
  · rw [h]; simp [Response.status, h0]
  · rw [h]; simp [Response.status, h0]
  · rw [h]; simp [Response.status, h0]
  · rw [h]; simp [Response.status, h0]

/-- C14: validation does not stop at the first bad field. The reported details
are the concatenation, in the order email, userType, socialHandle,
socialPlatform, source, of at most one error per field: for a required field its
`required` error when the value is absent and its format error only when it is
present but invalid. The response is 400, carrying this list, exactly when the
list is non-empty; a body with no fields yields the four `required` errors; and
the list is defined for every field values. -/
theorem validation_reports_every_field (host : Host) (st : ServerState) (req : PostRequest) :
    validateBody host req.body
      = requiredFieldErrors "email" "Email is required" "Invalid email format"
          req.body.email.truthy (validateEmail req.body.email) ++
        requiredFieldErrors "userType" "User type is required"
          "User type must be either \"creator\" or \"project_owner\""
          req.body.userType.truthy (decide (¬ normalizeUserType host req.body.userType = "")) ++
        requiredFieldErrors "socialHandle" "Social handle is required"
          "Social handle must be 3-50 characters, alphanumeric with underscores and hyphens"
          req.body.socialHandle.truthy (validateSocialHandle req.body.socialHandle) ++
        requiredFieldErrors "socialPlatform" "Social platform is required"
          "Social platform must be either \"telegram\" or \"x\""
          req.body.socialPlatform.truthy
          (decide (¬ normalizePlatform host req.body.socialPlatform = "")) ++
        sourceErrors req.body.source ∧
    (∀ field rm fm p v, (requiredFieldErrors field rm fm p v).length ≤ 1) ∧
    (sourceErrors req.body.source).length ≤ 1 ∧
    (∀ field rm fm v, requiredFieldErrors field rm fm false v = [⟨field, rm⟩]) ∧
    (∀ field rm fm p v e, e ∈ requiredFieldErrors field rm fm p v → e.message = fm → rm ≠ fm →
      p = true ∧ v = false) ∧
    (JsValue.undefined.truthy = false ∧ JsValue.null.truthy = false) ∧
    ((postDemoRequest host st req).response.status = 400 ↔ validateBody host req.body ≠ []) ∧
    (validateBody host req.body ≠ [] →
      (postDemoRequest host st req).response
        = Response.validationError (validateBody host req.body)) ∧
    validateBody host emptyBody
      = [⟨"email", "Email is required"⟩, ⟨"userType", "User type is required"⟩,
          ⟨"socialHandle", "Social handle is required"⟩,
          ⟨"socialPlatform", "Social platform is required"⟩] := by
  refine ⟨validateBody_eq req.body, requiredFieldErrors_length, ?_,
    requiredFieldErrors_absent, ?_, ⟨rfl, rfl⟩, post_status_400_iff host st req, ?_, rfl⟩
  · unfold sourceErrors
    cases req.body.source <;> simp
    split <;> simp
  · intro field rm fm p v e he hm hne
    cases p <;> cases v <;> simp [requiredFieldErrors] at he
    · rw [he] at hm; exact absurd hm hne
    · rw [he] at hm; exact absurd hm hne
    · exact ⟨rfl, rfl⟩
  · intro h
    rw [postDemoRequest_invalid host st req h]

/-! ## Characters -/

theorem char_le_iff (a b : Char) : a ≤ b ↔ a.toNat ≤ b.toNat := by
  rw [Char.le_def, UInt32.le_def]
  rfl

theorem char_eq_iff (a b : Char) : a = b ↔ a.toNat = b.toNat := by
  constructor
  · intro h; rw [h]
  · intro h
    apply Char.ext
    apply UInt32.ext
    exact h

theorem isHandleChar_toNat (c : Char) :
    isHandleChar c = true ↔
      (97 ≤ c.toNat ∧ c.toNat ≤ 122) ∨ (65 ≤ c.toNat ∧ c.toNat ≤ 90) ∨
      (48 ≤ c.toNat ∧ c.toNat ≤ 57) ∨ c.toNat = 95 ∨ c.toNat = 45 := by
  unfold isHandleChar
  simp only [Bool.or_eq_true, Bool.and_eq_true, decide_eq_true_eq, beq_iff_eq, char_le_iff,
    char_eq_iff c '_', char_eq_iff c '-']
  have e1 : 'a'.toNat = 97 := rfl
  have e2 : 'z'.toNat = 122 := rfl
  have e3 : 'A'.toNat = 65 := rfl
  have e4 : 'Z'.toNat = 90 := rfl
  have e5 : '0'.toNat = 48 := rfl
  have e6 : '9'.toNat = 57 := rfl
  have e7 : '_'.toNat = 95 := rfl
  have e8 : '-'.toNat = 45 := rfl
  rw [e1, e2, e3, e4, e5, e6, e7, e8]
  tauto

theorem isJsWhiteSpace_toNat (c : Char) :
    isJsWhiteSpace c = true ↔
      c.toNat = 0x09 ∨ c.toNat = 0x0A ∨ c.toNat = 0x0B ∨ c.toNat = 0x0C ∨ c.toNat = 0x0D ∨
      c.toNat = 0x20 ∨ c.toNat = 0xA0 ∨ c.toNat = 0x1680 ∨ (0x2000 ≤ c.toNat ∧ c.toNat ≤ 0x200A) ∨
      c.toNat = 0x2028 ∨ c.toNat = 0x2029 ∨ c.toNat = 0x202F ∨ c.toNat = 0x205F ∨
      c.toNat = 0x3000 ∨ c.toNat = 0xFEFF := by
  unfold isJsWhiteSpace
  simp only [Bool.or_eq_true, Bool.and_eq_true, decide_eq_true_eq, beq_iff_eq]
  tauto

theorem isHandleChar_not_ws (c : Char) (h : isHandleChar c = true) : isJsWhiteSpace c = false := by
  rw [isHandleChar_toNat] at h
  rw [← Bool.not_eq_true, isJsWhiteSpace_toNat]
  omega

theorem toLower_toNat (c : Char) :
    (Char.toLower c).toNat = if 65 ≤ c.toNat ∧ c.toNat ≤ 90 then c.toNat + 32 else c.toNat := by
  unfold Char.toLower
  simp only [ge_iff_le]
  by_cases h : 65 ≤ c.toNat ∧ c.toNat ≤ 90
  · rw [if_pos h, if_pos h]
    generalize c.toNat = n at h
    obtain ⟨h1, h2⟩ := h
    interval_cases n <;> rfl
  · rw [if_neg h, if_neg h]


theorem isHandleChar_ne_at (c : Char) (h : isHandleChar c = true) : c ≠ '@' := by
  rw [isHandleChar_toNat] at h
  intro hc
  rw [hc] at h
  have e : '@'.toNat = 64 := rfl
  rw [e] at h
  omega

theorem isHandleChar_lt (c : Char) (h : isHandleChar c = true) : c.toNat < 0x10000 := by
  rw [isHandleChar_toNat] at h
  omega

theorem jsLength_eq_length (l : List Char) (h : ∀ c ∈ l, c.toNat < 0x10000) :
    jsLength ⟨l⟩ = l.length := by
  unfold jsLength
  induction l with
  | nil => rfl
  | cons a t ih =>
    have ha := h a (List.mem_cons_self _ _)
    have := ih (fun c hc => h c (List.mem_cons_of_mem _ hc))
    simp only [List.map_cons, List.sum_cons, List.length_cons] at this ⊢
    rw [this, if_pos ha]
    omega

theorem dropWhile_eq_self {α : Type} (p : α → Bool) (l : List α)
    (h : ∀ a, l.head? = some a → p a = false) : l.dropWhile p = l := by
  cases l with
  | nil => rfl
  | cons a t =>
    have := h a rfl
    simp [List.dropWhile, this]

/-- Trimming changes nothing when neither end is whitespace. -/
theorem jsTrim_eq_self (l : List Char)
    (hh : ∀ a, l.head? = some a → isJsWhiteSpace a = false)
    (hl : ∀ a, l.getLast? = some a → isJsWhiteSpace a = false) : jsTrim ⟨l⟩ = ⟨l⟩ := by
  unfold jsTrim
  simp only
  rw [dropWhile_eq_self _ l hh, dropWhile_eq_self _ l.reverse (by rw [List.head?_reverse]; exact hl),
    List.reverse_reverse]

theorem singleton_isPrefixOf (a : Char) (l : List Char) :
    [a].isPrefixOf l = true ↔ l.head? = some a := by
  cases l with
  | nil => simp [List.isPrefixOf]
  | cons b t =>
    simp [List.isPrefixOf]
    exact eq_comm

theorem singleton_isSuffixOf (a : Char) (l : List Char) :
    [a].isSuffixOf l = true ↔ l.getLast? = some a := by
  unfold List.isSuffixOf
  rw [List.reverse_singleton, singleton_isPrefixOf, List.head?_reverse]

/-! ## Social handle -/

theorem stripAtSymbol_string (h : String) : stripAtSymbol (.string h) = ⟨cleanedHandle h⟩ := by
  unfold stripAtSymbol cleanedHandle
  by_cases he : h = ""
  · subst he
    decide
  · simp [he]

theorem validateSocialHandle_string_iff (h : String) :
    validateSocialHandle (.string h) = true ↔ IsValidCleanedHandle (cleanedHandle h) := by
  unfold IsValidCleanedHandle
  by_cases he : h = ""
  · subst he
    have h0 : cleanedHandle "" = [] := by decide
    rw [h0]
    simp [validateSocialHandle]
  · unfold validateSocialHandle
    simp only [he, if_false, stripAtSymbol_string]
    by_cases hall : ∀ x ∈ cleanedHandle h, isHandleChar x = true
    · have hlen : jsLength ⟨cleanedHandle h⟩ = (cleanedHandle h).length :=
        jsLength_eq_length _ (fun c hc => isHandleChar_lt c (hall c hc))
      have hreg : handleRegexTest ⟨cleanedHandle h⟩
          = !(cleanedHandle h).isEmpty := by
        unfold handleRegexTest
        simp only [List.all_eq_true.mpr hall, Bool.and_true]
      simp only [hlen, hreg, jsStartsWith, jsEndsWith]
      have p1 := singleton_isPrefixOf '-' (cleanedHandle h)
      have p2 := singleton_isPrefixOf '_' (cleanedHandle h)
      have p3 := singleton_isSuffixOf '-' (cleanedHandle h)
      have p4 := singleton_isSuffixOf '_' (cleanedHandle h)
      rw [ne_eq, ne_eq, ne_eq, ne_eq, ← p1, ← p2, ← p3, ← p4]
      have hemp : (cleanedHandle h).isEmpty = true ↔ (cleanedHandle h).length = 0 := by
        rw [List.isEmpty_iff, List.length_eq_zero]
      by_cases hb : (cleanedHandle h).isEmpty = true
      · have h0 := hemp.mp hb
        simp [h0]
      · have hpos : ¬ (cleanedHandle h).length = 0 := fun h0 => hb (hemp.mpr h0)
        by_cases q1 : ['-'].isPrefixOf (cleanedHandle h) = true <;>
        by_cases q2 : ['_'].isPrefixOf (cleanedHandle h) = true <;>
        by_cases q3 : ['-'].isSuffixOf (cleanedHandle h) = true <;>
        by_cases q4 : ['_'].isSuffixOf (cleanedHandle h) = true <;>
        (try simp [hall, hb, q1, q2, q3, q4])
        all_goals (intro _ _; exact hall)
    · have hreg : handleRegexTest ⟨cleanedHandle h⟩ = false := by
        unfold handleRegexTest
        rw [Bool.and_eq_false_iff]
        right
        rw [← Bool.not_eq_true, List.all_eq_true]
        exact hall
      simp only [hreg]
      constructor
      · intro hv
        split at hv <;> simp at hv
      · intro hv
        exact absurd hv.2.2.1 hall

/-- C15: for every string `h`, `validateSocialHandle(h)` is true exactly when the
handle obtained by stripping leading `@` characters and then surrounding
whitespace (which is what `stripAtSymbol` returns) has between 3 and 50
characters, consists only of characters in `[A-Za-z0-9_-]`, and neither starts
nor ends with `-` or `_`; `@ab` and `-abc` are rejected. -/
theorem validateSocialHandle_accepts_iff (h : String) :
    (validateSocialHandle (.string h) = true ↔
      3 ≤ (cleanedHandle h).length ∧ (cleanedHandle h).length ≤ 50 ∧
      (∀ x ∈ cleanedHandle h, isHandleChar x = true) ∧
      (cleanedHandle h).head? ≠ some '-' ∧ (cleanedHandle h).head? ≠ some '_' ∧
      (cleanedHandle h).getLast? ≠ some '-' ∧ (cleanedHandle h).getLast? ≠ some '_') ∧
    stripAtSymbol (.string h) = ⟨cleanedHandle h⟩ ∧
    validateSocialHandle (.string "@ab") = false ∧
    validateSocialHandle (.string "-abc") = false :=
  ⟨validateSocialHandle_string_iff h, stripAtSymbol_string h, by decide, by decide⟩

theorem cleanedHandle_of_valid (c : List Char) (hc : IsValidCleanedHandle c) :
    cleanedHandle ⟨c⟩ = c := by
  obtain ⟨h3, _, hall, _⟩ := hc
  unfold cleanedHandle
  have hhead : ∀ a, c.head? = some a → isHandleChar a = true := by
    intro a ha
    exact hall a (List.mem_of_mem_head? ha)
  have hlast : ∀ a, c.getLast? = some a → isHandleChar a = true := by
    intro a ha
    exact hall a (List.mem_of_getLast?_eq_some ha)
  have hd : c.dropWhile (fun x => x == '@') = c := by
    apply dropWhile_eq_self
    intro a ha
    have := isHandleChar_ne_at a (hhead a ha)
    simpa using this
  simp only [hd]
  rw [jsTrim_eq_self c (fun a ha => isHandleChar_not_ws a (hhead a ha))
    (fun a ha => isHandleChar_not_ws a (hlast a ha))]

/-- C16: for every handle accepted by `validateSocialHandle`, normalization is
idempotent, `stripAtSymbol(stripAtSymbol(h)) = stripAtSymbol(h)`, and the
normalized handle is itself accepted. -/
theorem stripAtSymbol_idempotent_on_valid (handle : JsValue)
    (hv : validateSocialHandle handle = true) :
    stripAtSymbol (.string (stripAtSymbol handle)) = stripAtSymbol handle ∧
    validateSocialHandle (.string (stripAtSymbol handle)) = true := by
  cases handle with
  | string h =>
    have hc := (validateSocialHandle_string_iff h).mp hv
    have hcc := cleanedHandle_of_valid _ hc
    rw [stripAtSymbol_string h, stripAtSymbol_string, validateSocialHandle_string_iff, hcc]
    exact ⟨rfl, hc⟩
  | undefined => simp [validateSocialHandle] at hv
  | null => simp [validateSocialHandle] at hv
  | bool b => simp [validateSocialHandle] at hv
  | number n => simp [validateSocialHandle] at hv
  | object j => simp [validateSocialHandle] at hv

/-- C16, at the handle `@demo_x`. -/
theorem stripAtSymbol_idempotent_on_valid_witness :
    stripAtSymbol (.string (stripAtSymbol (.string "@demo_x"))) = "demo_x" ∧
    validateSocialHandle (.string (stripAtSymbol (.string "@demo_x"))) = true :=
  ⟨(stripAtSymbol_idempotent_on_valid (.string "@demo_x") (by decide)).1.trans (by decide),
    (stripAtSymbol_idempotent_on_valid (.string "@demo_x") (by decide)).2⟩

/-! ## Lowercasing and trimming -/

theorem toLower_idem (c : Char) : Char.toLower (Char.toLower c) = Char.toLower c := by
  rw [char_eq_iff, toLower_toNat (Char.toLower c), toLower_toNat c]
  split_ifs <;> omega

theorem isJsWhiteSpace_toLower (c : Char) :
    isJsWhiteSpace (Char.toLower c) = isJsWhiteSpace c := by
  rw [Bool.eq_iff_iff, isJsWhiteSpace_toNat, isJsWhiteSpace_toNat, toLower_toNat]
  split_ifs <;> omega

theorem toLower_eq_at_iff (c : Char) : Char.toLower c = '@' ↔ c = '@' := by
  rw [char_eq_iff, char_eq_iff c, toLower_toNat]
  have e : '@'.toNat = 64 := rfl
  rw [e]
  split_ifs <;> omega

theorem dropWhile_map_toLower (l : List Char) :
    (l.map Char.toLower).dropWhile isJsWhiteSpace
      = (l.dropWhile isJsWhiteSpace).map Char.toLower := by
  induction l with
  | nil => rfl
  | cons a t ih =>
    simp only [List.map_cons, List.dropWhile_cons, isJsWhiteSpace_toLower]
    split
    · exact ih
    · rfl

/-- Lowercasing of ASCII and trimming commute. -/
theorem jsTrim_asciiToLowerCase (s : String) :
    jsTrim (asciiToLowerCase s) = asciiToLowerCase (jsTrim s) := by
  unfold jsTrim asciiToLowerCase
  simp only
  rw [dropWhile_map_toLower, ← List.map_reverse, dropWhile_map_toLower, List.map_reverse]

theorem asciiToLowerCase_idem (s : String) :
    asciiToLowerCase (asciiToLowerCase s) = asciiToLowerCase s := by
  unfold asciiToLowerCase
  simp only [List.map_map]
  congr 1
  apply List.map_congr_left
  intro c _
  exact toLower_idem c

theorem count_at_map_toLower (l : List Char) :
    (l.map Char.toLower).count '@' = l.count '@' := by
  induction l with
  | nil => rfl
  | cons a t ih =>
    rw [List.map_cons, List.count_cons, List.count_cons, ih]
    have := toLower_eq_at_iff a
    by_cases ha : a = '@'
    · simp [ha, this.mpr ha]
    · have hn : ¬ Char.toLower a = '@' := fun h => ha (this.mp h)
      simp [ha, hn]

/-- The host of the examples lowercases ASCII as every host does. -/
theorem sampleHost_lowerCaseOnAscii : LowerCaseOnAscii sampleHost :=
  fun _ _ => rfl

theorem sampleHost_commutesWithTrim : LowerCaseCommutesWithTrim sampleHost :=
  jsTrim_asciiToLowerCase

theorem sampleHost_idempotent : LowerCaseIdempotent sampleHost :=
  asciiToLowerCase_idem

theorem sampleHost_keepsAtAndSpace : LowerCaseKeepsAtAndSpace sampleHost := by
  intro s
  refine ⟨count_at_map_toLower s.data, ?_⟩
  intro hws c hc
  obtain ⟨c0, hc0, rfl⟩ := List.mem_map.mp hc
  rw [isJsWhiteSpace_toLower]
  exact hws c0 hc0

theorem jsTrim_jsToLowerCase {host : Host} (htrim : LowerCaseCommutesWithTrim host)
    (s : String) : jsTrim (jsToLowerCase host s) = jsToLowerCase host (jsTrim s) :=
  htrim s

theorem jsToLowerCase_idem {host : Host} (hidem : LowerCaseIdempotent host) (s : String) :
    jsToLowerCase host (jsToLowerCase host s) = jsToLowerCase host s :=
  hidem s

/-- On a string of ASCII characters every host normalizes as the host of the
examples does. -/
theorem normalizeEmail_of_ascii {host : Host} (hascii : LowerCaseOnAscii host) (s : String)
    (hs : ∀ c ∈ s.data, c.toNat < 128) : normalizeEmail host s = normalizeEmail sampleHost s := by
  unfold normalizeEmail jsToLowerCase
  rw [hascii s hs]
  rfl

theorem normalizeUserType_of_ascii {host : Host} (hascii : LowerCaseOnAscii host) (s : String)
    (hs : ∀ c ∈ s.data, c.toNat < 128) :
    normalizeUserType host (.string s) = normalizeUserType sampleHost (.string s) := by
  unfold normalizeUserType jsToLowerCase
  simp only [hascii s hs]
  rfl

theorem normalizePlatform_of_ascii {host : Host} (hascii : LowerCaseOnAscii host) (s : String)
    (hs : ∀ c ∈ s.data, c.toNat < 128) :
    normalizePlatform host (.string s) = normalizePlatform sampleHost (.string s) := by
  unfold normalizePlatform jsToLowerCase
  simp only [hascii s hs]
  rfl

/-! ## Enumerated fields -/

theorem normalizeUserType_eq {host : Host} (hascii : LowerCaseOnAscii host)
    (htrim : LowerCaseCommutesWithTrim host) (v : JsValue) :
    normalizeUserType host v =
      match v with
      | .string s =>
        if jsToLowerCase host (jsTrim s) = "creator" ∨ jsToLowerCase host (jsTrim s) = "project_owner"
        then jsToLowerCase host (jsTrim s) else ""
      | _ => "" := by
  cases v with
  | string s =>
    unfold normalizeUserType
    simp only [jsTrim_jsToLowerCase htrim]
    by_cases hs : s = ""
    · subst hs
      have h0 : jsToLowerCase host (jsTrim "") = "" := hascii "" (by decide)
      rw [h0]
      decide
    · simp only [hs, if_false, Bool.or_eq_true, decide_eq_true_eq]
  | undefined => rfl
  | null => rfl
  | bool b => rfl
  | number n => rfl
  | object j => rfl

theorem normalizePlatform_eq {host : Host} (hascii : LowerCaseOnAscii host)
    (htrim : LowerCaseCommutesWithTrim host) (v : JsValue) :
    normalizePlatform host v =
      match v with
      | .string s =>
        if jsToLowerCase host (jsTrim s) = "telegram" ∨ jsToLowerCase host (jsTrim s) = "x"
        then jsToLowerCase host (jsTrim s) else ""
      | _ => "" := by
  cases v with
  | string s =>
    unfold normalizePlatform
    simp only [jsTrim_jsToLowerCase htrim]
    by_cases hs : s = ""
    · subst hs
      have h0 : jsToLowerCase host (jsTrim "") = "" := hascii "" (by decide)
      rw [h0]
      decide
    · simp only [hs, if_false, Bool.or_eq_true, decide_eq_true_eq]
  | undefined => rfl
  | null => rfl
  | bool b => rfl
  | number n => rfl
  | object j => rfl

theorem userType_error_of_empty {host : Host} (body : DemoRequestBody)
    (h : normalizeUserType host body.userType = "") :
    ∃ e ∈ validateBody host body, e.field = "userType" := by
  rw [validateBody_eq]
  cases hp : body.userType.truthy
  · exact ⟨⟨"userType", "User type is required"⟩, by simp [requiredFieldErrors], rfl⟩
  · exact ⟨⟨"userType", "User type must be either \"creator\" or \"project_owner\""⟩,
      by simp [requiredFieldErrors, h], rfl⟩

theorem platform_error_of_empty {host : Host} (body : DemoRequestBody)
    (h : normalizePlatform host body.socialPlatform = "") :
    ∃ e ∈ validateBody host body, e.field = "socialPlatform" := by
  rw [validateBody_eq]
  cases hp : body.socialPlatform.truthy
  · exact ⟨⟨"socialPlatform", "Social platform is required"⟩, by simp [requiredFieldErrors], rfl⟩
  · exact ⟨⟨"socialPlatform", "Social platform must be either \"telegram\" or \"x\""⟩,
      by simp [requiredFieldErrors, h], rfl⟩

/-- C17: `normalizeUserType` returns `creator` or `project_owner` exactly when
the input is a string whose trimmed, lowercased value is that word, and
`normalizePlatform` returns `telegram` or `x` likewise; for every other input,
non-strings included, each returns the empty string, for which the coordinator
reports a validation error on the field; `CREATOR` normalizes to `creator` and
`Telegram` to `telegram`. -/
theorem enum_normalizers_case_insensitive (host : Host) (hascii : LowerCaseOnAscii host)
    (htrim : LowerCaseCommutesWithTrim host) (v : JsValue) :
    (∀ w, w = "creator" ∨ w = "project_owner" →
      (normalizeUserType host v = w ↔ ∃ s, v = .string s ∧ jsToLowerCase host (jsTrim s) = w)) ∧
    ((¬ ∃ s, v = .string s ∧
        (jsToLowerCase host (jsTrim s) = "creator" ∨ jsToLowerCase host (jsTrim s) = "project_owner")) →
      normalizeUserType host v = "") ∧
    (∀ w, w = "telegram" ∨ w = "x" →
      (normalizePlatform host v = w ↔ ∃ s, v = .string s ∧ jsToLowerCase host (jsTrim s) = w)) ∧
    ((¬ ∃ s, v = .string s ∧
        (jsToLowerCase host (jsTrim s) = "telegram" ∨ jsToLowerCase host (jsTrim s) = "x")) →
      normalizePlatform host v = "") ∧
    (∀ s, jsToLowerCase host (jsTrim s) = jsTrim (jsToLowerCase host s)) ∧
    (∀ body : DemoRequestBody, normalizeUserType host body.userType = "" →
      ∃ e ∈ validateBody host body, e.field = "userType") ∧
    (∀ body : DemoRequestBody, normalizePlatform host body.socialPlatform = "" →
      ∃ e ∈ validateBody host body, e.field = "socialPlatform") ∧
    normalizeUserType host (.string "CREATOR") = "creator" ∧
    normalizePlatform host (.string "Telegram") = "telegram" := by
  refine ⟨?_, ?_, ?_, ?_, fun s => (jsTrim_jsToLowerCase htrim s).symm, userType_error_of_empty,
    platform_error_of_empty,
    (normalizeUserType_of_ascii hascii "CREATOR" (by decide)).trans (by decide),
    (normalizePlatform_of_ascii hascii "Telegram" (by decide)).trans (by decide)⟩
  · intro w hw
    rw [normalizeUserType_eq hascii htrim]
    have hne : w ≠ "" := by rcases hw with h | h <;> (rw [h]; decide)
    cases v with
    | string s =>
      simp only [JsValue.string.injEq, exists_eq_left']
      constructor
      · intro h
        split at h
        · exact h
        · exact absurd h.symm hne
      · intro h
        rw [h, if_pos hw]
    | undefined => simp [hne.symm]
    | null => simp [hne.symm]
    | bool b => simp [hne.symm]
    | number n => simp [hne.symm]
    | object j => simp [hne.symm]
  · intro h
    rw [normalizeUserType_eq hascii htrim]
    cases v with
    | string s =>
      simp only [JsValue.string.injEq, exists_eq_left'] at h
      simp only [h, if_false]
    | undefined => rfl
    | null => rfl
    | bool b => rfl
    | number n => rfl
    | object j => rfl
  · intro w hw
    rw [normalizePlatform_eq hascii htrim]
    have hne : w ≠ "" := by rcases hw with h | h <;> (rw [h]; decide)
    cases v with
    | string s =>
      simp only [JsValue.string.injEq, exists_eq_left']
      constructor
      · intro h
        split at h
        · exact h
        · exact absurd h.symm hne
      · intro h
        rw [h, if_pos hw]
    | undefined => simp [hne.symm]
    | null => simp [hne.symm]
    | bool b => simp [hne.symm]
    | number n => simp [hne.symm]
    | object j => simp [hne.symm]
  · intro h
    rw [normalizePlatform_eq hascii htrim]
    cases v with
    | string s =>
      simp only [JsValue.string.injEq, exists_eq_left'] at h
      simp only [h, if_false]
    | undefined => rfl
    | null => rfl
    | bool b => rfl
    | number n => rfl
    | object j => rfl

/-- C17, at the host of the examples and padded, mixed-case words. -/
theorem enum_normalizers_case_insensitive_witness :
    (normalizeUserType sampleHost (.string " Project_Owner ") = "project_owner" ↔
      ∃ s, JsValue.string " Project_Owner " = .string s ∧
        jsToLowerCase sampleHost (jsTrim s) = "project_owner") ∧
    normalizeUserType sampleHost (.string "CREATOR") = "creator" ∧
    normalizePlatform sampleHost (.string "Telegram") = "telegram" :=
  ⟨(enum_normalizers_case_insensitive sampleHost sampleHost_lowerCaseOnAscii
      sampleHost_commutesWithTrim (.string " Project_Owner ")).1 "project_owner" (Or.inr rfl),
    (enum_normalizers_case_insensitive sampleHost sampleHost_lowerCaseOnAscii
      sampleHost_commutesWithTrim JsValue.null).2.2.2.2.2.2.2.1,
    (enum_normalizers_case_insensitive sampleHost sampleHost_lowerCaseOnAscii
      sampleHost_commutesWithTrim JsValue.null).2.2.2.2.2.2.2.2⟩

/-! ## Email -/

/-- What a match of the email pattern implies: a split at the single `@`. -/
theorem emailRegexTest_split (e : String) (h : emailRegexTest e = true) :
    ∃ localPart domain, e.data = localPart ++ '@' :: domain ∧ localPart ≠ [] ∧
      (∀ c ∈ localPart, isJsWhiteSpace c = false ∧ c ≠ '@') ∧
      (∀ c ∈ domain, isJsWhiteSpace c = false ∧ c ≠ '@') := by
  unfold emailRegexTest at h
  have hsplit := List.takeWhile_append_dropWhile (fun c => c != '@') e.data
  have hhead := List.head?_dropWhile_not (fun c => c != '@') e.data
  cases hd : e.data.dropWhile (fun c => c != '@') with
  | nil => simp [hd] at h
  | cons x domain =>
    rw [hd] at h hsplit hhead
    simp only [List.head?_cons] at hhead
    have hx : x = '@' := by simpa using hhead
    subst hx
    simp only [Bool.and_eq_true, Bool.not_eq_true', List.all_eq_true, bne_iff_ne, ne_eq] at h
    obtain ⟨⟨⟨h1, h2⟩, h3⟩, _⟩ := h
    refine ⟨e.data.takeWhile (fun c => c != '@'), domain, hsplit.symm, ?_, ?_, ?_⟩
    · intro hnil
      rw [hnil] at h1
      simp at h1
    · intro c hc
      refine ⟨h2 c hc, ?_⟩
      have := List.mem_takeWhile_imp hc
      simpa using this
    · intro c hc
      exact h3 c hc

theorem emailRegexTest_no_whitespace (e : String) (h : emailRegexTest e = true) :
    ∀ c ∈ e.data, isJsWhiteSpace c = false := by
  obtain ⟨lp, dom, hsplit, _, hl, hdm⟩ := emailRegexTest_split e h
  intro c hc
  rw [hsplit, List.mem_append, List.mem_cons] at hc
  rcases hc with hc | hc | hc
  · exact (hl c hc).1
  · rw [hc]; decide
  · exact (hdm c hc).1

theorem emailRegexTest_one_at (e : String) (h : emailRegexTest e = true) :
    e.data.count '@' = 1 := by
  obtain ⟨lp, dom, hsplit, _, hl, hdm⟩ := emailRegexTest_split e h
  rw [hsplit, List.count_append, List.count_cons_self]
  have h1 : lp.count '@' = 0 := List.count_eq_zero.mpr (fun hm => (hl _ hm).2 rfl)
  have h2 : dom.count '@' = 0 := List.count_eq_zero.mpr (fun hm => (hdm _ hm).2 rfl)
  omega

theorem validateEmail_string_iff (e : String) :
    validateEmail (.string e) = true ↔ emailRegexTest e = true ∧ jsLength e ≤ 255 := by
  unfold validateEmail
  by_cases he : e = ""
  · subst he
    have : emailRegexTest "" = false := by decide
    simp [this]
  · simp only [he, if_false]
    cases hr : emailRegexTest e
    · simp
    · by_cases hl : jsLength e > 255
      · simp [hl]
      · simp [hl]
        omega

theorem validateEmail_is_string (v : JsValue) (h : validateEmail v = true) :
    ∃ e, v = .string e := by
  cases v with
  | string e => exact ⟨e, rfl⟩
  | undefined => simp [validateEmail] at h
  | null => simp [validateEmail] at h
  | bool b => simp [validateEmail] at h
  | number n => simp [validateEmail] at h
  | object j => simp [validateEmail] at h

theorem jsTrim_of_no_whitespace (l : List Char) (h : ∀ c ∈ l, isJsWhiteSpace c = false) :
    jsTrim ⟨l⟩ = ⟨l⟩ :=
  jsTrim_eq_self l (fun a ha => h a (List.mem_of_mem_head? ha))
    (fun a ha => h a (List.mem_of_getLast?_eq_some ha))

/-- For an email that passes validation, trimming changes nothing. -/
theorem normalizeEmail_of_valid {host : Host} (htrim : LowerCaseCommutesWithTrim host)
    (e : String) (h : validateEmail (.string e) = true) :
    jsTrim e = e ∧ normalizeEmail host e = jsToLowerCase host e := by
  have hr := ((validateEmail_string_iff e).mp h).1
  have hws := emailRegexTest_no_whitespace e hr
  have hne : e ≠ "" := by
    intro he
    subst he
    exact absurd hr (by decide)
  have ht : jsTrim e = e := jsTrim_of_no_whitespace e.data hws
  refine ⟨ht, ?_⟩
  unfold normalizeEmail
  rw [if_pos hne, jsTrim_jsToLowerCase htrim, ht]

/-- C18, amended: the email rules are applied to the raw value. Validation
accepts a string exactly when the string itself matches the pattern (a non-empty
local part, a single `@`, a domain with an inner `.`, no whitespace anywhere) and
has at most 255 code units; an email with surrounding whitespace is therefore
rejected, and for an accepted email the stored value is the raw value
lowercased, trimming having nothing to remove (lowercasing leaves white space
where it is). -/
theorem email_rules_apply_to_raw_value (host : Host)
    (htrim : LowerCaseCommutesWithTrim host) (e : String) :
    (validateEmail (.string e) = true ↔ emailRegexTest e = true ∧ jsLength e ≤ 255) ∧
    (emailRegexTest e = true →
      (∀ c ∈ e.data, isJsWhiteSpace c = false) ∧ e.data.count '@' = 1) ∧
    (jsTrim e ≠ e → validateEmail (.string e) = false) ∧
    (validateEmail (.string e) = true → normalizeEmail host e = jsToLowerCase host e) := by
  refine ⟨validateEmail_string_iff e,
    fun h => ⟨emailRegexTest_no_whitespace e h, emailRegexTest_one_at e h⟩, ?_,
    fun h => (normalizeEmail_of_valid htrim e h).2⟩
  intro hne
  cases hv : validateEmail (.string e)
  · rfl
  · exact absurd (normalizeEmail_of_valid htrim e hv).1 hne

/-- C18 amended, at the email `Demo@X.io`. -/
theorem email_rules_apply_to_raw_value_witness :
    normalizeEmail sampleHost "Demo@X.io" = "demo@x.io" :=
  ((email_rules_apply_to_raw_value sampleHost sampleHost_commutesWithTrim
    "Demo@X.io").2.2.2 (by decide)).trans (by decide)

set_option maxRecDepth 1000000 in
/-- C18 as stated fails: the email ` demo@x.io ` with surrounding whitespace
matches the pattern once trimmed and is well under 255 characters, yet
validation rejects it and the POST answers 400 `Invalid email format`. -/
theorem padded_email_is_rejected :
    emailRegexTest (jsTrim " demo@x.io ") = true ∧
    jsLength (jsTrim " demo@x.io ") ≤ 255 ∧
    validateEmail (.string " demo@x.io ") = false ∧
    (postDemoRequest sampleHost emptyState paddedEmailPost).response
      = Response.validationError [⟨"email", "Invalid email format"⟩] := by
  decide

/-! ## Persisted records and the data model -/

theorem requiredFieldErrors_eq_nil (field rm fm : String) (p v : Bool)
    (h : requiredFieldErrors field rm fm p v = []) : p = true ∧ v = true := by
  cases p <;> cases v <;> simp [requiredFieldErrors] at h ⊢

/-- A body with no validation error passed each field's check. -/
theorem validateBody_eq_nil {host : Host} (body : DemoRequestBody) (h : validateBody host body = []) :
    validateEmail body.email = true ∧ normalizeUserType host body.userType ≠ "" ∧
    validateSocialHandle body.socialHandle = true ∧
    normalizePlatform host body.socialPlatform ≠ "" ∧ sourceErrors body.source = [] := by
  rw [validateBody_eq] at h
  simp only [List.append_eq_nil] at h
  obtain ⟨⟨⟨⟨h1, h2⟩, h3⟩, h4⟩, h5⟩ := h
  have a1 := requiredFieldErrors_eq_nil _ _ _ _ _ h1
  have a2 := requiredFieldErrors_eq_nil _ _ _ _ _ h2
  have a3 := requiredFieldErrors_eq_nil _ _ _ _ _ h3
  have a4 := requiredFieldErrors_eq_nil _ _ _ _ _ h4
  refine ⟨a1.2, ?_, a3.2, ?_, h5⟩
  · simpa using a2.2
  · simpa using a4.2

theorem post_created_iff (host : Host) (st : ServerState) (req : PostRequest)
    (h : (postDemoRequest host st req).response.status = 201) :
    validateBody host req.body = [] ∧
    (postDemoRequest host st req).state.persistence
      = writeDemoRequest host st.persistence req.appendFault req.writeFault
          (buildRequestData host req) := by
  rcases postDemoRequest_cases host st req with
    ⟨_, h2⟩ | ⟨_, _, _, _, _, h2⟩ | ⟨_, _, _, h2⟩ | ⟨h0, h2⟩
  · rw [h2] at h; simp [Response.status] at h
  · rw [h2] at h; simp [Response.status] at h
  · rw [h2] at h; simp [Response.status] at h
  · rw [h2]; exact ⟨h0, rfl⟩

theorem normalizeUserType_ne_empty {host : Host} (v : JsValue) (h : normalizeUserType host v ≠ "") :
    normalizeUserType host v = "creator" ∨ normalizeUserType host v = "project_owner" := by
  cases v with
  | string s =>
    unfold normalizeUserType at h ⊢
    simp only at h ⊢
    split at h
    · exact absurd rfl h
    · rename_i hs
      rw [if_neg hs]
      split at h
      · rename_i hc
        rw [if_pos hc]
        simpa using hc
      · exact absurd rfl h
  | undefined => exact absurd rfl h
  | null => exact absurd rfl h
  | bool b => exact absurd rfl h
  | number n => exact absurd rfl h
  | object j => exact absurd rfl h

theorem normalizePlatform_ne_empty {host : Host} (v : JsValue) (h : normalizePlatform host v ≠ "") :
    normalizePlatform host v = "telegram" ∨ normalizePlatform host v = "x" := by
  cases v with
  | string s =>
    unfold normalizePlatform at h ⊢
    simp only at h ⊢
    split at h
    · exact absurd rfl h
    · rename_i hs
      rw [if_neg hs]
      split at h
      · rename_i hc
        rw [if_pos hc]
        simpa using hc
      · exact absurd rfl h
  | undefined => exact absurd rfl h
  | null => exact absurd rfl h
  | bool b => exact absurd rfl h
  | number n => exact absurd rfl h
  | object j => exact absurd rfl h

theorem validateSocialHandle_is_string (v : JsValue) (h : validateSocialHandle v = true) :
    ∃ s, v = .string s := by
  cases v with
  | string s => exact ⟨s, rfl⟩
  | undefined => simp [validateSocialHandle] at h
  | null => simp [validateSocialHandle] at h
  | bool b => simp [validateSocialHandle] at h
  | number n => simp [validateSocialHandle] at h
  | object j => simp [validateSocialHandle] at h

/-- C19: every record the coordinator persists satisfies the data model. Its
email is lowercased (it is its own `toLowerCase`), has no surrounding whitespace,
contains exactly one `@` and no whitespace; its userType is `creator` or
`project_owner`; its socialHandle has no leading `@`, has 3 to 50 characters all
in `[A-Za-z0-9_-]` and does not start or end with `-` or `_`; its socialPlatform
is `telegram` or `x`. The host is one whose `toLowerCase` is idempotent, leaves
white space where it is and neither adds nor removes an `@`. -/
theorem persisted_record_satisfies_data_model (host : Host)
    (htrim : LowerCaseCommutesWithTrim host) (hidem : LowerCaseIdempotent host)
    (hkeeps : LowerCaseKeepsAtAndSpace host) (st : ServerState)
    (req : PostRequest) (h : (postDemoRequest host st req).response.status = 201) :
    (postDemoRequest host st req).state.persistence.inMemoryDemoRequests
      = st.persistence.inMemoryDemoRequests ++ [buildRequestData host req] ∧
    jsToLowerCase host (buildRequestData host req).email = (buildRequestData host req).email ∧
    jsTrim (buildRequestData host req).email = (buildRequestData host req).email ∧
    (buildRequestData host req).email.data.count '@' = 1 ∧
    (∀ c ∈ (buildRequestData host req).email.data, isJsWhiteSpace c = false) ∧
    ((buildRequestData host req).userType = "creator" ∨
      (buildRequestData host req).userType = "project_owner") ∧
    (buildRequestData host req).socialHandle.data.head? ≠ some '@' ∧
    3 ≤ (buildRequestData host req).socialHandle.data.length ∧
    (buildRequestData host req).socialHandle.data.length ≤ 50 ∧
    (∀ c ∈ (buildRequestData host req).socialHandle.data, isHandleChar c = true) ∧
    (buildRequestData host req).socialHandle.data.head? ≠ some '-' ∧
    (buildRequestData host req).socialHandle.data.head? ≠ some '_' ∧
    (buildRequestData host req).socialHandle.data.getLast? ≠ some '-' ∧
    (buildRequestData host req).socialHandle.data.getLast? ≠ some '_' ∧
    ((buildRequestData host req).socialPlatform = "telegram" ∨
      (buildRequestData host req).socialPlatform = "x") := by
  obtain ⟨hvalid, hstate⟩ := post_created_iff host st req h
  obtain ⟨hemail, huser, hhandle, hplat, _⟩ := validateBody_eq_nil req.body hvalid
  obtain ⟨e, he⟩ := validateEmail_is_string _ hemail
  obtain ⟨hd, hd2⟩ := validateSocialHandle_is_string _ hhandle
  rw [he] at hemail
  rw [hd2] at hhandle
  have hnorm := (normalizeEmail_of_valid htrim e hemail).2
  have hreg := ((validateEmail_string_iff e).mp hemail).1
  have hws := emailRegexTest_no_whitespace e hreg
  have hws2 : ∀ c ∈ (jsToLowerCase host e).data, isJsWhiteSpace c = false :=
    (hkeeps e).2 hws
  have hclean := (validateSocialHandle_string_iff hd).mp hhandle
  have hmail : (buildRequestData host req).email = jsToLowerCase host e := by
    simp only [buildRequestData, he, JsValue.asString, hnorm]
  have hsh : (buildRequestData host req).socialHandle = ⟨cleanedHandle hd⟩ := by
    simp only [buildRequestData, hd2, stripAtSymbol_string]
  refine ⟨?_, ?_, ?_, ?_, ?_, ?_, ?_, ?_, ?_, ?_, ?_, ?_, ?_, ?_, ?_⟩
  · rw [hstate]
    exact writeDemoRequest_inMemory host st.persistence req.appendFault req.writeFault _
  · rw [hmail, jsToLowerCase_idem hidem]
  · rw [hmail]
    exact jsTrim_of_no_whitespace _ hws2
  · rw [hmail]
    show (host.toLowerCase e).data.count '@' = 1
    rw [(hkeeps e).1]
    exact emailRegexTest_one_at e hreg
  · rw [hmail]
    exact hws2
  · exact normalizeUserType_ne_empty _ huser
  · rw [hsh]
    intro hh
    exact isHandleChar_ne_at '@' (hclean.2.2.1 '@' (List.mem_of_mem_head? hh)) rfl
  · rw [hsh]; exact hclean.1
  · rw [hsh]; exact hclean.2.1
  · rw [hsh]; exact hclean.2.2.1
  · rw [hsh]; exact hclean.2.2.2.1
  · rw [hsh]; exact hclean.2.2.2.2.1
  · rw [hsh]; exact hclean.2.2.2.2.2.1
  · rw [hsh]; exact hclean.2.2.2.2.2.2
  · exact normalizePlatform_ne_empty _ hplat

set_option maxRecDepth 1000000 in
/-- C19, at `samplePost` on a fresh state. -/
theorem persisted_record_satisfies_data_model_witness :
    (postDemoRequest sampleHost emptyState samplePost).state.persistence.inMemoryDemoRequests
      = [buildRequestData sampleHost samplePost] ∧
    (buildRequestData sampleHost samplePost).email = "demo@x.io" ∧
    (buildRequestData sampleHost samplePost).socialHandle = "demo_x" ∧
    (buildRequestData sampleHost samplePost).socialPlatform = "telegram" :=
  ⟨(persisted_record_satisfies_data_model sampleHost sampleHost_commutesWithTrim
      sampleHost_idempotent sampleHost_keepsAtAndSpace emptyState samplePost (by decide)).1,
    by decide, by decide, by decide⟩

/-- C20, amended: for every accepted submission the stored source is `null`
when the submitted source is falsy and otherwise the submitted value itself,
which, when it is a string, has at most 100 code units (a truthy value that is
not a string is stored unchecked); a submission whose source is a string of more
than 100 code units is rejected with a validation error on field `source`. -/
theorem stored_source_is_checked_only_if_string (host : Host) (st : ServerState)
    (req : PostRequest) :
    ((postDemoRequest host st req).response.status = 201 →
      (buildRequestData host req).source
        = (if req.body.source.truthy then req.body.source else JsValue.null) ∧
      (∀ s, (buildRequestData host req).source = JsValue.string s →
        s ≠ "" ∧ jsLength s ≤ 100)) ∧
    (∀ s, req.body.source = JsValue.string s → jsLength s > 100 →
      (postDemoRequest host st req).response.status = 400 ∧
      (⟨"source", "Source must be maximum 100 characters"⟩ : FieldError)
        ∈ validateBody host req.body) := by
  constructor
  · intro h201
    refine ⟨rfl, ?_⟩
    intro s hs
    obtain ⟨hvalid, _⟩ := post_created_iff host st req h201
    have hsrc := (validateBody_eq_nil req.body hvalid).2.2.2.2
    simp only [buildRequestData] at hs
    cases hb : req.body.source with
    | string t =>
      rw [hb] at hs hsrc
      by_cases ht : t = ""
      · subst ht
        simp [JsValue.truthy] at hs
      · simp only [JsValue.truthy, ne_eq, ht, not_false_eq_true, decide_True, if_true,
          JsValue.string.injEq] at hs
        subst hs
        refine ⟨ht, ?_⟩
        simp only [sourceErrors, ne_eq, ht, not_false_eq_true, true_and] at hsrc
        by_contra hgt
        rw [if_pos (by omega)] at hsrc
        simp at hsrc
    | undefined => rw [hb] at hs; simp [JsValue.truthy] at hs
    | null => rw [hb] at hs; simp [JsValue.truthy] at hs
    | bool b => rw [hb] at hs; cases b <;> simp [JsValue.truthy] at hs
    | number n =>
      rw [hb] at hs
      by_cases hn : n = 0 <;> simp [JsValue.truthy, hn] at hs
    | object j => rw [hb] at hs; simp [JsValue.truthy] at hs
  · intro s hs hlen
    have hmem : (⟨"source", "Source must be maximum 100 characters"⟩ : FieldError)
        ∈ validateBody host req.body := by
      have hne : s ≠ "" := by
        intro h0
        subst h0
        have : jsLength "" = 0 := by decide
        omega
      rw [validateBody_eq, hs]
      simp [sourceErrors, hne, hlen]
    refine ⟨?_, hmem⟩
    rw [post_status_400_iff]
    intro hnil
    rw [hnil] at hmem
    exact absurd hmem (List.not_mem_nil _)

set_option maxRecDepth 1000000 in
/-- C20 as stated fails: `numericSourcePost`, whose source is the number 7, is
accepted with 201 and the number is stored as the record's source. -/
theorem numeric_source_is_stored :
    validateBody sampleHost numericSourcePost.body = [] ∧
    (postDemoRequest sampleHost emptyState numericSourcePost).response.status = 201 ∧
    (postDemoRequest sampleHost emptyState numericSourcePost).state.persistence.inMemoryDemoRequests
      = [buildRequestData sampleHost numericSourcePost] ∧
    (buildRequestData sampleHost numericSourcePost).source = JsValue.number 7 := by
  decide

/-! ## Durable log: appending -/

theorem splitOnP_append_sep {α : Type} (p : α → Bool) (a b : List α) (sep : α)
    (hsep : p sep = true) :
    (a ++ sep :: b).splitOnP p = a.splitOnP p ++ b.splitOnP p := by
  induction a with
  | nil => simp [List.splitOnP_cons, hsep]
  | cons x xs ih =>
    rw [List.cons_append, List.splitOnP_cons, List.splitOnP_cons, ih]
    split
    · rfl
    · cases hx : xs.splitOnP p with
      | nil => exact absurd hx (List.splitOnP_ne_nil p xs)
      | cons y ys => rfl

theorem jsSplitLines_append_newline (a b : String) :
    jsSplitLines (a ++ "\n" ++ b) = jsSplitLines a ++ jsSplitLines b := by
  unfold jsSplitLines
  have hd : (a ++ "\n" ++ b).data = a.data ++ '\n' :: b.data := by
    simp [String.data_append]
  rw [hd, List.splitOn, splitOnP_append_sep _ _ _ _ (by simp), List.map_append]
  rfl

theorem parseLog_append_newline (host : Host) (a b : String) :
    parseLog host (a ++ "\n" ++ b) = parseLog host a ++ parseLog host b := by
  rw [parseLog_eq_filterMap, parseLog_eq_filterMap, parseLog_eq_filterMap,
    jsSplitLines_append_newline, List.filterMap_append]

theorem parseLog_empty (host : Host) : parseLog host "" = [] := by
  rw [parseLog_eq_filterMap]
  have : jsSplitLines "" = [""] := by decide
  rw [this]
  simp [parsedRecord, isRecordLine_empty]

theorem parseLog_single_line (host : Host) (line : String) (r : DemoRequest)
    (hnl : '\n' ∉ line.data) (hrec : isRecordLine line = true)
    (hparse : host.jsonParse line = some r) : parseLog host line = [r] := by
  have h := parseLog_joinLines host [line] (by simpa using hnl)
  have hj : joinLines [line] = line := by
    unfold joinLines
    simp [List.intercalate]
  rw [hj] at h
  rw [h]
  simp [parsedRecord, hrec, hparse]

theorem parseLog_logHeader (host : Host) : parseLog host logHeader = [] := by
  rw [parseLog_eq_filterMap]
  have hall : ∀ l ∈ jsSplitLines logHeader, isRecordLine l = false := by decide
  rw [List.filterMap_eq_nil_iff]
  intro l hl
  simp [parsedRecord, hall l hl]

/-- Appending one record line to a log that is empty or ends in a newline adds
exactly that record to the parsed log. -/
theorem parseLog_append_record (host : Host) (c : String) (r : DemoRequest)
    (hround : host.jsonParse (host.jsonStringify r) = some r)
    (hline : '\n' ∉ (host.jsonStringify r).data)
    (hrec : isRecordLine (host.jsonStringify r) = true)
    (hc : c = "" ∨ ∃ c0, c = c0 ++ "\n") :
    parseLog host (c ++ (host.jsonStringify r ++ "\n")) = parseLog host c ++ [r] := by
  have hl : parseLog host (host.jsonStringify r ++ "\n") = [r] := by
    have : host.jsonStringify r ++ "\n" = host.jsonStringify r ++ "\n" ++ "" := by simp
    rw [this, parseLog_append_newline, parseLog_empty,
      parseLog_single_line host _ r hline hrec hround]
    rfl
  rcases hc with h0 | ⟨c0, h0⟩
  · subst h0
    rw [parseLog_empty]
    simpa using hl
  · subst h0
    have e1 : c0 ++ "\n" ++ (host.jsonStringify r ++ "\n")
        = c0 ++ "\n" ++ (host.jsonStringify r ++ "\n") := rfl
    rw [parseLog_append_newline, hl]
    have e2 : c0 ++ "\n" = c0 ++ "\n" ++ "" := by simp
    rw [e2, parseLog_append_newline, parseLog_empty]
    simp

theorem writeDemoRequest_file_appended (host : Host) (p : Persistence)
    (writeFault : Option FsError) (r : DemoRequest) :
    (writeDemoRequest host p none writeFault r).file
      = some (p.file.getD "" ++ (host.jsonStringify r ++ "\n")) := rfl

theorem writeDemoRequest_file_created (host : Host) (p : Persistence) (r : DemoRequest) :
    (writeDemoRequest host p (some FsError.ENOENT) none r).file
      = some (logHeader ++ (host.jsonStringify r ++ "\n")) := rfl

theorem fileRequests_after_append (host : Host) (p : Persistence)
    (writeFault : Option FsError) (r : DemoRequest)
    (hround : host.jsonParse (host.jsonStringify r) = some r)
    (hline : '\n' ∉ (host.jsonStringify r).data)
    (hrec : isRecordLine (host.jsonStringify r) = true)
    (hprior : LogEndsCleanly p.file) :
    fileRequests host (fsReadFile (writeDemoRequest host p none writeFault r).file none)
      = fileRequests host (fsReadFile p.file none) ++ [r] := by
  rw [writeDemoRequest_file_appended]
  rcases hprior with h0 | h0 | ⟨c0, h0⟩
  · rw [h0]
    simp only [Option.getD_none, fsReadFile, fileRequests]
    rw [parseLog_append_record host "" r hround hline hrec (Or.inl rfl), parseLog_empty]
  · rw [h0]
    simp only [Option.getD_some, fsReadFile, fileRequests]
    exact parseLog_append_record host "" r hround hline hrec (Or.inl rfl)
  · rw [h0]
    simp only [Option.getD_some, fsReadFile, fileRequests]
    exact parseLog_append_record host _ r hround hline hrec (Or.inr ⟨c0, rfl⟩)

set_option maxRecDepth 1000000 in
theorem fileRequests_after_create (host : Host) (p : Persistence) (r : DemoRequest)
    (hround : host.jsonParse (host.jsonStringify r) = some r)
    (hline : '\n' ∉ (host.jsonStringify r).data)
    (hrec : isRecordLine (host.jsonStringify r) = true) :
    fileRequests host
        (fsReadFile (writeDemoRequest host p (some FsError.ENOENT) none r).file none)
      = [r] := by
  rw [writeDemoRequest_file_created]
  simp only [fsReadFile, fileRequests]
  rw [parseLog_append_record host logHeader r hround hline hrec
    (Or.inr ⟨"# Demo Requests Storage\n# Format: One JSON object per line\n# Each line contains: requestId, email, userType, socialHandle, socialPlatform, source, timestamp, ipAddress, createdAt\n", by decide⟩),
    parseLog_logHeader]
  rfl

/-- C11, amended: for a prior log that is missing (whether `appendFile` creates
it or, after `ENOENT`, `writeFile` writes it with the header), empty, or ending
in a newline, after `writeDemoRequest(r)` completes a successful durable write
the records parsed from the log alone are the records parsed from it before,
followed by `r`. Here `r` is a record whose JSON line has no newline, is a record
line, and parses back to `r`. -/
theorem durable_write_appends_record (host : Host) (p : Persistence)
    (appendFault writeFault : Option FsError) (r : DemoRequest)
    (hround : host.jsonParse (host.jsonStringify r) = some r)
    (hline : '\n' ∉ (host.jsonStringify r).data)
    (hrec : isRecordLine (host.jsonStringify r) = true)
    (hprior : p.file = none ∨ p.file = some "" ∨ ∃ c0, p.file = some (c0 ++ "\n"))
    (hwrite : appendFault = none ∨
      (p.file = none ∧ appendFault = some FsError.ENOENT ∧ writeFault = none)) :
    fileRequests host
        (fsReadFile (writeDemoRequest host p appendFault writeFault r).file none)
      = fileRequests host (fsReadFile p.file none) ++ [r] := by
  rcases hwrite with ha | ⟨hf, ha, hw⟩
  · subst ha
    exact fileRequests_after_append host p writeFault r hround hline hrec hprior
  · subst ha
    subst hw
    rw [fileRequests_after_create host p r hround hline hrec, hf]
    rfl

set_option maxRecDepth 1000000 in
/-- C11 amended, at a log holding the header and one record, to which a second
record is appended. -/
theorem durable_write_appends_record_witness :
    fileRequests sampleHost
        (fsReadFile (writeDemoRequest sampleHost
          ⟨[], some (logHeader ++ (stringifyRecord sampleRecordB ++ "\n"))⟩ none none
          sampleRecordA).file none)
      = [sampleRecordB, sampleRecordA] :=
  (durable_write_appends_record sampleHost
    ⟨[], some (logHeader ++ (stringifyRecord sampleRecordB ++ "\n"))⟩ none none sampleRecordA
    (by decide) (by decide) (by decide)
    (Or.inr (Or.inr ⟨logHeader ++ stringifyRecord sampleRecordB, by decide⟩))
    (Or.inl rfl)).trans (by decide)

set_option maxRecDepth 1000000 in
/-- C11 as stated fails for a log ending in a partial line: the log holds one
record and the beginning of a second line, `appendFile` succeeds, and the records
parsed from the log afterwards are the same as before, without the new record,
whose text was glued to the partial line. -/
theorem record_glued_to_partial_line_is_lost :
    sampleHost.jsonParse (sampleHost.jsonStringify sampleRecordA) = some sampleRecordA ∧
    fileRequests sampleHost
        (fsReadFile (some (stringifyRecord sampleRecordB ++ "\n\x7b\"requestId\":\"req_77"))
          none)
      = [sampleRecordB] ∧
    (writeDemoRequest sampleHost
        ⟨[], some (stringifyRecord sampleRecordB ++ "\n\x7b\"requestId\":\"req_77")⟩ none none
        sampleRecordA).file
      = some (stringifyRecord sampleRecordB ++ "\n\x7b\"requestId\":\"req_77"
          ++ (stringifyRecord sampleRecordA ++ "\n")) ∧
    fileRequests sampleHost
        (fsReadFile (writeDemoRequest sampleHost
          ⟨[], some (stringifyRecord sampleRecordB ++ "\n\x7b\"requestId\":\"req_77")⟩ none none
          sampleRecordA).file none)
      = [sampleRecordB] := by
  decide

/-! ## Uniqueness of requestIds -/

theorem writeDemoRequest_file_cases (host : Host) (p : Persistence)
    (appendFault writeFault : Option FsError) (r : DemoRequest) :
    appendFault = none ∨ (appendFault = some FsError.ENOENT ∧ writeFault = none) ∨
      (writeDemoRequest host p appendFault writeFault r).file = p.file := by
  cases appendFault with
  | none => exact Or.inl rfl
  | some e =>
    cases e with
    | ENOENT =>
      cases writeFault with
      | none => exact Or.inr (Or.inl ⟨rfl, rfl⟩)
      | some w => exact Or.inr (Or.inr rfl)
    | EROFS => exact Or.inr (Or.inr rfl)
    | EPERM => exact Or.inr (Or.inr rfl)
    | other code => exact Or.inr (Or.inr rfl)

/-- After `writeDemoRequest` the log still ends cleanly and its parsed records
are records parsed before or the record written. -/
theorem writeDemoRequest_log (host : Host) (p : Persistence)
    (appendFault writeFault : Option FsError) (r : DemoRequest)
    (hround : host.jsonParse (host.jsonStringify r) = some r)
    (hline : '\n' ∉ (host.jsonStringify r).data)
    (hrec : isRecordLine (host.jsonStringify r) = true)
    (hlog : LogEndsCleanly p.file) :
    LogEndsCleanly (writeDemoRequest host p appendFault writeFault r).file ∧
    ∀ x ∈ fileRequests host
        (fsReadFile (writeDemoRequest host p appendFault writeFault r).file none),
      x ∈ fileRequests host (fsReadFile p.file none) ∨ x = r := by
  rcases writeDemoRequest_file_cases host p appendFault writeFault r with h | ⟨h1, h2⟩ | h
  · subst h
    constructor
    · rw [writeDemoRequest_file_appended]
      exact Or.inr (Or.inr ⟨p.file.getD "" ++ host.jsonStringify r,
        by rw [String.append_assoc]⟩)
    · intro x hx
      rw [fileRequests_after_append host p writeFault r hround hline hrec hlog] at hx
      rcases List.mem_append.mp hx with h | h
      · exact Or.inl h
      · exact Or.inr (by simpa using h)
  · subst h1
    subst h2
    constructor
    · rw [writeDemoRequest_file_created]
      exact Or.inr (Or.inr ⟨logHeader ++ host.jsonStringify r,
        by rw [String.append_assoc]⟩)
    · intro x hx
      rw [fileRequests_after_create host p r hround hline hrec] at hx
      exact Or.inr (by simpa using hx)
  · rw [h]
    exact ⟨hlog, fun x hx => Or.inl hx⟩

/-- One POST keeps the log ending cleanly and adds at most the record it built
to the stored records. -/
theorem postDemoRequest_stored (host : Host) (st : ServerState) (req : PostRequest)
    (hround : host.jsonParse (host.jsonStringify (buildRequestData host req))
      = some (buildRequestData host req))
    (hline : '\n' ∉ (host.jsonStringify (buildRequestData host req)).data)
    (hrec : isRecordLine (host.jsonStringify (buildRequestData host req)) = true)
    (hlog : LogEndsCleanly st.persistence.file) :
    LogEndsCleanly (postDemoRequest host st req).state.persistence.file ∧
    ∀ x ∈ storedRecords host (postDemoRequest host st req).state,
      x ∈ storedRecords host st ∨ x = buildRequestData host req := by
  rcases postDemoRequest_cases host st req with
    ⟨_, h⟩ | ⟨_, _, _, _, _, h⟩ | ⟨_, _, _, h⟩ | ⟨_, h⟩
  · rw [h]; exact ⟨hlog, fun x hx => Or.inl hx⟩
  · rw [h]; exact ⟨hlog, fun x hx => Or.inl hx⟩
  · rw [h]; exact ⟨hlog, fun x hx => Or.inl hx⟩
  · rw [h]
    obtain ⟨h1, h2⟩ := writeDemoRequest_log host st.persistence req.appendFault req.writeFault
      (buildRequestData host req) hround hline hrec hlog
    refine ⟨h1, ?_⟩
    intro x hx
    unfold storedRecords at hx ⊢
    simp only at hx
    rw [writeDemoRequest_inMemory, List.mem_append, List.mem_append] at hx
    rcases hx with hx | hx | hx
    · rcases h2 x hx with h3 | h3
      · exact Or.inl (List.mem_append_left _ h3)
      · exact Or.inr h3
    · exact Or.inl (List.mem_append_right _ hx)
    · exact Or.inr (by simpa using hx)

/-- C12, amended: requestId uniqueness holds as long as the generated
identifiers are fresh. From a state whose log ends cleanly and whose stored
records carry pairwise distinct requestIds, after any sequence of submissions
whose generated requestIds are pairwise distinct and differ from every stored
requestId (and whose records are written as JSON lines that parse back), no two
different records in the union of the durable log and the in-process array carry
the same requestId. -/
theorem requestIds_unique_while_fresh (host : Host) :
    ∀ (reqs : List PostRequest) (st : ServerState),
      LogEndsCleanly st.persistence.file →
      UniqueRequestIds (storedRecords host st) →
      (reqs.map (fun q => generateRequestId q.uuid)).Nodup →
      (∀ q ∈ reqs, generateRequestId q.uuid
        ∉ (storedRecords host st).map (fun r => r.requestId)) →
      (∀ q ∈ reqs,
        host.jsonParse (host.jsonStringify (buildRequestData host q))
          = some (buildRequestData host q) ∧
        '\n' ∉ (host.jsonStringify (buildRequestData host q)).data ∧
        isRecordLine (host.jsonStringify (buildRequestData host q)) = true) →
      UniqueRequestIds (storedRecords host (runPosts host st reqs)) := by
  intro reqs
  induction reqs with
  | nil => intro st _ hu _ _ _; exact hu
  | cons q rest ih =>
    intro st hlog hu hnd hfresh hjson
    obtain ⟨hr, hl, hc⟩ := hjson q (List.mem_cons_self _ _)
    obtain ⟨hlog2, hsub⟩ := postDemoRequest_stored host st q hr hl hc hlog
    simp only [List.map_cons, List.nodup_cons] at hnd
    have hq := hfresh q (List.mem_cons_self _ _)
    have hid : (buildRequestData host q).requestId = generateRequestId q.uuid := rfl
    apply ih (postDemoRequest host st q).state hlog2
    · intro a ha b hb hab
      rcases hsub a ha with ha1 | ha1 <;> rcases hsub b hb with hb1 | hb1
      · exact hu a ha1 b hb1 hab
      · exfalso
        apply hq
        rw [hb1, hid] at hab
        rw [← hab]
        exact List.mem_map.mpr ⟨a, ha1, rfl⟩
      · exfalso
        apply hq
        rw [ha1, hid] at hab
        rw [hab]
        exact List.mem_map.mpr ⟨b, hb1, rfl⟩
      · rw [ha1, hb1]
    · exact hnd.2
    · intro q2 hq2 hmem
      obtain ⟨x, hx, hxid⟩ := List.mem_map.mp hmem
      rcases hsub x hx with hx1 | hx1
      · exact hfresh q2 (List.mem_cons_of_mem _ hq2) (List.mem_map.mpr ⟨x, hx1, hxid⟩)
      · rw [hx1, hid] at hxid
        apply hnd.1
        rw [List.mem_map]
        exact ⟨q2, hq2, hxid.symm⟩
    · intro q2 hq2
      exact hjson q2 (List.mem_cons_of_mem _ hq2)

set_option maxRecDepth 1000000 in
/-- C12 amended, at two accepted submissions with different identifiers on a
writable file system, after which the log and the array hold both records. -/
theorem requestIds_unique_while_fresh_witness :
    UniqueRequestIds
      (storedRecords sampleHost (runPosts sampleHost emptyState [durablePost, secondDurablePost])) ∧
    storedRecords sampleHost (runPosts sampleHost emptyState [durablePost, secondDurablePost])
      = [buildRequestData sampleHost durablePost, buildRequestData sampleHost secondDurablePost,
          buildRequestData sampleHost durablePost,
          buildRequestData sampleHost secondDurablePost] :=
  ⟨requestIds_unique_while_fresh sampleHost [durablePost, secondDurablePost] emptyState
    (Or.inl rfl) (fun a ha => absurd ha (List.not_mem_nil a)) (by decide) (by decide)
    (by decide), by decide⟩

set_option maxRecDepth 1000000 in
/-- C12 as stated fails: `samplePost` and `collidingPost` are both accepted, the
UUIDs generated for them share their first twelve hexadecimal digits, and the
in-process array then holds two different records with the same requestId. -/
theorem requestId_collision_breaks_uniqueness :
    (postDemoRequest sampleHost emptyState samplePost).response.status = 201 ∧
    (postDemoRequest sampleHost (postDemoRequest sampleHost emptyState samplePost).state
      collidingPost).response.status = 201 ∧
    runPosts sampleHost emptyState [samplePost, collidingPost] = collidedState ∧
    buildRequestData sampleHost samplePost ∈ storedRecords sampleHost collidedState ∧
    buildRequestData sampleHost collidingPost ∈ storedRecords sampleHost collidedState ∧
    (buildRequestData sampleHost samplePost).requestId
      = (buildRequestData sampleHost collidingPost).requestId ∧
    buildRequestData sampleHost samplePost ≠ buildRequestData sampleHost collidingPost := by
  decide

/-! ## Handles that normalization does not fix -/

theorem jsTrim_length_le (s : String) : (jsTrim s).data.length ≤ s.data.length := by
  unfold jsTrim
  simp only [List.length_reverse]
  have h1 := (List.dropWhile_sublist isJsWhiteSpace
    (l := (s.data.dropWhile isJsWhiteSpace).reverse)).length_le
  have h2 := (List.dropWhile_sublist isJsWhiteSpace (l := s.data)).length_le
  rw [List.length_reverse] at h1
  omega

theorem cleanedHandle_length_lt (c : List Char) (t : List Char) (hc : c = '@' :: t) :
    (cleanedHandle ⟨c⟩).length < c.length := by
  subst hc
  unfold cleanedHandle
  have h1 := jsTrim_length_le ⟨('@' :: t).dropWhile (fun x => x == '@')⟩
  have h2 : (('@' :: t).dropWhile (fun x => x == '@')).length ≤ t.length := by
    simp only [List.dropWhile_cons, beq_self_eq_true, if_true]
    exact (List.dropWhile_sublist _ (l := t)).length_le
  simp only at h1
  rw [List.length_cons]
  show (jsTrim ⟨('@' :: t).dropWhile (fun x => x == '@')⟩).data.length < t.length + 1
  omega

/-- C30: `stripAtSymbol` removes leading `@` characters before it trims, so it is
not idempotent on arbitrary strings: `@ @abc` and ` @abc` both normalize to
`@abc`, which normalizes to `abc`; every handle whose normalized form begins
with `@` changes when normalized again, and `validateSocialHandle` rejects every
handle whose normalized form begins with `@` or changes when normalized again. -/
theorem stripAtSymbol_not_idempotent_in_general :
    stripAtSymbol (.string "@ @abc") = "@abc" ∧
    stripAtSymbol (.string " @abc") = "@abc" ∧
    stripAtSymbol (.string "@abc") = "abc" ∧
    validateSocialHandle (.string "@ @abc") = false ∧
    validateSocialHandle (.string " @abc") = false ∧
    (∀ h : String, (stripAtSymbol (.string h)).data.head? = some '@' →
      stripAtSymbol (.string (stripAtSymbol (.string h))) ≠ stripAtSymbol (.string h) ∧
      validateSocialHandle (.string h) = false) ∧
    (∀ h : String,
      stripAtSymbol (.string (stripAtSymbol (.string h))) ≠ stripAtSymbol (.string h) →
      validateSocialHandle (.string h) = false) := by
  refine ⟨by decide, by decide, by decide, by decide, by decide, ?_, ?_⟩
  · intro h hhead
    rw [stripAtSymbol_string] at hhead
    simp only at hhead
    constructor
    · rw [stripAtSymbol_string h, stripAtSymbol_string]
      intro heq
      have hd : cleanedHandle ⟨cleanedHandle h⟩ = cleanedHandle h := congrArg String.data heq
      cases hc : cleanedHandle h with
      | nil => rw [hc] at hhead; simp at hhead
      | cons a t =>
        rw [hc] at hhead
        simp only [List.head?_cons, Option.some.injEq] at hhead
        subst hhead
        have hlt := cleanedHandle_length_lt (cleanedHandle h) t hc
        rw [hd] at hlt
        omega
    · cases hv : validateSocialHandle (.string h)
      · rfl
      · have hvalid := (validateSocialHandle_string_iff h).mp hv
        have hat := hvalid.2.2.1 '@' (List.mem_of_mem_head? hhead)
        exact absurd rfl (isHandleChar_ne_at '@' hat)
  · intro h hne
    cases hv : validateSocialHandle (.string h)
    · rfl
    · exfalso
      apply hne
      have hvalid := (validateSocialHandle_string_iff h).mp hv
      rw [stripAtSymbol_string h, stripAtSymbol_string, cleanedHandle_of_valid _ hvalid]

/-! ## The response to an accepted submission -/

/-- The validation block reads the host only through the two enum normalizers. -/
theorem validateBody_congr {h1 h2 : Host} (body : DemoRequestBody)
    (hu : normalizeUserType h1 body.userType = normalizeUserType h2 body.userType)
    (hp : normalizePlatform h1 body.socialPlatform = normalizePlatform h2 body.socialPlatform) :
    validateBody h1 body = validateBody h2 body := by
  unfold validateBody
  rw [hu, hp]

theorem empty_window (k : String) : WindowMap.window ([] : WindowMap) k = [] := rfl

theorem checkRateLimit_empty {host : Host} (ip email : String) (now : Int) :
    (checkRateLimit host RateLimitStore.empty ip email now).1 = RateLimitResult.notLimited := by
  rw [checkRateLimit_fst]
  apply rateLimitPolicy_admits <;> simp [RateLimitStore.empty, empty_window]

theorem fileRequests_missing (host : Host) (fault : Option FsError) :
    fileRequests host (fsReadFile none fault) = [] := by
  cases fault <;> rfl

theorem checkDuplicate_empty (host : Host) (fault : Option FsError) (email : String)
    (now : Int) : checkDuplicate host (fsReadFile none fault) [] email now = none := by
  rw [checkDuplicate_eq_none_iff]
  intro x hx
  rw [readDemoRequests_eq, fileRequests_missing] at hx
  simp [RequestMap.addAll, RequestMap.values] at hx

/-- C21: for every accepted submission the response is 201 with `success` true
and data whose email is the normalized email, whose userType is the canonical
lowercase user type, whose status is `pending`, and whose requestId and createdAt
are those of the record that was persisted; the body with email `demo@x.io`,
userType `creator`, socialHandle `@demo_x`, socialPlatform `Telegram` on a fresh
state gives 201 with email `demo@x.io`, userType `creator`, status `pending`. -/
theorem accepted_response_reports_persisted_record (host : Host) (st : ServerState)
    (req : PostRequest) :
    ((postDemoRequest host st req).response.status = 201 →
      (postDemoRequest host st req).response
        = Response.created (buildRequestData host req).requestId
            (buildRequestData host req).email (buildRequestData host req).userType "pending"
            (buildRequestData host req).createdAt ∧
      (postDemoRequest host st req).response.success = true ∧
      (postDemoRequest host st req).state.persistence.inMemoryDemoRequests
        = st.persistence.inMemoryDemoRequests ++ [buildRequestData host req] ∧
      (buildRequestData host req).email = normalizeEmail host req.body.email.asString ∧
      (buildRequestData host req).userType = normalizeUserType host req.body.userType ∧
      ((buildRequestData host req).userType = "creator" ∨
        (buildRequestData host req).userType = "project_owner")) ∧
    (LowerCaseOnAscii host → req.body = samplePost.body →
      (postDemoRequest host emptyState req).response
        = Response.created (generateRequestId req.uuid) "demo@x.io" "creator" "pending"
            (host.toISOString req.createdNow) ∧
      (postDemoRequest host emptyState req).response.status = 201) := by
  constructor
  · intro h
    obtain ⟨hvalid, hstate⟩ := post_created_iff host st req h
    have huser := (validateBody_eq_nil req.body hvalid).2.1
    rcases postDemoRequest_cases host st req with
      ⟨_, h2⟩ | ⟨_, _, _, _, _, h2⟩ | ⟨_, _, _, h2⟩ | ⟨_, h2⟩
    · rw [h2] at h; simp [Response.status] at h
    · rw [h2] at h; simp [Response.status] at h
    · rw [h2] at h; simp [Response.status] at h
    · refine ⟨?_, ?_, ?_, rfl, rfl, normalizeUserType_ne_empty _ huser⟩
      · rw [h2]; rfl
      · rw [h2]; rfl
      · rw [hstate]
        exact writeDemoRequest_inMemory host st.persistence req.appendFault req.writeFault _
  · intro hascii hbody
    have he : normalizeEmail host req.body.email.asString = "demo@x.io" := by
      rw [hbody]
      exact (normalizeEmail_of_ascii hascii "demo@x.io" (by decide)).trans (by decide)
    have hu : normalizeUserType host req.body.userType = "creator" := by
      rw [hbody]
      exact (normalizeUserType_of_ascii hascii "creator" (by decide)).trans (by decide)
    have hp : normalizePlatform host req.body.socialPlatform = "telegram" := by
      rw [hbody]
      exact (normalizePlatform_of_ascii hascii "Telegram" (by decide)).trans (by decide)
    have hvalid : validateBody host req.body = [] := by
      rw [@validateBody_congr host sampleHost req.body (hu.trans (by rw [hbody]; decide))
        (hp.trans (by rw [hbody]; decide)), hbody]
      decide
    have hcreated := postDemoRequest_created host emptyState req hvalid
      (checkRateLimit_empty _ _ _) (checkDuplicate_empty host _ _ _)
    rw [hcreated, he, hu]
    exact ⟨rfl, rfl⟩

set_option maxRecDepth 1000000 in
/-- C21, at `samplePost` on a fresh state. -/
theorem accepted_response_reports_persisted_record_witness :
    (postDemoRequest sampleHost emptyState samplePost).response
      = Response.created "req_5f2b8c1d9e07" "demo@x.io" "creator" "pending"
          "2023-11-14T22:13:20.002Z" :=
  ((accepted_response_reports_persisted_record sampleHost emptyState samplePost).2
    sampleHost_lowerCaseOnAscii rfl).1.trans (by decide)

/-! ## The hourly sweep -/

theorem WindowMap.get?_eq_none_of_not_mem (m : WindowMap) (k : String)
    (h : k ∉ m.map Prod.fst) : WindowMap.get? m k = none := by
  induction m with
  | nil => rfl
  | cons e rest ih =>
    obtain ⟨k', v⟩ := e
    simp only [List.map_cons, List.mem_cons, not_or] at h
    unfold WindowMap.get?
    rw [if_neg (fun hk => h.1 hk.symm)]
    exact ih h.2

theorem WindowMap.sweep_keys_sublist (m : WindowMap) (now : Int) :
    ((WindowMap.sweep m now).map Prod.fst).Sublist (m.map Prod.fst) := by
  induction m with
  | nil => exact List.Sublist.refl _
  | cons e rest ih =>
    obtain ⟨k', v⟩ := e
    unfold WindowMap.sweep
    dsimp only
    split
    · exact List.Sublist.cons _ ih
    · exact List.Sublist.cons₂ _ ih

theorem WindowMap.sweep_keys_nodup (m : WindowMap) (now : Int)
    (h : (m.map Prod.fst).Nodup) : ((WindowMap.sweep m now).map Prod.fst).Nodup :=
  List.Nodup.sublist (WindowMap.sweep_keys_sublist m now) h

theorem WindowMap.get?_sweep (m : WindowMap) (now : Int) (h : (m.map Prod.fst).Nodup)
    (k : String) :
    WindowMap.get? (WindowMap.sweep m now) k
      = (WindowMap.get? m k).bind (fun v =>
          if (v.filter (fun time => decide (now - time < oneDay))).length = 0 then none
          else some (v.filter (fun time => decide (now - time < oneDay)))) := by
  induction m with
  | nil => rfl
  | cons e rest ih =>
    obtain ⟨k', v⟩ := e
    rw [List.map_cons, List.nodup_cons] at h
    by_cases hk : k' = k
    · subst hk
      have hnone : WindowMap.get? (WindowMap.sweep rest now) k' = none :=
        WindowMap.get?_eq_none_of_not_mem _ _
          (fun hm => h.1 ((WindowMap.sweep_keys_sublist rest now).subset hm))
      unfold WindowMap.sweep
      dsimp only
      by_cases hl : (v.filter (fun time => decide (now - time < oneDay))).length = 0
      · rw [if_pos hl, hnone]
        simp only [WindowMap.get?, if_true, Option.some_bind, if_pos hl]
      · rw [if_neg hl]
        simp only [WindowMap.get?, if_true, Option.some_bind, if_neg hl]
    · unfold WindowMap.sweep
      dsimp only
      split
      · rw [ih h.2]
        simp [WindowMap.get?, hk]
      · simp only [WindowMap.get?, if_neg hk]
        exact ih h.2

theorem WindowMap.window_sweep (m : WindowMap) (now : Int) (h : (m.map Prod.fst).Nodup)
    (k : String) :
    WindowMap.window (WindowMap.sweep m now) k
      = (WindowMap.window m k).filter (fun time => decide (now - time < oneDay)) := by
  unfold WindowMap.window
  rw [WindowMap.get?_sweep m now h k]
  cases hg : WindowMap.get? m k with
  | none => rfl
  | some v =>
    simp only [Option.some_bind]
    split
    · rename_i hl
      exact (List.length_eq_zero.mp hl).symm
    · rfl

theorem WindowMap.isSome_get?_sweep (m : WindowMap) (now : Int) (h : (m.map Prod.fst).Nodup)
    (k : String) :
    (WindowMap.get? (WindowMap.sweep m now) k).isSome = true
      ↔ (WindowMap.window m k).filter (fun time => decide (now - time < oneDay)) ≠ [] := by
  unfold WindowMap.window
  rw [WindowMap.get?_sweep m now h k]
  cases hg : WindowMap.get? m k with
  | none => simp
  | some v =>
    simp only [Option.some_bind]
    split
    · rename_i hl
      simp [List.length_eq_zero.mp hl]
    · rename_i hl
      simp only [Option.isSome_some, true_iff]
      exact fun he => hl (List.length_eq_zero.mpr he)

theorem WindowMap.sweep_entry_ne_nil (m : WindowMap) (now : Int) (e : String × List Int)
    (h : e ∈ WindowMap.sweep m now) : e.2 ≠ [] := by
  induction m with
  | nil => simp [WindowMap.sweep] at h
  | cons e' rest ih =>
    obtain ⟨k', v⟩ := e'
    unfold WindowMap.sweep at h
    dsimp only at h
    split at h
    · exact ih h
    · rename_i hl
      rcases List.mem_cons.mp h with he | he
      · subst he
        exact fun hn => hl (List.length_eq_zero.mpr hn)
      · exact ih he

theorem WindowMap.get?_mem (m : WindowMap) (k : String) (w : List Int)
    (h : WindowMap.get? m k = some w) : (k, w) ∈ m := by
  induction m with
  | nil => simp [WindowMap.get?] at h
  | cons e rest ih =>
    obtain ⟨k', v⟩ := e
    unfold WindowMap.get? at h
    split at h
    · rename_i hk
      simp only [Option.some.injEq] at h
      subst hk; subst h
      exact List.mem_cons_self _ _
    · exact List.mem_cons_of_mem _ (ih h)

/-- C25: after the hourly sweep each window holds exactly its former timestamps
that are less than 24 hours old, in their former order; a key is still present
exactly when at least one of its timestamps was kept; no window left in the
store is empty. The keys of each side are distinct, as the property names of an
object are. -/
theorem sweep_keeps_recent_timestamps (store : RateLimitStore) (now : Int)
    (hip : (store.ip.map Prod.fst).Nodup) (hemail : (store.email.map Prod.fst).Nodup) :
    (∀ k, (sweep store now).ip.window k
        = (store.ip.window k).filter (fun time => decide (now - time < oneDay))) ∧
    (∀ k, (sweep store now).email.window k
        = (store.email.window k).filter (fun time => decide (now - time < oneDay))) ∧
    (∀ k, ((sweep store now).ip.get? k).isSome = true
        ↔ ∃ time ∈ store.ip.window k, now - time < oneDay) ∧
    (∀ k, ((sweep store now).email.get? k).isSome = true
        ↔ ∃ time ∈ store.email.window k, now - time < oneDay) ∧
    (∀ k w, (sweep store now).ip.get? k = some w → w ≠ []) ∧
    (∀ k w, (sweep store now).email.get? k = some w → w ≠ []) ∧
    ((sweep store now).ip.map Prod.fst).Nodup ∧
    ((sweep store now).email.map Prod.fst).Nodup := by
  have hex : ∀ w : List Int,
      w.filter (fun time => decide (now - time < oneDay)) ≠ []
        ↔ ∃ time ∈ w, now - time < oneDay := by
    intro w
    rw [Ne, List.filter_eq_nil_iff]
    simp
  refine ⟨fun k => WindowMap.window_sweep _ now hip k,
    fun k => WindowMap.window_sweep _ now hemail k,
    fun k => (WindowMap.isSome_get?_sweep _ now hip k).trans (hex _),
    fun k => (WindowMap.isSome_get?_sweep _ now hemail k).trans (hex _),
    fun k w h => WindowMap.sweep_entry_ne_nil _ now (k, w) (WindowMap.get?_mem _ k w h),
    fun k w h => WindowMap.sweep_entry_ne_nil _ now (k, w) (WindowMap.get?_mem _ k w h),
    WindowMap.sweep_keys_nodup _ now hip, WindowMap.sweep_keys_nodup _ now hemail⟩

/-- The policy reads a window only through its timestamps less than a day old. -/
theorem rateLimitPolicy_congr (wi wi' we we' : List Int) (now : Int)
    (hi : wi.filter (fun time => decide (now - time < oneDay))
        = wi'.filter (fun time => decide (now - time < oneDay)))
    (he : we.filter (fun time => decide (now - time < oneDay))
        = we'.filter (fun time => decide (now - time < oneDay))) :
    rateLimitPolicy wi we now = rateLimitPolicy wi' we' now := by
  unfold rateLimitPolicy
  rw [← length_filter_day_hour wi, ← length_filter_day_hour wi', ← length_filter_day wi,
    ← length_filter_day wi', ← length_filter_day we, ← length_filter_day we', hi, he]

theorem filter_day_of_earlier_sweep (w : List Int) (ts now : Int) (h : ts ≤ now) :
    (w.filter (fun time => decide (ts - time < oneDay))).filter
        (fun time => decide (now - time < oneDay))
      = w.filter (fun time => decide (now - time < oneDay)) := by
  rw [List.filter_filter]
  apply List.filter_congr
  intro t _
  by_cases h1 : now - t < oneDay
  · have h2 : ts - t < oneDay := by omega
    simp [h1, h2]
  · simp [h1]

theorem filter_day_append_stale (extra w : List Int) (now : Int)
    (h : ∀ t ∈ extra, oneDay ≤ now - t) :
    (extra ++ w).filter (fun time => decide (now - time < oneDay))
      = w.filter (fun time => decide (now - time < oneDay)) := by
  rw [List.filter_append]
  have : extra.filter (fun time => decide (now - time < oneDay)) = [] := by
    rw [List.filter_eq_nil_iff]
    intro t ht
    have := h t ht
    simp only [decide_eq_true_eq]
    omega
  rw [this, List.nil_append]

/-- C26: entries older than 24 hours are filtered on every check. The result of
`checkRateLimit` is determined by the timestamps of the two windows that are less
than 24 hours old: it is the same on any two stores whose windows agree on them,
the same after a sweep run at any time not later than `now`, and the same when
timestamps 24 hours old or older are put in front of a window. -/
theorem checkRateLimit_ignores_stale_timestamps (host : Host) (store : RateLimitStore)
    (ip email : String) (now : Int) :
    (∀ other : RateLimitStore,
      (other.ip.window ip).filter (fun time => decide (now - time < oneDay))
        = (store.ip.window ip).filter (fun time => decide (now - time < oneDay)) →
      (other.email.window (normalizeEmail host email)).filter
          (fun time => decide (now - time < oneDay))
        = (store.email.window (normalizeEmail host email)).filter
          (fun time => decide (now - time < oneDay)) →
      (checkRateLimit host other ip email now).1 = (checkRateLimit host store ip email now).1) ∧
    (∀ ts : Int, ts ≤ now → (store.ip.map Prod.fst).Nodup → (store.email.map Prod.fst).Nodup →
      (checkRateLimit host (sweep store ts) ip email now).1
        = (checkRateLimit host store ip email now).1) ∧
    (∀ (k : String) (extra : List Int), (∀ t ∈ extra, oneDay ≤ now - t) →
      (checkRateLimit host { store with ip := store.ip.set k (extra ++ store.ip.window k) }
          ip email now).1 = (checkRateLimit host store ip email now).1 ∧
      (checkRateLimit host { store with email := store.email.set k (extra ++ store.email.window k) }
          ip email now).1 = (checkRateLimit host store ip email now).1) := by
  refine ⟨?_, ?_, ?_⟩
  · intro other hi he
    rw [checkRateLimit_fst, checkRateLimit_fst]
    exact rateLimitPolicy_congr _ _ _ _ now hi he
  · intro ts hts hip hemail
    rw [checkRateLimit_fst, checkRateLimit_fst]
    apply rateLimitPolicy_congr
    · show (WindowMap.window (WindowMap.sweep store.ip ts) ip).filter _ = _
      rw [WindowMap.window_sweep _ ts hip, filter_day_of_earlier_sweep _ ts now hts]
    · show (WindowMap.window (WindowMap.sweep store.email ts) (normalizeEmail host email)).filter _ = _
      rw [WindowMap.window_sweep _ ts hemail, filter_day_of_earlier_sweep _ ts now hts]
  · intro k extra hextra
    constructor
    · rw [checkRateLimit_fst, checkRateLimit_fst]
      apply rateLimitPolicy_congr
      · show (WindowMap.window (WindowMap.set store.ip k _) ip).filter _ = _
        by_cases hk : ip = k
        · subst hk
          rw [WindowMap.window_set_same, filter_day_append_stale _ _ now hextra]
        · rw [WindowMap.window_set_other _ _ _ _ hk]
      · rfl
    · rw [checkRateLimit_fst, checkRateLimit_fst]
      apply rateLimitPolicy_congr
      · rfl
      · show (WindowMap.window (WindowMap.set store.email k _) (normalizeEmail host email)).filter _ = _
        by_cases hk : normalizeEmail host email = k
        · subst hk
          rw [WindowMap.window_set_same, filter_day_append_stale _ _ now hextra]
        · rw [WindowMap.window_set_other _ _ _ _ hk]

/-- C26, at `staleStore`: sweeping at `200000000` does not change the answer given at
`200000001`. -/
theorem checkRateLimit_ignores_stale_timestamps_witness :
    (checkRateLimit sampleHost (sweep staleStore 200000000) "198.51.100.4" "demo@x.io" 200000001).1
      = (checkRateLimit sampleHost staleStore "198.51.100.4" "demo@x.io" 200000001).1 :=
  (checkRateLimit_ignores_stale_timestamps sampleHost staleStore "198.51.100.4" "demo@x.io"
    200000001).2.1
    200000000 (by decide) (by decide) (by decide)

/-- C25, at `staleStore`: the stale IP window is deleted, the mixed windows keep
their recent timestamps in order. -/
theorem sweep_keeps_recent_timestamps_witness :
    (sweep staleStore 200000000).ip.window "198.51.100.4" = [150000000, 190000000] ∧
    (sweep staleStore 200000000).email.window "demo@x.io" = [199999999] ∧
    ¬ ((sweep staleStore 200000000).ip.get? "203.0.113.7").isSome = true :=
  ⟨((sweep_keeps_recent_timestamps staleStore 200000000 (by decide) (by decide)).1 _).trans
      (by decide),
    ((sweep_keeps_recent_timestamps staleStore 200000000 (by decide) (by decide)).2.1 _).trans
      (by decide),
    fun h =>
      absurd (((sweep_keeps_recent_timestamps staleStore 200000000 (by decide)
        (by decide)).2.2.1 "203.0.113.7").mp h) (by decide)⟩

/-! ## The sliding-window bound -/

theorem WindowMap.keys_after_set (m : WindowMap) (k : String) (v : List Int) :
    (WindowMap.set m k v).map Prod.fst
      = if k ∈ m.map Prod.fst then m.map Prod.fst else m.map Prod.fst ++ [k] := by
  induction m with
  | nil => simp [WindowMap.set]
  | cons e rest ih =>
    obtain ⟨k', v'⟩ := e
    unfold WindowMap.set
    by_cases hk : k' = k
    · subst hk
      simp
    · rw [if_neg hk, List.map_cons, ih]
      have hk2 : ¬ k = k' := fun h => hk h.symm
      by_cases hm : k ∈ rest.map Prod.fst
      · simp [hm]
      · simp [hm, hk2]

theorem WindowMap.set_keys_nodup (m : WindowMap) (k : String) (v : List Int)
    (h : (m.map Prod.fst).Nodup) : ((WindowMap.set m k v).map Prod.fst).Nodup := by
  rw [WindowMap.keys_after_set]
  split
  · exact h
  · rename_i hm
    rw [List.nodup_append]
    refine ⟨h, List.nodup_singleton _, ?_⟩
    intro a ha hb
    rw [List.mem_singleton] at hb
    subst hb
    exact hm ha

theorem ensureIp_keys_nodup (store : RateLimitStore) (ip : String)
    (h : (store.ip.map Prod.fst).Nodup) : ((store.ensureIp ip).ip.map Prod.fst).Nodup := by
  unfold RateLimitStore.ensureIp
  split
  · exact WindowMap.set_keys_nodup _ _ _ h
  · exact h

theorem ensureEmail_keys_nodup (store : RateLimitStore) (e : String)
    (h : (store.email.map Prod.fst).Nodup) :
    ((store.ensureEmail e).email.map Prod.fst).Nodup := by
  unfold RateLimitStore.ensureEmail
  split
  · exact WindowMap.set_keys_nodup _ _ _ h
  · exact h

theorem ensureIp_email_eq (store : RateLimitStore) (ip : String) :
    (store.ensureIp ip).email = store.email := by
  unfold RateLimitStore.ensureIp
  split <;> rfl

theorem ensureEmail_ip_eq (store : RateLimitStore) (e : String) :
    (store.ensureEmail e).ip = store.ip := by
  unfold RateLimitStore.ensureEmail
  split <;> rfl

/-- The keys of each side stay distinct under `checkRateLimit`. -/
theorem checkRateLimit_keys_nodup {host : Host} (store : RateLimitStore) (ip email : String) (now : Int)
    (hip : (store.ip.map Prod.fst).Nodup) (hemail : (store.email.map Prod.fst).Nodup) :
    ((checkRateLimit host store ip email now).2.ip.map Prod.fst).Nodup ∧
    ((checkRateLimit host store ip email now).2.email.map Prod.fst).Nodup := by
  have h1 := ensureIp_keys_nodup store ip hip
  have h2 : ((store.ensureIp ip).email.map Prod.fst).Nodup := by
    rw [ensureIp_email_eq]; exact hemail
  have h3 := ensureEmail_keys_nodup (store.ensureIp ip) (normalizeEmail host email) h2
  have h4 : (((store.ensureIp ip).ensureEmail (normalizeEmail host email)).ip.map Prod.fst).Nodup := by
    rw [ensureEmail_ip_eq]; exact h1
  unfold checkRateLimit
  simp only [ge_iff_le]
  split
  · exact ⟨h1, h2⟩
  · split
    · exact ⟨h1, h2⟩
    · split
      · exact ⟨h4, h3⟩
      · exact ⟨WindowMap.set_keys_nodup _ _ _ h4, WindowMap.set_keys_nodup _ _ _ h3⟩

theorem countWithin_push (w : List Int) (now lo hi : Int) :
    countWithin (w ++ [now]) lo hi
      = countWithin w lo hi + if lo < now ∧ now ≤ hi then 1 else 0 := by
  unfold countWithin
  rw [List.countP_append, List.countP_cons, List.countP_nil]
  simp

theorem countWithin_le_recentCount (w : List Int) (now t span : Int) (h : now ≤ t) :
    countWithin w (t - span) t ≤ recentCount w now span := by
  unfold countWithin recentCount
  apply List.countP_mono_left
  intro x _ hx
  simp only [decide_eq_true_eq] at hx ⊢
  omega

theorem countWithin_filter_le (w : List Int) (p : Int → Bool) (lo hi : Int) :
    countWithin (w.filter p) lo hi ≤ countWithin w lo hi :=
  List.Sublist.countP_le _ (List.filter_sublist w)

/-- Pushing `now` onto a window that holds fewer than `limit` recent timestamps
keeps the count in every interval of that span within `limit`. -/
theorem countWithin_push_le (w : List Int) (now t span : Int) (limit : Nat)
    (hold : countWithin w (t - span) t ≤ limit) (hnew : recentCount w now span < limit) :
    countWithin (w ++ [now]) (t - span) t ≤ limit := by
  rw [countWithin_push]
  split
  · rename_i hin
    have := countWithin_le_recentCount w now t span hin.2
    omega
  · omega

theorem rateLimitPolicy_notLimited (wi we : List Int) (now : Int)
    (h : rateLimitPolicy wi we now = RateLimitResult.notLimited) :
    recentCount wi now oneHour < 10 ∧ recentCount wi now oneDay < 50 ∧
      recentCount we now oneDay < 3 := by
  unfold rateLimitPolicy at h
  simp only [oneHour, oneDay]
  split at h
  · simp at h
  · split at h
    · simp at h
    · split at h
      · simp at h
      · omega

theorem withinLimits_empty : WithinLimits RateLimitStore.empty := by
  intro t k
  simp [RateLimitStore.empty, empty_window, countWithin]

theorem withinLimits_checkRateLimit {host : Host} (store : RateLimitStore) (ip email : String) (now : Int)
    (h : WithinLimits store) : WithinLimits (checkRateLimit host store ip email now).2 := by
  obtain ⟨hip, hem⟩ := checkRateLimit_snd_window store ip email now
  intro t k
  obtain ⟨h1, h2, h3⟩ := h t k
  rw [hip k, hem k]
  by_cases hr : (checkRateLimit host store ip email now).1 = RateLimitResult.notLimited
  · have hpol := hr
    rw [checkRateLimit_fst] at hpol
    obtain ⟨p1, p2, p3⟩ := rateLimitPolicy_notLimited _ _ _ hpol
    refine ⟨?_, ?_, ?_⟩
    · split
      · rename_i hk
        rw [hk.2] at h1 ⊢
        exact countWithin_push_le _ now t oneHour 10 h1 p1
      · exact h1
    · split
      · rename_i hk
        rw [hk.2] at h2 ⊢
        exact countWithin_push_le _ now t oneDay 50 h2 p2
      · exact h2
    · split
      · rename_i hk
        rw [hk.2] at h3 ⊢
        exact countWithin_push_le _ now t oneDay 3 h3 p3
      · exact h3
  · simp only [hr, false_and, if_false]
    exact ⟨h1, h2, h3⟩

theorem withinLimits_sweep (store : RateLimitStore) (now : Int)
    (hip : (store.ip.map Prod.fst).Nodup) (hemail : (store.email.map Prod.fst).Nodup)
    (h : WithinLimits store) : WithinLimits (sweep store now) := by
  intro t k
  obtain ⟨h1, h2, h3⟩ := h t k
  have e1 : (sweep store now).ip.window k = _ := WindowMap.window_sweep store.ip now hip k
  have e2 : (sweep store now).email.window k = _ := WindowMap.window_sweep store.email now hemail k
  rw [e1, e2]
  exact ⟨le_trans (countWithin_filter_le _ _ _ _) h1, le_trans (countWithin_filter_le _ _ _ _) h2,
    le_trans (countWithin_filter_le _ _ _ _) h3⟩

theorem runEvents_invariant {host : Host} (events : List LimiterEvent) :
    ∀ store : RateLimitStore, (store.ip.map Prod.fst).Nodup → (store.email.map Prod.fst).Nodup →
      WithinLimits store →
      ((runEvents host store events).ip.map Prod.fst).Nodup ∧
      ((runEvents host store events).email.map Prod.fst).Nodup ∧
      WithinLimits (runEvents host store events) := by
  induction events with
  | nil => intro store hip hemail h; exact ⟨hip, hemail, h⟩
  | cons e rest ih =>
    intro store hip hemail h
    cases e with
    | check ip email now =>
      obtain ⟨n1, n2⟩ := checkRateLimit_keys_nodup store ip email now hip hemail
      exact ih _ n1 n2 (withinLimits_checkRateLimit store ip email now h)
    | sweep now =>
      exact ih _ (WindowMap.sweep_keys_nodup _ now hip) (WindowMap.sweep_keys_nodup _ now hemail)
        (withinLimits_sweep store now hip hemail h)

/-- C27: sliding-window bound. In every rate-limit state reached from the empty
state by `checkRateLimit` calls interleaved with sweeps, at whatever times (in
particular at non-decreasing times), for every instant `t` each IP window holds
at most 10 timestamps in `(t - 1 hour, t]` and at most 50 in `(t - 24 hours, t]`,
and each email window holds at most 3 timestamps in `(t - 24 hours, t]`. -/
theorem sliding_window_bound (host : Host) (events : List LimiterEvent) (t : Int) (k : String) :
    countWithin ((runEvents host RateLimitStore.empty events).ip.window k) (t - oneHour) t ≤ 10 ∧
    countWithin ((runEvents host RateLimitStore.empty events).ip.window k) (t - oneDay) t ≤ 50 ∧
    countWithin ((runEvents host RateLimitStore.empty events).email.window k) (t - oneDay) t ≤ 3 :=
  (runEvents_invariant events RateLimitStore.empty List.nodup_nil List.nodup_nil
    withinLimits_empty).2.2 t k

/-! ## Duplicates and the rate limiter -/

theorem checkRateLimit_ip_window_length {host : Host} (store : RateLimitStore) (ip email : String)
    (now : Int) (k : String) :
    ((checkRateLimit host store ip email now).2.ip.window k).length
      ≤ (store.ip.window k).length + 1 := by
  rw [(checkRateLimit_snd_window store ip email now).1 k]
  split
  · simp
  · omega

/-- A valid, admitted submission whose email matches a recent record pushed last
onto the in-process array is answered 409; the persistence layer is untouched and
the call has been charged to both windows. -/
theorem post_step_duplicate (host : Host) (st : ServerState) (req : PostRequest)
    (hv : validateBody host req.body = [])
    (hip : (st.rateLimitStore.ip.window req.clientIp).length < 10)
    (hem : (st.rateLimitStore.email.window
      (normalizeEmail host (normalizeEmail host req.body.email.asString))).length < 3)
    (pre : List DemoRequest) (d : DemoRequest)
    (hmem : st.persistence.inMemoryDemoRequests = pre ++ [d]) (hid : d.requestId ≠ "")
    (hmatch : IsRecentMatch host (normalizeEmail host req.body.email.asString) req.duplicateNow d) :
    (postDemoRequest host st req).response.status = 409 ∧
    (postDemoRequest host st req).state.persistence = st.persistence ∧
    (∀ k, ((postDemoRequest host st req).state.rateLimitStore.ip.window k).length
      ≤ (st.rateLimitStore.ip.window k).length + 1) ∧
    (postDemoRequest host st req).state.rateLimitStore.email.window
        (normalizeEmail host (normalizeEmail host req.body.email.asString))
      = st.rateLimitStore.email.window
          (normalizeEmail host (normalizeEmail host req.body.email.asString)) ++ [req.rateLimitNow] := by
  have hadm : (checkRateLimit host st.rateLimitStore req.clientIp
      (normalizeEmail host req.body.email.asString) req.rateLimitNow).1
        = RateLimitResult.notLimited := by
    rw [checkRateLimit_fst]
    exact rateLimitPolicy_admits _ _ _ hip hem
  have hsome : ∃ dup, checkDuplicate host (fsReadFile st.persistence.file req.readFault)
      st.persistence.inMemoryDemoRequests (normalizeEmail host req.body.email.asString)
      req.duplicateNow = some dup := by
    cases hc : checkDuplicate host (fsReadFile st.persistence.file req.readFault)
      st.persistence.inMemoryDemoRequests (normalizeEmail host req.body.email.asString)
      req.duplicateNow with
    | some dup => exact ⟨dup, rfl⟩
    | none =>
      rw [checkDuplicate_eq_none_iff, hmem] at hc
      exact absurd hmatch (hc d (mem_readDemoRequests_of_pushed host _ pre d hid))
  obtain ⟨dup, hdup⟩ := hsome
  rw [postDemoRequest_duplicate host st req hv hadm dup hdup]
  refine ⟨rfl, rfl, fun k => checkRateLimit_ip_window_length _ _ _ _ k, ?_⟩
  show (checkRateLimit host st.rateLimitStore req.clientIp
      (normalizeEmail host req.body.email.asString) req.rateLimitNow).2.email.window _ = _
  rw [(checkRateLimit_snd_window _ _ _ _).2 _, if_pos ⟨hadm, rfl⟩]

/-- C28: a submission rejected as a duplicate has already been charged to the
rate limiter: its timestamp is in both the IP window and the email window of the
state it leaves, and the stages ran in the order validation, rate check,
duplicate check. Consequently, from an empty store and empty rate-limit state,
four valid submissions with the same normalized email, the fourth less than 24
hours after the others, receive 201, 409, 409 and 429 in that order (the host
reads back the first record's `createdAt`, which is less than 30 days old at the
second and third duplicate checks; no IP is limited, each having at most three
earlier calls). -/
theorem duplicate_is_charged_to_rate_limiter (host : Host) (r1 r2 r3 r4 : PostRequest)
    (hv1 : validateBody host r1.body = []) (hv2 : validateBody host r2.body = [])
    (hv3 : validateBody host r3.body = []) (hv4 : validateBody host r4.body = [])
    (he2 : normalizeEmail host r2.body.email.asString = normalizeEmail host r1.body.email.asString)
    (he3 : normalizeEmail host r3.body.email.asString = normalizeEmail host r1.body.email.asString)
    (he4 : normalizeEmail host r4.body.email.asString = normalizeEmail host r1.body.email.asString)
    (hdate : host.dateGetTime (host.toISOString r1.createdNow) = some r1.createdNow)
    (hd2 : r2.duplicateNow - r1.createdNow < thirtyDays)
    (hd3 : r3.duplicateNow - r1.createdNow < thirtyDays)
    (ht1 : r4.rateLimitNow - r1.rateLimitNow < oneDay)
    (ht2 : r4.rateLimitNow - r2.rateLimitNow < oneDay)
    (ht3 : r4.rateLimitNow - r3.rateLimitNow < oneDay) :
    (∀ (st : ServerState) (req : PostRequest),
      (postDemoRequest host st req).response.status = 409 →
        (postDemoRequest host st req).state.rateLimitStore.ip.window req.clientIp
          = st.rateLimitStore.ip.window req.clientIp ++ [req.rateLimitNow] ∧
        (postDemoRequest host st req).state.rateLimitStore.email.window
            (normalizeEmail host (normalizeEmail host req.body.email.asString))
          = st.rateLimitStore.email.window
              (normalizeEmail host (normalizeEmail host req.body.email.asString)) ++ [req.rateLimitNow] ∧
        (postDemoRequest host st req).state.persistence = st.persistence ∧
        (postDemoRequest host st req).stages
          = [Stage.validating, Stage.rateChecking, Stage.duplicateChecking]) ∧
    (runPostsResponses host emptyState [r1, r2, r3, r4]).map Response.status
      = [201, 409, 409, 429] := by
  constructor
  · intro st req h
    by_cases hv : validateBody host req.body = []
    · cases hl : (checkRateLimit host st.rateLimitStore req.clientIp
          (normalizeEmail host req.body.email.asString) req.rateLimitNow).1 with
      | limited ty lim retryAfter =>
        rw [postDemoRequest_limited host st req hv ty lim retryAfter hl] at h
        simp [Response.status] at h
      | notLimited =>
        cases hd : checkDuplicate host (fsReadFile st.persistence.file req.readFault)
            st.persistence.inMemoryDemoRequests (normalizeEmail host req.body.email.asString)
            req.duplicateNow with
        | none =>
          rw [postDemoRequest_created host st req hv hl hd] at h
          simp [Response.status] at h
        | some dup =>
          rw [postDemoRequest_duplicate host st req hv hl dup hd]
          refine ⟨?_, ?_, rfl, rfl⟩
          · show (checkRateLimit host st.rateLimitStore req.clientIp
              (normalizeEmail host req.body.email.asString) req.rateLimitNow).2.ip.window _ = _
            rw [(checkRateLimit_snd_window _ _ _ _).1 _, if_pos ⟨hl, rfl⟩]
          · show (checkRateLimit host st.rateLimitStore req.clientIp
              (normalizeEmail host req.body.email.asString) req.rateLimitNow).2.email.window _ = _
            rw [(checkRateLimit_snd_window _ _ _ _).2 _, if_pos ⟨hl, rfl⟩]
    · rw [postDemoRequest_invalid host st req hv] at h
      simp [Response.status] at h
  · -- the first submission is accepted
    have hc1 := postDemoRequest_created host emptyState r1 hv1
      (checkRateLimit_empty _ _ _) (checkDuplicate_empty host _ _ _)
    have hr1 : (postDemoRequest host emptyState r1).response.status = 201 := by
      rw [hc1]; rfl
    have hp1 : (postDemoRequest host emptyState r1).state.persistence.inMemoryDemoRequests
        = [] ++ [buildRequestData host r1] := by
      rw [hc1]
      exact writeDemoRequest_inMemory host _ _ _ _
    have hi1 : ∀ k, ((postDemoRequest host emptyState r1).state.rateLimitStore.ip.window
        k).length ≤ 1 := by
      intro k
      rw [hc1]
      exact checkRateLimit_ip_window_length RateLimitStore.empty _ _ _ k
    have hw1 : (postDemoRequest host emptyState r1).state.rateLimitStore.email.window
        (normalizeEmail host (normalizeEmail host r1.body.email.asString)) = [r1.rateLimitNow] := by
      rw [hc1]
      show (checkRateLimit host RateLimitStore.empty r1.clientIp
        (normalizeEmail host r1.body.email.asString) r1.rateLimitNow).2.email.window _ = _
      rw [(checkRateLimit_snd_window _ _ _ _).2 _, if_pos ⟨checkRateLimit_empty _ _ _, rfl⟩]
      rfl
    have hid : (buildRequestData host r1).requestId ≠ "" := generateRequestId_ne_empty _
    have hmatch : ∀ now : Int, now - r1.createdNow < thirtyDays →
        IsRecentMatch host (normalizeEmail host r1.body.email.asString) now
          (buildRequestData host r1) := by
      intro now hnow
      refine ⟨rfl, r1.createdNow, hdate, ?_⟩
      unfold thirtyDays at hnow
      omega
    generalize hS1 : (postDemoRequest host emptyState r1).state = S1 at hp1 hi1 hw1
    -- the second is a duplicate
    obtain ⟨hr2, hp2, hi2, hw2⟩ := post_step_duplicate host S1 r2 hv2
      (lt_of_le_of_lt (hi1 _) (by decide)) (by rw [he2, hw1]; simp) [] _ hp1 hid
      (by rw [he2]; exact hmatch _ hd2)
    rw [he2, hw1] at hw2
    generalize hS2 : (postDemoRequest host S1 r2).state = S2 at hp2 hi2 hw2
    -- the third is a duplicate
    obtain ⟨hr3, hp3, hi3, hw3⟩ := post_step_duplicate host S2 r3 hv3
      (lt_of_le_of_lt (le_trans (hi2 _) (Nat.succ_le_succ (hi1 _))) (by decide))
      (by rw [he3, hw2]; simp) [] _ (by rw [hp2]; exact hp1) hid
      (by rw [he3]; exact hmatch _ hd3)
    rw [he3, hw2] at hw3
    generalize hS3 : (postDemoRequest host S2 r3).state = S3 at hp3 hi3 hw3
    -- the fourth exceeds the email limit
    have hi4 : (S3.rateLimitStore.ip.window r4.clientIp).length ≤ 3 :=
      le_trans (hi3 _) (Nat.succ_le_succ (le_trans (hi2 _) (Nat.succ_le_succ (hi1 _))))
    have hl4 : (checkRateLimit host S3.rateLimitStore r4.clientIp
        (normalizeEmail host r4.body.email.asString) r4.rateLimitNow).1
          = RateLimitResult.limited "email" "day" 86400 := by
      rw [checkRateLimit_fst, he4, hw3]
      have h1 := recentCount_le_length (S3.rateLimitStore.ip.window r4.clientIp)
        r4.rateLimitNow (60 * 60 * 1000)
      have h2 := recentCount_le_length (S3.rateLimitStore.ip.window r4.clientIp)
        r4.rateLimitNow (24 * 60 * 60 * 1000)
      have h3 : recentCount ([r1.rateLimitNow] ++ [r2.rateLimitNow] ++ [r3.rateLimitNow])
          r4.rateLimitNow (24 * 60 * 60 * 1000) = 3 := by
        rw [recentCount_eq_length]
        · rfl
        · intro t ht
          unfold oneDay at ht1 ht2 ht3
          simp only [List.singleton_append, List.cons_append, List.nil_append, List.mem_cons,
            List.mem_singleton, List.not_mem_nil, or_false] at ht
          rcases ht with rfl | rfl | rfl <;> omega
      unfold rateLimitPolicy
      rw [if_neg (by omega), if_neg (by omega), if_pos (by omega)]
    have hr4 := postDemoRequest_limited host S3 r4 hv4 _ _ _ hl4
    simp only [runPostsResponses, List.map_cons, List.map_nil, hS1, hS2, hS3, hr1, hr2, hr3, hr4]
    rfl

set_option maxRecDepth 1000000 in
/-- C28, at `école@x.io` followed by three submissions of `École@x.io` one, two
and three hours later from other addresses. -/
theorem duplicate_is_charged_to_rate_limiter_witness :
    (runPostsResponses latinHost emptyState
      [accentedPost, accentedRetry 1 "198.51.100.4" "0a0a0a0a-1111-4222-8333-444444444444",
        accentedRetry 2 "198.51.100.5" "0b0b0b0b-1111-4222-8333-444444444444",
        accentedRetry 3 "198.51.100.6" "0c0c0c0c-1111-4222-8333-444444444444"]).map
        Response.status
      = [201, 409, 409, 429] :=
  (duplicate_is_charged_to_rate_limiter latinHost accentedPost
    (accentedRetry 1 "198.51.100.4" "0a0a0a0a-1111-4222-8333-444444444444")
    (accentedRetry 2 "198.51.100.5" "0b0b0b0b-1111-4222-8333-444444444444")
    (accentedRetry 3 "198.51.100.6" "0c0c0c0c-1111-4222-8333-444444444444")
    (by decide) (by decide) (by decide) (by decide) (by decide) (by decide) (by decide)
    (by decide) (by decide) (by decide) (by decide) (by decide) (by decide)).2

/-! ## Query parameters of the list endpoint -/

theorem getDemoRequests_status (host : Host) (st : ServerState) (page size : Option Int)
    (readFault : Option FsError) :
    (getDemoRequests host st page size readFault).status = 400 ∧
        (getDemoRequests host st page size readFault).code = "INVALID_PARAMETERS" ∨
      (getDemoRequests host st page size readFault).status = 200 := by
  unfold getDemoRequests
  dsimp only
  split
  · exact Or.inl ⟨rfl, rfl⟩
  · exact Or.inr rfl

theorem getDemoRequests_invalid_iff (host : Host) (st : ServerState) (page size : Int)
    (readFault : Option FsError) :
    getDemoRequests host st (some page) (some size) readFault = Response.invalidParameters
      ↔ page < 0 ∨ size < 0 ∨ 100 < size := by
  have hpv : (if page ≠ 0 then page else 0) = page := by
    split_ifs with h
    · rfl
    · omega
  have hcond : (decide (page < 0) || decide ((if size ≠ 0 then size else 20) < 1) ||
      decide ((if size ≠ 0 then size else 20) > 100)) = true
        ↔ page < 0 ∨ size < 0 ∨ 100 < size := by
    simp only [Bool.or_eq_true, decide_eq_true_eq]
    split_ifs with h <;> omega
  unfold getDemoRequests
  simp only [hpv]
  by_cases hc : (decide (page < 0) || decide ((if size ≠ 0 then size else 20) < 1) ||
      decide ((if size ≠ 0 then size else 20) > 100)) = true
  · rw [if_pos hc]
    exact ⟨fun _ => hcond.mp hc, fun _ => rfl⟩
  · rw [if_neg hc]
    constructor
    · intro h
      simp at h
    · intro h
      exact absurd (hcond.mpr h) hc

set_option maxRecDepth 1000000 in
/-- C22: the list endpoint answers `size=0` with 200 and the default page size 20,
not with 400: `parseInt("0") || 20` is 20, so the check `size < 1` never sees the
zero. A page below 0, a negative size and a size above 100 are answered 400
`INVALID_PARAMETERS`; every other integer pair, `size = 0` included, is
answered 200. -/
theorem size_zero_is_listed_with_default_size :
    getDemoRequestsQuery sampleHost emptyState none (some "0") none
      = Response.listed [] 0 20 0 0 ∧
    (getDemoRequestsQuery sampleHost emptyState none (some "0") none).status = 200 ∧
    getDemoRequestsQuery sampleHost emptyState none (some "101") none
      = Response.invalidParameters ∧
    getDemoRequestsQuery sampleHost emptyState none (some "-1") none
      = Response.invalidParameters ∧
    getDemoRequestsQuery sampleHost emptyState (some "-1") none none
      = Response.invalidParameters ∧
    (∀ (host : Host) (st : ServerState) (page size : Int) (readFault : Option FsError),
      ((getDemoRequests host st (some page) (some size) readFault).status = 400 ∧
          (getDemoRequests host st (some page) (some size) readFault).code
            = "INVALID_PARAMETERS"
        ↔ page < 0 ∨ size < 0 ∨ 100 < size) ∧
      ((getDemoRequests host st (some page) (some size) readFault).status = 200
        ↔ ¬ (page < 0 ∨ size < 0 ∨ 100 < size))) := by
  refine ⟨by decide, by decide, by decide, by decide, by decide, ?_⟩
  intro host st page size readFault
  have hiff := getDemoRequests_invalid_iff host st page size readFault
  rcases getDemoRequests_status host st (some page) (some size) readFault with ⟨h4, hc⟩ | h2
  · have hinv : getDemoRequests host st (some page) (some size) readFault
        = Response.invalidParameters := by
      cases hr : getDemoRequests host st (some page) (some size) readFault <;>
        rw [hr] at h4 hc <;> simp [Response.status, Response.code] at h4 hc ⊢
    have := hiff.mp hinv
    refine ⟨⟨fun _ => this, fun _ => ⟨h4, hc⟩⟩, ?_⟩
    rw [h4]
    simp [this]
  · have hne : getDemoRequests host st (some page) (some size) readFault
        ≠ Response.invalidParameters := by
      intro hr
      rw [hr] at h2
      simp [Response.status] at h2
    have hn : ¬ (page < 0 ∨ size < 0 ∨ 100 < size) := fun h => hne (hiff.mpr h)
    refine ⟨⟨fun h => ?_, fun h => absurd h hn⟩, ⟨fun _ => hn, fun _ => h2⟩⟩
    rw [h2] at h
    simp at h

/-! ## The list endpoint: order and pages -/

theorem orderedInsert_congr {α : Type} (r s : α → α → Prop) [DecidableRel r] [DecidableRel s]
    (a : α) (l : List α) (h : ∀ b ∈ l, r a b ↔ s a b) :
    List.orderedInsert r a l = List.orderedInsert s a l := by
  induction l with
  | nil => rfl
  | cons b l ih =>
    have hb := h b (List.mem_cons_self _ _)
    have ih2 := ih (fun c hc => h c (List.mem_cons_of_mem _ hc))
    simp only [List.orderedInsert]
    by_cases hr : r a b
    · rw [if_pos hr, if_pos (hb.mp hr)]
    · rw [if_neg hr, if_neg (fun hs => hr (hb.mpr hs)), ih2]

theorem insertionSort_congr {α : Type} (r s : α → α → Prop) [DecidableRel r] [DecidableRel s]
    (l : List α) (h : ∀ a ∈ l, ∀ b ∈ l, r a b ↔ s a b) :
    List.insertionSort r l = List.insertionSort s l := by
  induction l with
  | nil => rfl
  | cons a l ih =>
    have ih2 := ih (fun x hx y hy => h x (List.mem_cons_of_mem _ hx) y (List.mem_cons_of_mem _ hy))
    simp only [List.insertionSort]
    rw [ih2]
    apply orderedInsert_congr
    intro b hb
    have hb2 : b ∈ l := (List.perm_insertionSort s l).subset hb
    exact h a (List.mem_cons_self _ _) b (List.mem_cons_of_mem _ hb2)

theorem compareCreatedAt_le_iff (host : Host) (a b : DemoRequest) (ta tb : Int)
    (ha : host.dateGetTime a.createdAt = some ta) (hb : host.dateGetTime b.createdAt = some tb) :
    compareCreatedAt host a b ≤ 0 ↔ tb ≤ ta := by
  unfold compareCreatedAt
  rw [ha, hb]
  simp

/-- Where every `createdAt` parses, the sorted list is a permutation in which no
record is created later than a record before it. -/
theorem sortNewestFirst_sorted (host : Host) (l : List DemoRequest)
    (hparse : ∀ r ∈ l, ∃ t, host.dateGetTime r.createdAt = some t) :
    (sortNewestFirst host l).Perm l ∧
    (sortNewestFirst host l).Pairwise (fun a b =>
      ∃ ta tb, host.dateGetTime a.createdAt = some ta ∧
        host.dateGetTime b.createdAt = some tb ∧ tb ≤ ta) := by
  refine ⟨List.perm_insertionSort _ l, ?_⟩
  let key : DemoRequest → Int := fun r => (host.dateGetTime r.createdAt).getD 0
  have hcongr : sortNewestFirst host l = l.insertionSort (fun a b => key b ≤ key a) := by
    unfold sortNewestFirst
    apply insertionSort_congr
    intro a ha b hb
    obtain ⟨ta, hta⟩ := hparse a ha
    obtain ⟨tb, htb⟩ := hparse b hb
    rw [compareCreatedAt_le_iff host a b ta tb hta htb]
    simp only [key, hta, htb, Option.getD_some]
  have htotal : IsTotal DemoRequest (fun a b => key b ≤ key a) :=
    ⟨fun a b => le_total (key b) (key a)⟩
  have htrans : IsTrans DemoRequest (fun a b => key b ≤ key a) :=
    ⟨fun a b c hab hbc => le_trans hbc hab⟩
  have hsorted : (l.insertionSort (fun a b => key b ≤ key a)).Sorted
      (fun a b => key b ≤ key a) := List.sorted_insertionSort _ l
  rw [hcongr]
  refine List.Pairwise.imp_of_mem ?_ hsorted
  intro a b ha hb hab
  obtain ⟨ta, hta⟩ := hparse a ((List.perm_insertionSort _ l).subset ha)
  obtain ⟨tb, htb⟩ := hparse b ((List.perm_insertionSort _ l).subset hb)
  refine ⟨ta, tb, hta, htb, ?_⟩
  simpa only [key, hta, htb, Option.getD_some] using hab

theorem ceil_div_spec (total size : Nat) (hs : 0 < size) :
    total ≤ (total + size - 1) / size * size ∧
    ∀ n, total ≤ n * size → (total + size - 1) / size ≤ n := by
  have h1 : (total + size - 1) / size * size ≤ total + size - 1 := Nat.div_mul_le_self _ _
  have h2 : total + size - 1 < (total + size - 1) / size * size + size :=
    Nat.lt_div_mul_add hs
  constructor
  · omega
  · intro n hn
    have h3 : (total + size - 1) / size * size < (n + 1) * size := by
      rw [Nat.add_mul, Nat.one_mul]
      omega
    have := Nat.lt_of_mul_lt_mul_right h3
    omega

theorem getElem?_page {α : Type} (l : List α) (start size i : Nat) :
    ((l.drop start).take size)[i]? = if i < size then l[start + i]? else none := by
  rw [List.getElem?_take]
  split
  · rw [List.getElem?_drop]
  · rfl

/-- C23: for every page at least 0 and size in [1,100], where every `createdAt`
of the merged list parses, the list endpoint returns the elements at positions
`[page*size, page*size+size)` of the records ordered by `createdAt` descending (a
permutation of the result of `readDemoRequests` in which no record is created
later than one before it), with `currentPage = page`, `pageSize = size`,
`totalElements` the number of merged records and `totalPages` the least integer
not below `totalElements / size`. -/
theorem list_returns_page_of_newest_first (host : Host) (st : ServerState)
    (page size : Int) (readFault : Option FsError)
    (hp : 0 ≤ page) (h1 : 1 ≤ size) (h2 : size ≤ 100)
    (hparse : ∀ r ∈ readDemoRequests host (fsReadFile st.persistence.file readFault)
        st.persistence.inMemoryDemoRequests, ∃ t, host.dateGetTime r.createdAt = some t) :
    ∃ (requesters : List DemoRequest) (totalPages : Nat),
      getDemoRequests host st (some page) (some size) readFault
        = Response.listed requesters page size
            (readDemoRequests host (fsReadFile st.persistence.file readFault)
              st.persistence.inMemoryDemoRequests).length totalPages ∧
      (sortNewestFirst host (readDemoRequests host (fsReadFile st.persistence.file readFault)
          st.persistence.inMemoryDemoRequests)).Perm
        (readDemoRequests host (fsReadFile st.persistence.file readFault)
          st.persistence.inMemoryDemoRequests) ∧
      (sortNewestFirst host (readDemoRequests host (fsReadFile st.persistence.file readFault)
          st.persistence.inMemoryDemoRequests)).Pairwise (fun a b =>
        ∃ ta tb, host.dateGetTime a.createdAt = some ta ∧
          host.dateGetTime b.createdAt = some tb ∧ tb ≤ ta) ∧
      (∀ i : Nat, requesters[i]? =
        if i < size.toNat then
          (sortNewestFirst host (readDemoRequests host (fsReadFile st.persistence.file readFault)
            st.persistence.inMemoryDemoRequests))[page.toNat * size.toNat + i]?
        else none) ∧
      (readDemoRequests host (fsReadFile st.persistence.file readFault)
          st.persistence.inMemoryDemoRequests).length ≤ totalPages * size.toNat ∧
      (∀ n : Nat, (readDemoRequests host (fsReadFile st.persistence.file readFault)
          st.persistence.inMemoryDemoRequests).length ≤ n * size.toNat → totalPages ≤ n) := by
  obtain ⟨hperm, hsorted⟩ := sortNewestFirst_sorted host _ hparse
  have hlen := hperm.length_eq
  have hs : 0 < size.toNat := by omega
  have hmul : (page * size).toNat = page.toNat * size.toNat := by
    obtain ⟨p, rfl⟩ := Int.eq_ofNat_of_zero_le hp
    obtain ⟨s, rfl⟩ := Int.eq_ofNat_of_zero_le (by omega : 0 ≤ size)
    have hc : ((p : Int) * (s : Int)) = ((p * s : Nat) : Int) := by push_cast; rfl
    rw [hc, Int.toNat_ofNat, Int.toNat_ofNat, Int.toNat_ofNat]
  refine ⟨((sortNewestFirst host (readDemoRequests host
      (fsReadFile st.persistence.file readFault)
      st.persistence.inMemoryDemoRequests)).drop (page * size).toNat).take size.toNat,
    ((readDemoRequests host (fsReadFile st.persistence.file readFault)
      st.persistence.inMemoryDemoRequests).length + size.toNat - 1) / size.toNat,
    ?_, hperm, hsorted, ?_, ?_, ?_⟩
  · rw [getDemoRequests_valid host st page size readFault hp h1 h2, hlen]
  · intro i
    rw [hmul]
    exact getElem?_page _ _ _ i
  · exact (ceil_div_spec _ _ hs).1
  · exact (ceil_div_spec _ _ hs).2

set_option maxRecDepth 1000000 in
/-- C23, at page 1 of size 1 over two records: the older record is returned. -/
theorem list_returns_page_of_newest_first_witness :
    ∃ (requesters : List DemoRequest) (totalPages : Nat),
      getDemoRequests sampleHost listedState (some 1) (some 1) none
        = Response.listed requesters 1 1 2 totalPages ∧
      requesters[0]? = some sampleRecordA ∧ totalPages ≤ 2 := by
  have hmerged : readDemoRequests sampleHost (fsReadFile listedState.persistence.file none)
      listedState.persistence.inMemoryDemoRequests = [sampleRecordA, sampleRecordB] := by decide
  obtain ⟨requesters, totalPages, heq, -, -, hpos, -, hmin⟩ :=
    list_returns_page_of_newest_first sampleHost listedState 1 1 none (by decide) (by decide)
      (by decide) (by
        rw [hmerged]
        intro r hr
        simp only [List.mem_cons, List.mem_singleton, List.not_mem_nil, or_false] at hr
        rcases hr with rfl | rfl
        · exact ⟨1700000000000, by decide⟩
        · exact ⟨1700000060000, by decide⟩)
  rw [hmerged] at heq hpos hmin
  exact ⟨requesters, totalPages, heq, (hpos 0).trans (by decide), hmin 2 (by decide)⟩

theorem flatMap_pages {α : Type} (l : List α) (s n : Nat) :
    (List.range n).flatMap (fun p => (l.drop (p * s)).take s) = l.take (n * s) := by
  induction n with
  | zero => simp
  | succ n ih =>
    rw [List.range_succ, List.flatMap_append, ih, Nat.succ_mul, List.take_add]
    simp

theorem listedPage_eq (host : Host) (st : ServerState) (size : Int)
    (readFault : Option FsError) (h1 : 1 ≤ size) (h2 : size ≤ 100) (page : Nat) :
    listedPage host st size readFault page
      = ((sortNewestFirst host (readDemoRequests host (fsReadFile st.persistence.file readFault)
          st.persistence.inMemoryDemoRequests)).drop (page * size.toNat)).take size.toNat := by
  unfold listedPage
  rw [getDemoRequests_valid host st page size readFault (Int.ofNat_nonneg _) h1 h2]
  obtain ⟨s, rfl⟩ := Int.eq_ofNat_of_zero_le (by omega : 0 ≤ size)
  have hc : ((page : Int) * (s : Int)) = ((page * s : Nat) : Int) := by push_cast; rfl
  simp only [hc, Int.toNat_ofNat]

theorem listedTotalPages_eq (host : Host) (st : ServerState) (size : Int)
    (readFault : Option FsError) (h1 : 1 ≤ size) (h2 : size ≤ 100) :
    listedTotalPages host st size readFault
      = ((sortNewestFirst host (readDemoRequests host (fsReadFile st.persistence.file readFault)
          st.persistence.inMemoryDemoRequests)).length + size.toNat - 1) / size.toNat := by
  unfold listedTotalPages
  rw [getDemoRequests_valid host st 0 size readFault (le_refl _) h1 h2]

theorem sortNewestFirst_nodup (host : Host) (readResult : Except FsError String)
    (mem : List DemoRequest) :
    (sortNewestFirst host (readDemoRequests host readResult mem)).Nodup :=
  (List.perm_insertionSort _ _).nodup_iff.mpr
    (List.Nodup.of_map _ (readDemoRequests_ids_nodup host readResult mem))

/-- C29: the pages partition the listing. For every size in [1,100],
concatenating the slices answered for pages 0, 1, ..., totalPages-1 yields the
whole list sorted by `createdAt` descending, each record is on exactly one page,
every page before the last holds exactly `size` records, and every page index
from `totalPages` on yields an empty slice. -/
theorem pages_partition_listing (host : Host) (st : ServerState) (size : Int)
    (readFault : Option FsError) (h1 : 1 ≤ size) (h2 : size ≤ 100) :
    (List.range (listedTotalPages host st size readFault)).flatMap
        (listedPage host st size readFault)
      = sortNewestFirst host (readDemoRequests host (fsReadFile st.persistence.file readFault)
          st.persistence.inMemoryDemoRequests) ∧
    (∀ r ∈ readDemoRequests host (fsReadFile st.persistence.file readFault)
        st.persistence.inMemoryDemoRequests,
      ∃ page, r ∈ listedPage host st size readFault page ∧
        ∀ other, r ∈ listedPage host st size readFault other → other = page) ∧
    (∀ page, (listedPage host st size readFault page).Nodup) ∧
    (∀ page, page + 1 < listedTotalPages host st size readFault →
      (listedPage host st size readFault page).length = size.toNat) ∧
    (∀ page, listedTotalPages host st size readFault ≤ page →
      listedPage host st size readFault page = []) := by
  have hs : 0 < size.toNat := by omega
  have hfun : listedPage host st size readFault
      = fun p => ((sortNewestFirst host (readDemoRequests host
          (fsReadFile st.persistence.file readFault)
          st.persistence.inMemoryDemoRequests)).drop (p * size.toNat)).take size.toNat :=
    funext (listedPage_eq host st size readFault h1 h2)
  have htp := listedTotalPages_eq host st size readFault h1 h2
  have hnd := sortNewestFirst_nodup host (fsReadFile st.persistence.file readFault)
    st.persistence.inMemoryDemoRequests
  have hperm : (sortNewestFirst host (readDemoRequests host
      (fsReadFile st.persistence.file readFault) st.persistence.inMemoryDemoRequests)).Perm _ :=
    List.perm_insertionSort _ _
  generalize sortNewestFirst host (readDemoRequests host
      (fsReadFile st.persistence.file readFault) st.persistence.inMemoryDemoRequests) = sorted
    at hfun htp hnd hperm
  generalize listedTotalPages host st size readFault = tp at htp
  obtain ⟨hceil, hleast⟩ := ceil_div_spec sorted.length size.toNat hs
  rw [← htp] at hceil hleast
  have hempty : ∀ page, tp ≤ page → (sorted.drop (page * size.toNat)).take size.toNat = [] := by
    intro page hpage
    have : sorted.length ≤ page * size.toNat :=
      le_trans hceil (Nat.mul_le_mul_right _ hpage)
    rw [List.drop_eq_nil_of_le this, List.take_nil]
  have hcat : (List.range tp).flatMap
      (fun p => (sorted.drop (p * size.toNat)).take size.toNat) = sorted := by
    rw [flatMap_pages, List.take_of_length_le hceil]
  have hdisj := (List.nodup_flatMap.mp (hcat ▸ hnd)).2
  rw [hfun]
  refine ⟨hcat, ?_, ?_, ?_, hempty⟩
  · intro r hr
    have hrs : r ∈ sorted := hperm.symm.subset hr
    obtain ⟨page, hpage⟩ := mem_some_page sorted r hrs size.toNat hs
    refine ⟨page, hpage, ?_⟩
    intro other hother
    by_contra hne
    have hlt : ∀ q, r ∈ (sorted.drop (q * size.toNat)).take size.toNat → q < tp := by
      intro q hq
      by_contra hq2
      rw [hempty q (by omega)] at hq
      exact List.not_mem_nil _ hq
    have hp1 := hlt page hpage
    have hp2 := hlt other hother
    rcases Nat.lt_or_gt_of_ne hne with h | h
    · have := List.pairwise_iff_getElem.mp hdisj other page (by simpa using hp2)
        (by simpa using hp1) h
      simp only [List.getElem_range, Function.onFun] at this
      exact this hother hpage
    · have := List.pairwise_iff_getElem.mp hdisj page other (by simpa using hp1)
        (by simpa using hp2) h
      simp only [List.getElem_range, Function.onFun] at this
      exact this hpage hother
  · intro page
    exact List.Nodup.sublist ((List.take_sublist _ _).trans (List.drop_sublist _ _)) hnd
  · intro page hpage
    have hfull : (page + 1) * size.toNat ≤ sorted.length := by
      by_contra hc
      have := hleast (page + 1) (by omega)
      omega
    rw [List.length_take, List.length_drop]
    rw [Nat.add_mul, Nat.one_mul] at hfull
    omega

set_option maxRecDepth 1000000 in
/-- C29, at two records listed with size 1: two pages, the newer record first. -/
theorem pages_partition_listing_witness :
    (List.range (listedTotalPages sampleHost listedState 1 none)).flatMap
        (listedPage sampleHost listedState 1 none) = [sampleRecordB, sampleRecordA] ∧
    listedTotalPages sampleHost listedState 1 none = 2 ∧
    listedPage sampleHost listedState 1 none 2 = [] :=
  ⟨(pages_partition_listing sampleHost listedState 1 none (by decide) (by decide)).1.trans
      (by decide),
    by decide,
    (pages_partition_listing sampleHost listedState 1 none (by decide) (by decide)).2.2.2.2 2
      (by decide)⟩

/-! ## Listing round trip -/

theorem normalizeEmail_idem_of_valid {host : Host} (htrim : LowerCaseCommutesWithTrim host)
    (hidem : LowerCaseIdempotent host) (v : JsValue) (h : validateEmail v = true) :
    normalizeEmail host (normalizeEmail host v.asString) = normalizeEmail host v.asString := by
  obtain ⟨e, rfl⟩ := validateEmail_is_string v h
  obtain ⟨ht, hn⟩ := normalizeEmail_of_valid htrim e h
  show normalizeEmail host (normalizeEmail host e) = normalizeEmail host e
  rw [hn]
  unfold normalizeEmail
  split
  · rw [jsToLowerCase_idem hidem, jsTrim_jsToLowerCase htrim, ht]
  · rename_i hx
    exact (not_not.mp hx).symm

theorem mem_readDemoRequests_sub (host : Host) (readResult : Except FsError String)
    (mem : List DemoRequest) (x : DemoRequest) (h : x ∈ readDemoRequests host readResult mem) :
    x ∈ fileRequests host readResult ++ mem :=
  (lastWithId_some _ _ _ ((mem_readDemoRequests_iff host readResult mem x).mp h).2).1

theorem fileRequests_fault_subset (host : Host) (file : Option String)
    (fault : Option FsError) (x : DemoRequest)
    (h : x ∈ fileRequests host (fsReadFile file fault)) :
    x ∈ fileRequests host (fsReadFile file none) := by
  cases fault with
  | none => exact h
  | some e => exact absurd h (List.not_mem_nil x)

/-- Valid submissions with pairwise distinct normalized emails that the rate
limiter admits are all accepted; the in-process array then holds their records
in order and the log holds no other record. -/
theorem runPosts_accepts (host : Host) (htrim : LowerCaseCommutesWithTrim host)
    (hidem : LowerCaseIdempotent host) :
    ∀ (posts done : List PostRequest) (st : ServerState),
      st.persistence.inMemoryDemoRequests = done.map (buildRequestData host) →
      LogEndsCleanly st.persistence.file →
      (∀ x ∈ fileRequests host (fsReadFile st.persistence.file none),
        x ∈ done.map (buildRequestData host)) →
      (∀ p ∈ done ++ posts, validateBody host p.body = []) →
      ((done ++ posts).map (fun p => normalizeEmail host p.body.email.asString)).Nodup →
      (∀ r ∈ runPostsResponses host st posts, r.status ≠ 429) →
      (∀ p ∈ posts,
        host.jsonParse (host.jsonStringify (buildRequestData host p))
          = some (buildRequestData host p) ∧
        '\n' ∉ (host.jsonStringify (buildRequestData host p)).data ∧
        isRecordLine (host.jsonStringify (buildRequestData host p)) = true) →
      (∀ r ∈ runPostsResponses host st posts, r.status = 201) ∧
      (runPosts host st posts).persistence.inMemoryDemoRequests
        = (done ++ posts).map (buildRequestData host) ∧
      (∀ x ∈ fileRequests host (fsReadFile (runPosts host st posts).persistence.file none),
        x ∈ (done ++ posts).map (buildRequestData host)) := by
  intro posts
  induction posts with
  | nil =>
    intro done st hmem _ hfile _ _ _ _
    simp only [List.append_nil]
    exact ⟨fun r hr => absurd hr (List.not_mem_nil r), hmem, hfile⟩
  | cons q rest ih =>
    intro done st hmem hlog hfile hvalid hemails hpass hjson
    have hvq : validateBody host q.body = [] := hvalid q (by simp)
    obtain ⟨hround, hline, hrec⟩ := hjson q (List.mem_cons_self _ _)
    have hcreated : postDemoRequest host st q
        = ⟨Response.created (generateRequestId q.uuid)
              (normalizeEmail host q.body.email.asString) (normalizeUserType host q.body.userType)
              "pending" (host.toISOString q.createdNow),
            { rateLimitStore := (checkRateLimit host st.rateLimitStore q.clientIp
                (normalizeEmail host q.body.email.asString) q.rateLimitNow).2
              persistence := writeDemoRequest host st.persistence q.appendFault q.writeFault
                (buildRequestData host q) },
            [Stage.validating, Stage.rateChecking, Stage.duplicateChecking,
              Stage.persisting]⟩ := by
      rcases postDemoRequest_cases host st q with
        ⟨h1, _⟩ | ⟨_, _, _, retryAfter, _, h⟩ | ⟨_, dup, hdup, _⟩ | ⟨_, h⟩
      · exact absurd hvq h1
      · exfalso
        apply hpass (postDemoRequest host st q).response (List.mem_cons_self _ _)
        rw [h]; rfl
      · exfalso
        obtain ⟨hmatch, pre, post, hsplit, _⟩ := (checkDuplicate_eq_some_iff _ _ _ _ _ _).mp hdup
        have hin : dup ∈ readDemoRequests host (fsReadFile st.persistence.file q.readFault)
            st.persistence.inMemoryDemoRequests := by
          rw [hsplit]; simp
        have hdone : dup ∈ done.map (buildRequestData host) := by
          rcases List.mem_append.mp (mem_readDemoRequests_sub _ _ _ _ hin) with h | h
          · exact hfile dup (fileRequests_fault_subset host _ _ dup h)
          · rw [hmem] at h; exact h
        obtain ⟨p, hp, hpd⟩ := List.mem_map.mp hdone
        have hvp : validateBody host p.body = [] := hvalid p (List.mem_append_left _ hp)
        have e1 := normalizeEmail_idem_of_valid htrim hidem _ (validateBody_eq_nil _ hvp).1
        have e2 := normalizeEmail_idem_of_valid htrim hidem _ (validateBody_eq_nil _ hvq).1
        have hm := hmatch.1
        rw [← hpd] at hm
        have hm2 : normalizeEmail host (normalizeEmail host p.body.email.asString)
            = normalizeEmail host (normalizeEmail host q.body.email.asString) := hm
        rw [e1, e2] at hm2
        rw [List.map_append] at hemails
        have hdisj := List.disjoint_of_nodup_append hemails
        exact hdisj (List.mem_map.mpr ⟨p, hp, rfl⟩)
          (List.mem_map.mpr ⟨q, List.mem_cons_self _ _, hm2.symm⟩)
      · exact h
    obtain ⟨hlog2, hsub⟩ := writeDemoRequest_log host st.persistence q.appendFault q.writeFault
      (buildRequestData host q) hround hline hrec hlog
    have hstate : (postDemoRequest host st q).state.persistence
        = writeDemoRequest host st.persistence q.appendFault q.writeFault
            (buildRequestData host q) := by rw [hcreated]
    have happ : done ++ q :: rest = (done ++ [q]) ++ rest := by simp
    have hstep := ih (done ++ [q]) (postDemoRequest host st q).state
      (by rw [hstate, writeDemoRequest_inMemory, hmem]; simp)
      (by rw [hstate]; exact hlog2)
      (by
        rw [hstate]
        intro x hx
        rcases hsub x hx with h | h
        · rw [List.map_append]; exact List.mem_append_left _ (hfile x h)
        · rw [h]; simp)
      (by rw [← happ]; exact hvalid)
      (by rw [← happ]; exact hemails)
      (fun r hr => hpass r (List.mem_cons_of_mem _ hr))
      (fun p hp => hjson p (List.mem_cons_of_mem _ hp))
    rw [← happ] at hstep
    refine ⟨?_, hstep.2.1, hstep.2.2⟩
    intro r hr
    rcases List.mem_cons.mp hr with h | h
    · rw [h, hcreated]; rfl
    · exact hstep.1 r h

/-- C24, amended: listing round trip. From an empty store and empty rate-limit
state, for every N with 1 ≤ N ≤ 100 and every sequence of N valid submissions
with pairwise distinct normalized emails and pairwise distinct generated
requestIds that the rate limiter admits (the records written as JSON lines that
parse back, each `createdAt` read back as the time it was written from, and
`toLowerCase` idempotent and leaving white space where it is), all
are answered 201 and a following GET with page 0 and size N returns exactly the N
accepted records, ordered by `createdAt` descending, with `totalElements = N` and
`totalPages = 1`. -/
theorem listing_round_trip (host : Host) (htrim : LowerCaseCommutesWithTrim host)
    (hidem : LowerCaseIdempotent host) (posts : List PostRequest)
    (readFault : Option FsError)
    (hN1 : 1 ≤ posts.length) (hN2 : posts.length ≤ 100)
    (hvalid : ∀ p ∈ posts, validateBody host p.body = [])
    (hemails : (posts.map (fun p => normalizeEmail host p.body.email.asString)).Nodup)
    (hids : (posts.map (fun p => generateRequestId p.uuid)).Nodup)
    (hpass : ∀ r ∈ runPostsResponses host emptyState posts, r.status ≠ 429)
    (hjson : ∀ p ∈ posts,
      host.jsonParse (host.jsonStringify (buildRequestData host p))
        = some (buildRequestData host p) ∧
      '\n' ∉ (host.jsonStringify (buildRequestData host p)).data ∧
      isRecordLine (host.jsonStringify (buildRequestData host p)) = true)
    (hdate : ∀ p ∈ posts, host.dateGetTime (host.toISOString p.createdNow) = some p.createdNow) :
    (∀ r ∈ runPostsResponses host emptyState posts, r.status = 201) ∧
    ∃ requesters : List DemoRequest,
      getDemoRequests host (runPosts host emptyState posts) (some 0)
          (some (posts.length : Int)) readFault
        = Response.listed requesters 0 posts.length posts.length 1 ∧
      requesters.Perm (posts.map (buildRequestData host)) ∧
      requesters.Pairwise (fun a b =>
        ∃ ta tb, host.dateGetTime a.createdAt = some ta ∧
          host.dateGetTime b.createdAt = some tb ∧ tb ≤ ta) := by
  obtain ⟨hall, hmem, hfile⟩ := runPosts_accepts host htrim hidem posts [] emptyState rfl
    (Or.inl rfl)
    (fun x hx => absurd hx (List.not_mem_nil x)) hvalid hemails hpass hjson
  simp only [List.nil_append] at hmem hfile
  refine ⟨hall, ?_⟩
  generalize runPosts host emptyState posts = final at hmem hfile
  -- the records built have pairwise distinct requestIds
  have hbuilt_ids : ((posts.map (buildRequestData host)).map (fun r => r.requestId)).Nodup := by
    rw [List.map_map]
    exact hids
  have hbuilt_nodup : (posts.map (buildRequestData host)).Nodup := List.Nodup.of_map _ hbuilt_ids
  have huniq : ∀ a ∈ posts.map (buildRequestData host), ∀ b ∈ posts.map (buildRequestData host),
      a.requestId = b.requestId → a = b :=
    fun a ha b hb hab => List.inj_on_of_nodup_map hbuilt_ids ha hb hab
  have hsub : ∀ x ∈ fileRequests host (fsReadFile final.persistence.file readFault)
      ++ final.persistence.inMemoryDemoRequests, x ∈ posts.map (buildRequestData host) := by
    intro x hx
    rcases List.mem_append.mp hx with h | h
    · exact hfile x (fileRequests_fault_subset host _ _ x h)
    · rw [hmem] at h; exact h
  -- the merged view is a permutation of the records built
  have hperm : (readDemoRequests host (fsReadFile final.persistence.file readFault)
      final.persistence.inMemoryDemoRequests).Perm (posts.map (buildRequestData host)) := by
    rw [List.perm_ext_iff_of_nodup
      (List.Nodup.of_map _ (readDemoRequests_ids_nodup host _ _)) hbuilt_nodup]
    intro x
    constructor
    · intro hx
      exact hsub x (mem_readDemoRequests_sub _ _ _ _ hx)
    · intro hx
      rw [mem_readDemoRequests_iff]
      obtain ⟨p, _, hp⟩ := List.mem_map.mp hx
      have hid : x.requestId ≠ "" := by
        rw [← hp]; exact generateRequestId_ne_empty _
      refine ⟨hid, ?_⟩
      have hxm : x ∈ fileRequests host (fsReadFile final.persistence.file readFault)
          ++ final.persistence.inMemoryDemoRequests := by
        rw [hmem]; exact List.mem_append_right _ hx
      obtain ⟨y, hy⟩ := lastWithId_isSome _ x.requestId (List.mem_map.mpr ⟨x, hxm, rfl⟩)
      obtain ⟨hy1, hy2⟩ := lastWithId_some _ _ _ hy
      rw [hy, huniq y (hsub y hy1) x hx hy2]
  have hparse : ∀ r ∈ readDemoRequests host (fsReadFile final.persistence.file readFault)
      final.persistence.inMemoryDemoRequests, ∃ t, host.dateGetTime r.createdAt = some t := by
    intro r hr
    obtain ⟨p, hp, hpr⟩ := List.mem_map.mp (hperm.subset hr)
    exact ⟨p.createdNow, by rw [← hpr]; exact hdate p hp⟩
  obtain ⟨hsperm, hsorted⟩ := sortNewestFirst_sorted host _ hparse
  have hlen : (sortNewestFirst host (readDemoRequests host
      (fsReadFile final.persistence.file readFault)
      final.persistence.inMemoryDemoRequests)).length = posts.length := by
    rw [hsperm.length_eq, hperm.length_eq, List.length_map]
  refine ⟨sortNewestFirst host (readDemoRequests host
      (fsReadFile final.persistence.file readFault) final.persistence.inMemoryDemoRequests),
    ?_, hsperm.trans hperm, hsorted⟩
  rw [getDemoRequests_valid host final 0 posts.length readFault (le_refl _)
    (by exact_mod_cast hN1) (by exact_mod_cast hN2), hlen]
  have hdiv : (posts.length + posts.length - 1) / posts.length = 1 := by
    obtain ⟨c1, c2⟩ := ceil_div_spec posts.length posts.length (by omega)
    have hle := c2 1 (by simp)
    have hpos : (posts.length + posts.length - 1) / posts.length ≠ 0 := by
      intro h0
      rw [h0, Nat.zero_mul] at c1
      omega
    exact Nat.le_antisymm hle (Nat.pos_of_ne_zero hpos)
  simp only [zero_mul, Int.toNat_zero, List.drop_zero, Int.toNat_ofNat, hdiv]
  rw [List.take_of_length_le (le_of_eq hlen)]

set_option maxRecDepth 1000000 in
/-- C24 amended, at two accepted submissions on a writable file system: both
records are listed, the newer first. -/
theorem listing_round_trip_witness :
    ∃ requesters : List DemoRequest,
      getDemoRequests sampleHost (runPosts sampleHost emptyState [durablePost, secondDurablePost])
          (some 0) (some 2) none
        = Response.listed requesters 0 2 2 1 ∧
      requesters.Perm [buildRequestData sampleHost durablePost,
        buildRequestData sampleHost secondDurablePost] :=
  match (listing_round_trip sampleHost sampleHost_commutesWithTrim sampleHost_idempotent
    [durablePost, secondDurablePost] none (by decide)
    (by decide) (by decide) (by decide) (by decide) (by decide) (by decide) (by decide)).2 with
  | ⟨requesters, h1, h2, _⟩ => ⟨requesters, h1, h2⟩

set_option maxRecDepth 1000000 in
/-- C24 as stated fails: `samplePost` and `collidingPost` are valid, have different
normalized emails and are both admitted and answered 201, but the UUIDs generated
for them share their first twelve hexadecimal digits, and the following GET with
page 0 and size 2 lists one record with `totalElements = 1`. -/
theorem listing_misses_record_after_requestId_collision :
    validateBody sampleHost samplePost.body = [] ∧ validateBody sampleHost collidingPost.body = [] ∧
    normalizeEmail sampleHost samplePost.body.email.asString
      ≠ normalizeEmail sampleHost collidingPost.body.email.asString ∧
    (runPostsResponses sampleHost emptyState [samplePost, collidingPost]).map Response.status
      = [201, 201] ∧
    getDemoRequests sampleHost (runPosts sampleHost emptyState [samplePost, collidingPost])
        (some 0) (some 2) none
      = Response.listed [buildRequestData sampleHost collidingPost] 0 2 1 1 := by
  decide

end DemoIntake
